import Mathlib

/-!
# Verification of the grid path-finding core

This file embeds, in Lean, the search-and-animation core of the path-finding
visualizer: the grid data model and utilities (`src/app/utils/gridUtils.ts`),
the five search algorithms (`src/app/algorithms/algorithms.ts`), and the
state handling of the main route (`src/app/routes/home.tsx`).

Modelling conventions:

* JavaScript objects holding grid cells are embedded as a `NodeType`
  structure; the mutable object graph is embedded by explicit state passing
  of the whole grid (`Grid := List (List NodeType)`).
* Object references to cells (`previousNode`, frontier entries,
  `visitedNodesInOrder` entries) are embedded as `(row, col)` coordinates.
  In every grid built by `createGrid` the cells carry their own coordinates
  and are pairwise distinct, so JavaScript reference identity (`===`)
  coincides with coordinate equality.
* JavaScript `Infinity` sentinels for `distance`/`gScore`/`fScore` are
  embedded as `⊤` in `ℕ∞`.
* `while` loops are embedded as fuel recursion.  The fuel passed by the
  top-level wrappers (`totalCells grid + 1` and similar) dominates the
  number of iterations the JavaScript loop can perform, and on fuel
  exhaustion the embedding returns the same value as the loop's normal
  frontier-empty exit.
* `Array.prototype.sort` (stable since ES2019) with the numeric comparators
  used by the source is embedded as a stable insertion sort
  (`stableSortBy`) on the corresponding key; for the total preorders used
  here every stable sort produces the same list.
* A JavaScript stack used with `push`/`pop` (both at the array's end) is
  embedded as a Lean list used with cons/head, i.e. kept in reversed order;
  a queue used with `push`/`shift` is embedded as a list in source order.
-/

/-- Cell coordinates `(row, col)`. -/
abbrev Coord := Nat × Nat

/-- The cell record `NodeType` of `gridUtils.ts`.  `previousNode` back
references are embedded as coordinates, numeric fields that are initialised
with `Infinity` live in `ℕ∞`. -/
structure NodeType where
  row : Nat
  col : Nat
  isStart : Bool
  isEnd : Bool
  isWall : Bool
  isVisited : Bool
  isPath : Bool
  distance : ℕ∞
  previousNode : Option Coord
  gScore : ℕ∞
  fScore : ℕ∞
deriving DecidableEq

/-- A grid is a list of rows of cells. -/
abbrev Grid := List (List NodeType)

/-- `grid[0].length` as used by the bound checks of the source
(`getNeighbors`, `validatePath`, `generateMaze`). -/
def gridCols (grid : Grid) : Nat :=
  (grid.head?.map List.length).getD 0

/-- Number of cells of a rectangular grid (`newGrid.length * newGrid[0].length`). -/
def totalCells (grid : Grid) : Nat :=
  grid.length * gridCols grid

/-- Look up the cell at a coordinate. -/
def nodeAt? (grid : Grid) (c : Coord) : Option NodeType :=
  match grid[c.1]? with
  | none => none
  | some r => r[c.2]?

/-- Replace the cell at a coordinate by `f` of it; out-of-bounds coordinates
leave the grid unchanged. -/
def modifyNode (grid : Grid) (c : Coord) (f : NodeType → NodeType) : Grid :=
  List.modify (fun row => List.modify f c.2 row) c.1 grid

/-- `isWall` of the cell at a coordinate (`false` when out of bounds). -/
def wallAt (grid : Grid) (c : Coord) : Bool :=
  ((nodeAt? grid c).map NodeType.isWall).getD false

/-- `isVisited` of the cell at a coordinate (`false` when out of bounds). -/
def visitedAt (grid : Grid) (c : Coord) : Bool :=
  ((nodeAt? grid c).map NodeType.isVisited).getD false

/-- `distance` of the cell at a coordinate (`⊤` when out of bounds). -/
def distAt (grid : Grid) (c : Coord) : ℕ∞ :=
  ((nodeAt? grid c).map NodeType.distance).getD ⊤

/-- `gScore` of the cell at a coordinate (`⊤` when out of bounds). -/
def gScoreAt (grid : Grid) (c : Coord) : ℕ∞ :=
  ((nodeAt? grid c).map NodeType.gScore).getD ⊤

/-- `fScore` of the cell at a coordinate (`⊤` when out of bounds). -/
def fScoreAt (grid : Grid) (c : Coord) : ℕ∞ :=
  ((nodeAt? grid c).map NodeType.fScore).getD ⊤

/-- `previousNode` of the cell at a coordinate (`none` when out of bounds). -/
def prevAt (grid : Grid) (c : Coord) : Option Coord :=
  ((nodeAt? grid c).map NodeType.previousNode).getD none

/-- `createNode` of `gridUtils.ts`. -/
def createNode (row col : Nat) : NodeType where
  row := row
  col := col
  isStart := false
  isEnd := false
  isWall := false
  isVisited := false
  isPath := false
  distance := ⊤
  previousNode := none
  gScore := ⊤
  fScore := ⊤

/-- `createGrid` of `gridUtils.ts`: a `rows × cols` grid of default cells. -/
def createGrid (rows cols : Nat) : Grid :=
  (List.range rows).map fun row => (List.range cols).map fun col => createNode row col

/-- `getNeighbors` of `gridUtils.ts`/`algorithms.ts`: the in-bounds cells
among up, down, left, right of a coordinate, in that order. -/
def getNeighbors (node : Coord) (grid : Grid) : List Coord :=
  let directions : List (Int × Int) := [(-1, 0), (1, 0), (0, -1), (0, 1)]
  directions.filterMap fun d =>
    let newRow : Int := (node.1 : Int) + d.1
    let newCol : Int := (node.2 : Int) + d.2
    if 0 ≤ newRow ∧ newRow < (grid.length : Int) ∧ 0 ≤ newCol ∧ newCol < (gridCols grid : Int)
    then some (newRow.toNat, newCol.toNat)
    else none

/-- `resetGrid` of `gridUtils.ts`: clear the transient search fields,
keep the role flags. -/
def resetGrid (grid : Grid) : Grid :=
  grid.map fun row => row.map fun node =>
    { node with
      isVisited := false
      isPath := false
      distance := ⊤
      previousNode := none
      gScore := ⊤
      fScore := ⊤ }

/-- The result record of every algorithm in `algorithms.ts`; the
`visitedNodesInOrder` cell references are embedded as coordinates. -/
structure AlgorithmResult where
  visitedNodesInOrder : List Coord
  path : List Coord
deriving DecidableEq

/-- `reconstructPath` of `algorithms.ts`: follow the `previousNode` chain
from `endNode` backwards, building the path front to back.  The fuel passed
by the callers dominates the length of any acyclic chain. -/
def reconstructPath (grid : Grid) : Nat → Coord → List Coord
  | 0, _ => []
  | fuel + 1, c =>
    match prevAt grid c with
    | none => [c]
    | some p => reconstructPath grid fuel p ++ [c]

/-- The body of the neighbour loop of `dfs`: discover an unvisited non-wall
neighbour (mark it visited, point its `previousNode` at `current`) and push
it; the stack is kept in reversed order, so a push is a cons. -/
def dfsDiscover (current : Coord) (st : Grid × List Coord) (n : Coord) : Grid × List Coord :=
  if wallAt st.1 n = false ∧ visitedAt st.1 n = false then
    (modifyNode st.1 n fun nd => { nd with isVisited := true, previousNode := some current },
      n :: st.2)
  else st

/-- The `while` loop of `dfs` (stack kept in reversed order: the head is the
element `pop` returns). -/
def dfsLoop (endNode : Coord) : Nat → Grid → List Coord → List Coord → AlgorithmResult
  | 0, _, _, visitedOrder => ⟨visitedOrder, []⟩
  | fuel + 1, grid, stack, visitedOrder =>
    match stack with
    | [] => ⟨visitedOrder, []⟩
    | current :: rest =>
      let visitedOrder' := visitedOrder ++ [current]
      if current = endNode then
        ⟨visitedOrder', reconstructPath grid (totalCells grid + 1) endNode⟩
      else
        let st := (getNeighbors current grid).foldl (dfsDiscover current) (grid, rest)
        dfsLoop endNode fuel st.1 st.2 visitedOrder'

/-- `dfs` of `algorithms.ts`. -/
def dfs (grid : Grid) (startNode endNode : Coord) : AlgorithmResult :=
  let grid1 := modifyNode grid startNode fun nd => { nd with isVisited := true }
  dfsLoop endNode (totalCells grid + 1) grid1 [startNode] []

/-- The body of the neighbour loop of `bfs`: like `dfsDiscover`, but the
queue is kept in source order, so a push is an append. -/
def bfsDiscover (current : Coord) (st : Grid × List Coord) (n : Coord) : Grid × List Coord :=
  if wallAt st.1 n = false ∧ visitedAt st.1 n = false then
    (modifyNode st.1 n fun nd => { nd with isVisited := true, previousNode := some current },
      st.2 ++ [n])
  else st

/-- The `while` loop of `bfs` (queue in source order: the head is the element
`shift` returns). -/
def bfsLoop (endNode : Coord) : Nat → Grid → List Coord → List Coord → AlgorithmResult
  | 0, _, _, visitedOrder => ⟨visitedOrder, []⟩
  | fuel + 1, grid, queue, visitedOrder =>
    match queue with
    | [] => ⟨visitedOrder, []⟩
    | current :: rest =>
      let visitedOrder' := visitedOrder ++ [current]
      if current = endNode then
        ⟨visitedOrder', reconstructPath grid (totalCells grid + 1) endNode⟩
      else
        let st := (getNeighbors current grid).foldl (bfsDiscover current) (grid, rest)
        bfsLoop endNode fuel st.1 st.2 visitedOrder'

/-- `bfs` of `algorithms.ts`. -/
def bfs (grid : Grid) (startNode endNode : Coord) : AlgorithmResult :=
  let grid1 := modifyNode grid startNode fun nd => { nd with isVisited := true }
  bfsLoop endNode (totalCells grid + 1) grid1 [startNode] []

/-- The "manhattan" branch (also the `default` branch) of
`getHeuristicDistance` in `algorithms.ts`: `|Δrow| + |Δcol|`.  The
"euclidean" branch computes `Math.sqrt` on floating-point numbers and is not
modelled; `greedy` and `astar` below therefore take the heuristic as a
natural-number-valued function argument (the source's optional string
argument defaults to "manhattan"). -/
def manhattanDist (nodeA nodeB : Coord) : Nat :=
  ((nodeA.1 : Int) - nodeB.1).natAbs + ((nodeA.2 : Int) - nodeB.2).natAbs

/-- The "diagonal" branch of `getHeuristicDistance`: `max (|Δrow|, |Δcol|)`. -/
def diagonalDist (nodeA nodeB : Coord) : Nat :=
  max ((nodeA.1 : Int) - nodeB.1).natAbs ((nodeA.2 : Int) - nodeB.2).natAbs

/-- Insert `x` into a list behind every element whose key is not greater,
the insertion step of a stable insertion sort. -/
def insertSorted (le : Coord → Coord → Bool) (x : Coord) : List Coord → List Coord
  | [] => [x]
  | y :: ys => if le y x then y :: insertSorted le x ys else x :: y :: ys

/-- Stable sort (insertion sort) by a boolean comparison that is a total
preorder; it computes the same list as JavaScript's stable
`Array.prototype.sort` with the corresponding numeric comparator. -/
def stableSortBy (le : Coord → Coord → Bool) (l : List Coord) : List Coord :=
  l.foldl (fun acc x => insertSorted le x acc) []

/-- The body of the neighbour loop of `ucs`: relax an unvisited non-wall
neighbour whose distance improves, and enqueue it unless it is already in
the frontier. -/
def ucsRelax (current : Coord) (st : Grid × List Coord) (n : Coord) : Grid × List Coord :=
  if wallAt st.1 n = false ∧ visitedAt st.1 n = false then
    let newDistance := distAt st.1 current + 1
    if newDistance < distAt st.1 n then
      let grid' := modifyNode st.1 n fun nd =>
        { nd with distance := newDistance, previousNode := some current }
      if n ∈ st.2 then (grid', st.2) else (grid', st.2 ++ [n])
    else st
  else st

/-- The `while` loop of `ucs`: stable-sort the frontier by current
`distance`, shift the head, and either discard it (wall), finish (goal, the
return happens before the node is appended to `visitedNodesInOrder`), or
finalise and expand it. -/
def ucsLoop (endNode : Coord) : Nat → Grid → List Coord → List Coord → AlgorithmResult
  | 0, _, _, visitedOrder => ⟨visitedOrder, []⟩
  | fuel + 1, grid, unvisited, visitedOrder =>
    let sorted := stableSortBy (fun a b => decide (distAt grid a ≤ distAt grid b)) unvisited
    match sorted with
    | [] => ⟨visitedOrder, []⟩
    | current :: rest =>
      if wallAt grid current then ucsLoop endNode fuel grid rest visitedOrder
      else if current = endNode then
        ⟨visitedOrder, reconstructPath grid (totalCells grid + 1) endNode⟩
      else
        let grid1 := modifyNode grid current fun nd => { nd with isVisited := true }
        let visitedOrder' := visitedOrder ++ [current]
        let st := (getNeighbors current grid1).foldl (ucsRelax current) (grid1, rest)
        ucsLoop endNode fuel st.1 st.2 visitedOrder'

/-- `ucs` of `algorithms.ts`. -/
def ucs (grid : Grid) (startNode endNode : Coord) : AlgorithmResult :=
  let grid0 := grid.map fun row => row.map fun nd => { nd with distance := (⊤ : ℕ∞) }
  let grid1 := modifyNode grid0 startNode fun nd => { nd with distance := 0 }
  ucsLoop endNode (totalCells grid + 1) grid1 [startNode] []

/-- The body of the neighbour loop of `greedy`: enqueue an unvisited
non-wall neighbour that is not already in the frontier. -/
def greedyDiscover (current : Coord) (st : Grid × List Coord) (n : Coord) : Grid × List Coord :=
  if wallAt st.1 n = false ∧ visitedAt st.1 n = false ∧ n ∉ st.2 then
    (modifyNode st.1 n fun nd => { nd with previousNode := some current }, st.2 ++ [n])
  else st

/-- The `while` loop of `greedy`: stable-sort the frontier by heuristic
distance to the goal, shift the head, and either discard it (wall) or
finalise it (the goal test happens after the node is appended to
`visitedNodesInOrder`). -/
def greedyLoop (hfun : Coord → Coord → Nat) (endNode : Coord) :
    Nat → Grid → List Coord → List Coord → AlgorithmResult
  | 0, _, _, visitedOrder => ⟨visitedOrder, []⟩
  | fuel + 1, grid, unvisited, visitedOrder =>
    let sorted := stableSortBy (fun a b => decide (hfun a endNode ≤ hfun b endNode)) unvisited
    match sorted with
    | [] => ⟨visitedOrder, []⟩
    | current :: rest =>
      if wallAt grid current then greedyLoop hfun endNode fuel grid rest visitedOrder
      else
        let grid1 := modifyNode grid current fun nd => { nd with isVisited := true }
        let visitedOrder' := visitedOrder ++ [current]
        if current = endNode then
          ⟨visitedOrder', reconstructPath grid1 (totalCells grid1 + 1) endNode⟩
        else
          let st := (getNeighbors current grid1).foldl (greedyDiscover current) (grid1, rest)
          greedyLoop hfun endNode fuel st.1 st.2 visitedOrder'

/-- `greedy` of `algorithms.ts`, with the heuristic as a function argument
defaulting to Manhattan distance (the source's default). -/
def greedy (grid : Grid) (startNode endNode : Coord)
    (hfun : Coord → Coord → Nat := manhattanDist) : AlgorithmResult :=
  greedyLoop hfun endNode (totalCells grid + 1) grid [startNode] []

/-- The body of the neighbour loop of `astar`: relax an unvisited non-wall
neighbour whose tentative `gScore` improves, recompute its `fScore`, and
enqueue it unless it is already in the open set. -/
def astarRelax (hfun : Coord → Coord → Nat) (endNode current : Coord)
    (st : Grid × List Coord) (n : Coord) : Grid × List Coord :=
  if wallAt st.1 n = true ∨ visitedAt st.1 n = true then st
  else
    let tentativeGScore := gScoreAt st.1 current + 1
    if tentativeGScore < gScoreAt st.1 n then
      let grid' := modifyNode st.1 n fun nd =>
        { nd with
          previousNode := some current
          gScore := tentativeGScore
          fScore := tentativeGScore + (hfun n endNode : ℕ∞) }
      if n ∈ st.2 then (grid', st.2) else (grid', st.2 ++ [n])
    else st

/-- The `while` loop of `astar`: stable-sort the open set by `fScore`,
shift the head, and either discard it (wall) or finalise it (the goal test
happens after the node is appended to `visitedNodesInOrder`). -/
def astarLoop (hfun : Coord → Coord → Nat) (endNode : Coord) :
    Nat → Grid → List Coord → List Coord → AlgorithmResult
  | 0, _, _, visitedOrder => ⟨visitedOrder, []⟩
  | fuel + 1, grid, openSet, visitedOrder =>
    let sorted := stableSortBy (fun a b => decide (fScoreAt grid a ≤ fScoreAt grid b)) openSet
    match sorted with
    | [] => ⟨visitedOrder, []⟩
    | current :: rest =>
      if wallAt grid current then astarLoop hfun endNode fuel grid rest visitedOrder
      else
        let grid1 := modifyNode grid current fun nd => { nd with isVisited := true }
        let visitedOrder' := visitedOrder ++ [current]
        if current = endNode then
          ⟨visitedOrder', reconstructPath grid1 (totalCells grid1 + 1) endNode⟩
        else
          let st := (getNeighbors current grid1).foldl (astarRelax hfun endNode current) (grid1, rest)
          astarLoop hfun endNode fuel st.1 st.2 visitedOrder'

/-- `astar` of `algorithms.ts`, with the heuristic as a function argument
defaulting to Manhattan distance (the source's default). -/
def astar (grid : Grid) (startNode endNode : Coord)
    (hfun : Coord → Coord → Nat := manhattanDist) : AlgorithmResult :=
  let grid0 := grid.map fun row => row.map fun nd =>
    { nd with gScore := (⊤ : ℕ∞), fScore := (⊤ : ℕ∞) }
  let grid1 := modifyNode grid0 startNode fun nd =>
    { nd with gScore := 0, fScore := (hfun startNode endNode : ℕ∞) }
  astarLoop hfun endNode (totalCells grid + 1) grid1 [startNode] []

/-- The `SeededRandom` class of `gridUtils.ts` (a linear congruential
generator); the mutable `seed` field is the whole state. -/
structure SeededRandom where
  seed : Int
deriving DecidableEq

/-- The `SeededRandom` constructor: fold the seed into the modulus range
(JavaScript `%` truncates towards zero, i.e. `Int.tmod`). -/
def SeededRandom.create (seed : Int) : SeededRandom :=
  let s := Int.tmod seed 2147483647
  ⟨if s ≤ 0 then s + 2147483646 else s⟩

/-- `SeededRandom.next()`: advance the state by the LCG formula and return
the normalised value `(seed - 1) / 2147483646`.  The JavaScript division is
floating point; it is embedded exactly, in `ℚ`. -/
def SeededRandom.next (r : SeededRandom) : SeededRandom × ℚ :=
  let s := Int.tmod (r.seed * 16807) 2147483647
  (⟨s⟩, ((s : ℚ) - 1) / 2147483646)

/-- The per-row pass of the obstacle loop of `generateRandomObstacles`:
walk the cells left to right, skip the start/goal coordinates (consuming no
random draw), otherwise draw and place a wall when the value is below the
clamped density. -/
def obstacleRow (clamped : ℚ) (startPos goalPos : Coord) (row : Nat) :
    Nat → SeededRandom → List NodeType → List NodeType × SeededRandom
  | _, rng, [] => ([], rng)
  | col, rng, nd :: rest =>
    if (row = startPos.1 ∧ col = startPos.2) ∨ (row = goalPos.1 ∧ col = goalPos.2) then
      let t := obstacleRow clamped startPos goalPos row (col + 1) rng rest
      (nd :: t.1, t.2)
    else
      let rv := rng.next
      let nd' := if rv.2 < clamped then { nd with isWall := true } else nd
      let t := obstacleRow clamped startPos goalPos row (col + 1) rv.1 rest
      (nd' :: t.1, t.2)

/-- The row-major traversal of the obstacle loop of
`generateRandomObstacles`. -/
def obstacleRows (clamped : ℚ) (startPos goalPos : Coord) :
    Nat → SeededRandom → List (List NodeType) → Grid
  | _, _, [] => []
  | row, rng, r :: rs =>
    let t := obstacleRow clamped startPos goalPos row 0 rng r
    t.1 :: obstacleRows clamped startPos goalPos (row + 1) t.2 rs

/-- `generateRandomObstacles` of `gridUtils.ts`: clamp the density, clear
every wall, then re-draw walls cell by cell from a fresh seeded generator. -/
def generateRandomObstacles (grid : Grid) (density : ℚ) (seed : Int)
    (startPos goalPos : Coord) : Grid :=
  let clampedDensity := max 0 (min 1 density)
  let random := SeededRandom.create seed
  let cleared := grid.map fun row => row.map fun nd => { nd with isWall := false }
  obstacleRows clampedDensity startPos goalPos 0 random cleared

/-- `clearObstacles` of `gridUtils.ts`. -/
def clearObstacles (grid : Grid) : Grid :=
  grid.map fun row => row.map fun nd => { nd with isWall := false }

/-- One row of the initialisation pass of `generateMaze`: wall every cell
whose coordinates are not the start or goal position, clear those two. -/
def mazeInitRow (startPos goalPos : Coord) (row : Nat) : Nat → List NodeType → List NodeType
  | _, [] => []
  | col, nd :: rest =>
    (if (row = startPos.1 ∧ col = startPos.2) ∨ (row = goalPos.1 ∧ col = goalPos.2)
     then { nd with isWall := false }
     else { nd with isWall := true })
      :: mazeInitRow startPos goalPos row (col + 1) rest

/-- The row-major initialisation pass of `generateMaze`. -/
def mazeInitRows (startPos goalPos : Coord) : Nat → List (List NodeType) → Grid
  | _, [] => []
  | row, r :: rs => mazeInitRow startPos goalPos row 0 r ::
      mazeInitRows startPos goalPos (row + 1) rs

/-- The initialisation pass of `generateMaze` over the whole grid. -/
def mazeInit (startPos goalPos : Coord) (grid : Grid) : Grid :=
  mazeInitRows startPos goalPos 0 grid

/-- The opening loop of `generateMaze`: each iteration draws a row and then
a column value, skips the start/goal coordinates, and otherwise clears the
wall of the drawn cell (repeated draws of the same cell clear it again).
`Math.floor(random.next() * len)` with the drawn value `(seed - 1) /
2147483646` is computed exactly as the floor division of `(seed - 1) * len`
by `2147483646`.  For the seeds reachable from integer input the drawn
values lie in `[0, 1)` and the computed indices are in bounds; the bounds
guard below makes the out-of-range draws of the degenerate generator states
a no-op instead of the JavaScript `TypeError`. -/
def mazeOpenLoop (startPos goalPos : Coord) : Nat → SeededRandom → Grid → Grid
  | 0, _, g => g
  | i + 1, rng, g =>
    let rv1 := rng.next
    let rv2 := rv1.1.next
    let randomRow : Int := Int.fdiv ((rv1.1.seed - 1) * (g.length : Int)) 2147483646
    let randomCol : Int := Int.fdiv ((rv2.1.seed - 1) * (gridCols g : Int)) 2147483646
    if (randomRow = (startPos.1 : Int) ∧ randomCol = (startPos.2 : Int)) ∨
       (randomRow = (goalPos.1 : Int) ∧ randomCol = (goalPos.2 : Int)) then
      mazeOpenLoop startPos goalPos i rv2.1 g
    else
      let g' :=
        if 0 ≤ randomRow ∧ 0 ≤ randomCol then
          modifyNode g (randomRow.toNat, randomCol.toNat) fun nd => { nd with isWall := false }
        else g
      mazeOpenLoop startPos goalPos i rv2.1 g'

/-- `generateMaze` of `gridUtils.ts`: wall everything except start/goal,
then open `Math.floor(totalCells * 0.3)` randomly drawn cells.  For every
grid of at most 400 cells `Math.floor(totalCells * 0.3)` computed on
doubles equals `3 * totalCells / 10` in integer arithmetic. -/
def generateMaze (grid : Grid) (seed : Int) (startPos goalPos : Coord) : Grid :=
  let random := SeededRandom.create seed
  let newGrid := mazeInit startPos goalPos grid
  let cellsToOpen := 3 * totalCells newGrid / 10
  mazeOpenLoop startPos goalPos cellsToOpen random newGrid

/-- Look up the flood-fill `visited` matrix of `validatePath`. -/
def visitedMAt (m : List (List Bool)) (c : Coord) : Bool :=
  (match m[c.1]? with
   | none => none
   | some r => r[c.2]?).getD false

/-- Mark a coordinate in the flood-fill `visited` matrix of `validatePath`
(no-op out of bounds). -/
def setVisitedM (m : List (List Bool)) (c : Coord) : List (List Bool) :=
  List.modify (fun row => List.modify (fun _ => true) c.2 row) c.1 m

/-- The direction loop of `validatePath`: bounds-check the neighbour in
direction `d` and push it when it is passable and unvisited (the stack is
kept in reversed order, as in `dfs`). -/
def validateExpand (grid : Grid) (current : Coord)
    (st : List (List Bool) × List Coord) (d : Int × Int) : List (List Bool) × List Coord :=
  let newRow : Int := (current.1 : Int) + d.1
  let newCol : Int := (current.2 : Int) + d.2
  if 0 ≤ newRow ∧ newRow < (grid.length : Int) ∧ 0 ≤ newCol ∧ newCol < (gridCols grid : Int) then
    let c : Coord := (newRow.toNat, newCol.toNat)
    if wallAt grid c = false ∧ visitedMAt st.1 c = false then
      (setVisitedM st.1 c, c :: st.2)
    else st
  else st

/-- The `while` loop of `validatePath`. -/
def validateLoop (grid : Grid) (goalPos : Coord) : Nat → List (List Bool) → List Coord → Bool
  | 0, _, _ => false
  | fuel + 1, visitedM, stack =>
    match stack with
    | [] => false
    | current :: rest =>
      if current = goalPos then true
      else
        let st := ([(-1, 0), (1, 0), (0, -1), (0, 1)] : List (Int × Int)).foldl
          (validateExpand grid current) (visitedM, rest)
        validateLoop grid goalPos fuel st.1 st.2

/-- `validatePath` of `gridUtils.ts`: stack-based flood fill from the start
position; `true` iff the goal is popped before the stack empties. -/
def validatePath (grid : Grid) (startPos goalPos : Coord) : Bool :=
  let visited0 : List (List Bool) := grid.map fun row => row.map fun _ => false
  let visited1 := setVisitedM visited0 startPos
  validateLoop grid goalPos (totalCells grid + 1) visited1 [startPos]

/-- The component state of `routes/home.tsx` that the claims refer to (the
animation timer handle itself carries no checkable state and is omitted;
`executionTime` is the measured wall time, reset to `0`). -/
structure HomeState where
  grid : Grid
  startNode : Coord
  goalNode : Coord
  selectedAlgorithm : String
  selectedHeuristic : String
  isPlaying : Bool
  isPaused : Bool
  currentStep : Nat
  animationSpeed : Nat
  visitedNodes : List Coord
  finalPath : List Coord
  isComplete : Bool
  executionTime : ℚ

/-- `initializeGrid` of `home.tsx`: build a fresh default 7×7 grid and set
the start and goal flags at the stored positions. -/
def initializeGrid (s : HomeState) : HomeState :=
  let newGrid := createGrid 7 7
  let g1 := modifyNode newGrid s.startNode fun nd => { nd with isStart := true }
  let g2 := modifyNode g1 s.goalNode fun nd => { nd with isEnd := true }
  { s with grid := g2 }

/-- `handleReset` of `home.tsx`: stop the animation, clear the step counter,
results and execution time, and re-initialise the grid. -/
def handleReset (s : HomeState) : HomeState :=
  initializeGrid
    { s with
      isPlaying := false
      isPaused := false
      currentStep := 0
      isComplete := false
      visitedNodes := []
      finalPath := []
      executionTime := 0 }

/-- `getAlgorithmFunction` of `home.tsx`: the switch on the selected
algorithm name covers only "dfs" and "bfs" and falls back to `dfs`. -/
def getAlgorithmFunction (selectedAlgorithm : String) : Grid → Coord → Coord → AlgorithmResult :=
  match selectedAlgorithm with
  | "dfs" => dfs
  | "bfs" => bfs
  | _ => dfs

/-! ## Basic grid lemmas -/

/-- The shape of a grid: its list of row lengths. -/
def gridShape (g : Grid) : List Nat := g.map List.length

/-- A grid is rectangular when every row has length `grid[0].length`. -/
def rectangular (g : Grid) : Prop := ∀ row ∈ g, row.length = gridCols g

/-- A coordinate is in bounds when its cell lookup succeeds. -/
def inBoundsAt (g : Grid) (c : Coord) : Prop := (nodeAt? g c).isSome = true

/-! ## C2: `handleReset` -/

/-- `isStart` of the cell at a coordinate (`false` when out of bounds). -/
def isStartAt (g : Grid) (c : Coord) : Bool :=
  ((nodeAt? g c).map NodeType.isStart).getD false

/-- `isEnd` of the cell at a coordinate (`false` when out of bounds). -/
def isEndAt (g : Grid) (c : Coord) : Bool :=
  ((nodeAt? g c).map NodeType.isEnd).getD false

/-- `isPath` of the cell at a coordinate (`false` when out of bounds). -/
def isPathAt (g : Grid) (c : Coord) : Bool :=
  ((nodeAt? g c).map NodeType.isPath).getD false

/-! ## C8: the maze generator -/

/-- Count, in one row starting at column index `col`, the cells that are
neither the start nor the goal coordinate and are not walls. -/
def openRowCount (startPos goalPos : Coord) (row : Nat) : Nat → List NodeType → Nat
  | _, [] => 0
  | col, nd :: rest =>
    (if ¬((row, col) = startPos ∨ (row, col) = goalPos) ∧ nd.isWall = false then 1 else 0) +
      openRowCount startPos goalPos row (col + 1) rest

/-- Row-major sum of `openRowCount` starting at row index `row`. -/
def openCountRows (startPos goalPos : Coord) : Nat → List (List NodeType) → Nat
  | _, [] => 0
  | row, r :: rs =>
    openRowCount startPos goalPos row 0 r + openCountRows startPos goalPos (row + 1) rs

/-- The number of non-wall cells of a grid other than the start and goal
coordinates. -/
def openCellCount (startPos goalPos : Coord) (g : Grid) : Nat :=
  openCountRows startPos goalPos 0 g

/-! ## C9: determinism of `generateRandomObstacles` -/

/-- The wall layout of a grid: the matrix of `isWall` flags. -/
def wallLayout (g : Grid) : List (List Bool) :=
  g.map fun row => row.map NodeType.isWall

/-- The wall pattern `obstacleRow` produces on a cleared row, as a function
of the row length alone. -/
def obstacleRowSpec (clamped : ℚ) (startPos goalPos : Coord) (row : Nat) :
    Nat → SeededRandom → Nat → List Bool × SeededRandom
  | _, rng, 0 => ([], rng)
  | col, rng, n + 1 =>
    if (row = startPos.1 ∧ col = startPos.2) ∨ (row = goalPos.1 ∧ col = goalPos.2) then
      let t := obstacleRowSpec clamped startPos goalPos row (col + 1) rng n
      (false :: t.1, t.2)
    else
      let rv := rng.next
      let t := obstacleRowSpec clamped startPos goalPos row (col + 1) rv.1 n
      ((if rv.2 < clamped then true else false) :: t.1, t.2)

/-- The wall pattern `obstacleRows` produces on a cleared grid, as a
function of the grid shape alone. -/
def obstacleRowsSpec (clamped : ℚ) (startPos goalPos : Coord) :
    Nat → SeededRandom → List Nat → List (List Bool) × SeededRandom
  | _, rng, [] => ([], rng)
  | row, rng, n :: ns =>
    let t := obstacleRowSpec clamped startPos goalPos row 0 rng n
    let ts := obstacleRowsSpec clamped startPos goalPos (row + 1) t.2 ns
    (t.1 :: ts.1, ts.2)

/-- The invariant of the frontier-based loops (`ucs`, `greedy`, `astar`):
the frontier has no duplicates and consists of unvisited in-bounds cells,
and the visit list has no duplicates and consists of visited cells. -/
def frontierOk (g : Grid) (frontier visited : List Coord) : Prop :=
  frontier.Nodup ∧ visited.Nodup ∧
  (∀ c ∈ frontier, visitedAt g c = false ∧ c.1 < g.length ∧ c.2 < gridCols g) ∧
  (∀ c ∈ visited, visitedAt g c = true)

/-! ## C7: the unreachable-goal outcome -/

/-- One movement step of the searches: `b` is an in-bounds neighbour of `a`
and is not a wall. -/
def stepRel (grid : Grid) (a b : Coord) : Prop :=
  b ∈ getNeighbors a grid ∧ wallAt grid b = false

/-- The goal is reachable from the start through non-wall cells. -/
def Reachable (grid : Grid) (s g : Coord) : Prop :=
  Relation.ReflTransGen (stepRel grid) s g

/-! ## C6: `validatePath` agrees with `bfs` reachability -/

/-- The bounds-checked neighbour of a coordinate in one direction, shared
by the direction loops of `getNeighbors` and `validatePath`. -/
def neighborOf (grid : Grid) (node : Coord) (d : Int × Int) : Option Coord :=
  let newRow : Int := (node.1 : Int) + d.1
  let newCol : Int := (node.2 : Int) + d.2
  if 0 ≤ newRow ∧ newRow < (grid.length : Int) ∧ 0 ≤ newCol ∧ newCol < (gridCols grid : Int)
  then some (newRow.toNat, newCol.toNat)
  else none

/-- Number of unvisited entries of the flood-fill matrix. -/
def countFalse (vm : List (List Bool)) : Nat :=
  (vm.map fun r => (r.filter fun b => b = false).length).sum

/-- The shape of a boolean matrix. -/
def vmShape (vm : List (List Bool)) : List Nat := vm.map List.length

/-- Number of unvisited cells of a grid. -/
def countUnvisited (g : Grid) : Nat :=
  (g.map fun r => (r.filter fun nd => nd.isVisited = false).length).sum

theorem length_eq_shape (g : Grid) : g.length = (gridShape g).length := by
  simp [gridShape]

theorem gridCols_eq_shape (g : Grid) : gridCols g = ((gridShape g).head?).getD 0 := by
  simp [gridShape, gridCols, List.head?_map]

theorem gridShape_modifyNode (g : Grid) (c : Coord) (f : NodeType → NodeType) :
    gridShape (modifyNode g c f) = gridShape g := by
  apply List.ext_getElem?
  intro n
  simp only [gridShape, List.getElem?_map, modifyNode, List.getElem?_modify]
  cases g[n]? with
  | none => rfl
  | some row =>
    simp only [Option.map_eq_map, Option.map_some]
    split <;> simp [List.length_modify]

theorem length_modifyNode (g : Grid) (c : Coord) (f : NodeType → NodeType) :
    (modifyNode g c f).length = g.length := by
  rw [length_eq_shape, gridShape_modifyNode, ← length_eq_shape]

theorem gridCols_modifyNode (g : Grid) (c : Coord) (f : NodeType → NodeType) :
    gridCols (modifyNode g c f) = gridCols g := by
  rw [gridCols_eq_shape, gridShape_modifyNode, ← gridCols_eq_shape]

theorem nodeAt?_modifyNode_self (g : Grid) (c : Coord) (f : NodeType → NodeType) :
    nodeAt? (modifyNode g c f) c = (nodeAt? g c).map f := by
  unfold nodeAt? modifyNode
  rw [List.getElem?_modify]
  cases hrow : g[c.1]? with
  | none => rfl
  | some row =>
    cases hnd : row[c.2]? with
    | none => simp [List.getElem?_modify, hnd]
    | some nd => simp [List.getElem?_modify, hnd]

theorem nodeAt?_modifyNode_ne (g : Grid) (c c' : Coord) (f : NodeType → NodeType)
    (h : c' ≠ c) : nodeAt? (modifyNode g c f) c' = nodeAt? g c' := by
  unfold nodeAt? modifyNode
  rw [List.getElem?_modify]
  by_cases h1 : c.1 = c'.1
  · have h2 : c.2 ≠ c'.2 := by
      intro h2
      exact h (Prod.ext h1.symm h2.symm)
    cases hrow : g[c'.1]? with
    | none => rfl
    | some row =>
      simp only [Option.map_eq_map, Option.map_some, if_pos h1, List.getElem?_modify]
      cases hnd : row[c'.2]? with
      | none => rfl
      | some nd => simp [if_neg h2]
  · cases hrow : g[c'.1]? with
    | none => rfl
    | some row => simp [if_neg h1]

/-- A field that `f` preserves is unchanged at every coordinate by
`modifyNode _ _ f`. -/
theorem map_nodeAt?_modifyNode {β : Type} (p : NodeType → β) (g : Grid) (c c' : Coord)
    (f : NodeType → NodeType) (hp : ∀ nd, p (f nd) = p nd) :
    (nodeAt? (modifyNode g c f) c').map p = (nodeAt? g c').map p := by
  unfold nodeAt? modifyNode
  rw [List.getElem?_modify]
  by_cases h1 : c.1 = c'.1
  · cases hrow : g[c'.1]? with
    | none => rfl
    | some row =>
      simp only [Option.map_eq_map, Option.map_some, if_pos h1, List.getElem?_modify]
      cases hnd : row[c'.2]? with
      | none => rfl
      | some nd =>
        simp only [Option.map_some, Option.map]
        split <;> simp [hp]
  · cases hrow : g[c'.1]? with
    | none => rfl
    | some row => simp [if_neg h1]

theorem inBoundsAt_modifyNode (g : Grid) (c c' : Coord) (f : NodeType → NodeType) :
    inBoundsAt (modifyNode g c f) c' ↔ inBoundsAt g c' := by
  unfold inBoundsAt
  have h := map_nodeAt?_modifyNode (fun _ => true) g c c' f (fun _ => rfl)
  constructor
  · intro hs
    cases hg : nodeAt? g c' with
    | none => rw [hg] at h; cases hm : nodeAt? (modifyNode g c f) c' <;> simp_all
    | some nd => rfl
  · intro hs
    cases hm : nodeAt? (modifyNode g c f) c' with
    | none => rw [hm] at h; cases hg : nodeAt? g c' <;> simp_all
    | some nd => rfl

theorem rectangular_iff_shape (g : Grid) :
    rectangular g ↔ ∀ x ∈ gridShape g, x = gridCols g := by
  unfold rectangular gridShape
  simp [List.forall_mem_map]

theorem rectangular_modifyNode (g : Grid) (c : Coord) (f : NodeType → NodeType)
    (h : rectangular g) : rectangular (modifyNode g c f) := by
  rw [rectangular_iff_shape, gridShape_modifyNode, gridCols_modifyNode]
  exact (rectangular_iff_shape g).mp h

theorem visitedAt_modifyNode_ne (g : Grid) (c c' : Coord) (f : NodeType → NodeType)
    (h : c' ≠ c) : visitedAt (modifyNode g c f) c' = visitedAt g c' := by
  unfold visitedAt
  rw [nodeAt?_modifyNode_ne g c c' f h]

theorem visitedAt_mark_self (g : Grid) (c : Coord) (hin : inBoundsAt g c)
    (f : NodeType → NodeType) (hf : ∀ nd, (f nd).isVisited = true) :
    visitedAt (modifyNode g c f) c = true := by
  unfold visitedAt
  rw [nodeAt?_modifyNode_self g c f]
  unfold inBoundsAt at hin
  cases hnd : nodeAt? g c with
  | none => rw [hnd] at hin; simp at hin
  | some nd => simp [hf]

theorem visitedAt_modifyNode_preserve (g : Grid) (c c' : Coord) (f : NodeType → NodeType)
    (hp : ∀ nd, (f nd).isVisited = nd.isVisited) :
    visitedAt (modifyNode g c f) c' = visitedAt g c' := by
  unfold visitedAt
  rw [map_nodeAt?_modifyNode NodeType.isVisited g c c' f hp]

theorem wallAt_modifyNode_preserve (g : Grid) (c c' : Coord) (f : NodeType → NodeType)
    (hp : ∀ nd, (f nd).isWall = nd.isWall) :
    wallAt (modifyNode g c f) c' = wallAt g c' := by
  unfold wallAt
  rw [map_nodeAt?_modifyNode NodeType.isWall g c c' f hp]

/-- Members of `getNeighbors` satisfy the bounds check. -/
theorem mem_getNeighbors_lt {g : Grid} {c n : Coord} (h : n ∈ getNeighbors c g) :
    n.1 < g.length ∧ n.2 < gridCols g := by
  unfold getNeighbors at h
  simp only [List.mem_filterMap] at h
  obtain ⟨d, _, hd⟩ := h
  revert hd
  split
  · rename_i hcond
    intro hd
    obtain ⟨h1, h2, h3, h4⟩ := hcond
    cases hd
    refine ⟨?_, ?_⟩ <;> omega
  · intro hd
    cases hd

/-- In a rectangular grid every bounds-checked coordinate has a cell. -/
theorem inBoundsAt_of_lt {g : Grid} {c : Coord} (hrect : rectangular g)
    (h1 : c.1 < g.length) (h2 : c.2 < gridCols g) : inBoundsAt g c := by
  unfold inBoundsAt nodeAt?
  have hrow := hrect g[c.1] (List.getElem_mem h1)
  rw [List.getElem?_eq_getElem h1]
  dsimp only
  rw [List.getElem?_eq_getElem (by omega : c.2 < g[c.1].length)]
  rfl

/-- `getNeighbors` only depends on the shape of the grid. -/
theorem getNeighbors_congr_shape (c : Coord) (g1 g2 : Grid)
    (h : gridShape g1 = gridShape g2) : getNeighbors c g1 = getNeighbors c g2 := by
  unfold getNeighbors
  rw [show g1.length = g2.length by rw [length_eq_shape, h, ← length_eq_shape],
    show gridCols g1 = gridCols g2 by rw [gridCols_eq_shape, h, ← gridCols_eq_shape]]

/-! ## C1: position of the goal in `visitedNodesInOrder` -/

theorem dfsLoop_goal_last (e : Coord) :
    ∀ (fuel : Nat) (grid : Grid) (stack visitedOrder : List Coord),
      (dfsLoop e fuel grid stack visitedOrder).path ≠ [] →
      (dfsLoop e fuel grid stack visitedOrder).visitedNodesInOrder.getLast? = some e := by
  intro fuel
  induction fuel with
  | zero =>
    intro grid stack visited h
    simp [dfsLoop] at h
  | succ n ih =>
    intro grid stack visited h
    cases stack with
    | nil => simp [dfsLoop] at h
    | cons current rest =>
      simp only [dfsLoop] at h ⊢
      by_cases hc : current = e
      · subst hc
        simp only [if_pos rfl] at h ⊢
        exact List.getLast?_concat _
      · simp only [if_neg hc] at h ⊢
        exact ih _ _ _ h

theorem bfsLoop_goal_last (e : Coord) :
    ∀ (fuel : Nat) (grid : Grid) (queue visitedOrder : List Coord),
      (bfsLoop e fuel grid queue visitedOrder).path ≠ [] →
      (bfsLoop e fuel grid queue visitedOrder).visitedNodesInOrder.getLast? = some e := by
  intro fuel
  induction fuel with
  | zero =>
    intro grid queue visited h
    simp [bfsLoop] at h
  | succ n ih =>
    intro grid queue visited h
    cases queue with
    | nil => simp [bfsLoop] at h
    | cons current rest =>
      simp only [bfsLoop] at h ⊢
      by_cases hc : current = e
      · subst hc
        simp only [if_pos rfl] at h ⊢
        exact List.getLast?_concat _
      · simp only [if_neg hc] at h ⊢
        exact ih _ _ _ h

theorem greedyLoop_goal_last (hfun : Coord → Coord → Nat) (e : Coord) :
    ∀ (fuel : Nat) (grid : Grid) (unvisited visitedOrder : List Coord),
      (greedyLoop hfun e fuel grid unvisited visitedOrder).path ≠ [] →
      (greedyLoop hfun e fuel grid unvisited visitedOrder).visitedNodesInOrder.getLast? = some e := by
  intro fuel
  induction fuel with
  | zero =>
    intro grid unvisited visited h
    simp [greedyLoop] at h
  | succ n ih =>
    intro grid unvisited visited h
    simp only [greedyLoop] at h ⊢
    cases hs : stableSortBy (fun a b => decide (hfun a e ≤ hfun b e)) unvisited with
    | nil => rw [hs] at h; exact absurd rfl h
    | cons current rest =>
      rw [hs] at h
      dsimp only at h ⊢
      by_cases hw : wallAt grid current
      · simp only [if_pos hw] at h ⊢
        exact ih _ _ _ h
      · simp only [if_neg hw] at h ⊢
        by_cases hc : current = e
        · subst hc
          simp only [if_pos rfl] at h ⊢
          exact List.getLast?_concat _
        · simp only [if_neg hc] at h ⊢
          exact ih _ _ _ h

theorem astarLoop_goal_last (hfun : Coord → Coord → Nat) (e : Coord) :
    ∀ (fuel : Nat) (grid : Grid) (openSet visitedOrder : List Coord),
      (astarLoop hfun e fuel grid openSet visitedOrder).path ≠ [] →
      (astarLoop hfun e fuel grid openSet visitedOrder).visitedNodesInOrder.getLast? = some e := by
  intro fuel
  induction fuel with
  | zero =>
    intro grid openSet visited h
    simp [astarLoop] at h
  | succ n ih =>
    intro grid openSet visited h
    simp only [astarLoop] at h ⊢
    cases hs : stableSortBy (fun a b => decide (fScoreAt grid a ≤ fScoreAt grid b)) openSet with
    | nil => rw [hs] at h; exact absurd rfl h
    | cons current rest =>
      rw [hs] at h
      dsimp only at h ⊢
      by_cases hw : wallAt grid current
      · simp only [if_pos hw] at h ⊢
        exact ih _ _ _ h
      · simp only [if_neg hw] at h ⊢
        by_cases hc : current = e
        · subst hc
          simp only [if_pos rfl] at h ⊢
          exact List.getLast?_concat _
        · simp only [if_neg hc] at h ⊢
          exact ih _ _ _ h

theorem ucsLoop_goal_not_mem (e : Coord) :
    ∀ (fuel : Nat) (grid : Grid) (unvisited visitedOrder : List Coord),
      e ∉ visitedOrder →
      e ∉ (ucsLoop e fuel grid unvisited visitedOrder).visitedNodesInOrder := by
  intro fuel
  induction fuel with
  | zero =>
    intro grid unvisited visited h
    simpa [ucsLoop] using h
  | succ n ih =>
    intro grid unvisited visited h
    simp only [ucsLoop]
    cases hs : stableSortBy (fun a b => decide (distAt grid a ≤ distAt grid b)) unvisited with
    | nil => simpa using h
    | cons current rest =>
      by_cases hw : wallAt grid current
      · simp only [if_pos hw]
        exact ih _ _ _ h
      · simp only [if_neg hw]
        by_cases hc : current = e
        · simp only [if_pos hc]
          simpa using h
        · simp only [if_neg hc]
          apply ih
          simp only [List.mem_append, List.mem_singleton]
          rintro (hv | hv)
          · exact h hv
          · exact hc hv.symm

/-- C1 (amended): for `dfs`, `bfs`, `greedy` and `astar` a non-empty
returned path implies that the goal cell is the last element of
`visitedNodesInOrder`; `ucs` instead returns at the instant the goal is
selected as current *without* appending it, so the goal never occurs in its
`visitedNodesInOrder`. -/
theorem goal_position_in_visited_order :
    (∀ (grid : Grid) (s e : Coord), (dfs grid s e).path ≠ [] →
      (dfs grid s e).visitedNodesInOrder.getLast? = some e) ∧
    (∀ (grid : Grid) (s e : Coord), (bfs grid s e).path ≠ [] →
      (bfs grid s e).visitedNodesInOrder.getLast? = some e) ∧
    (∀ (grid : Grid) (s e : Coord) (hfun : Coord → Coord → Nat),
      (greedy grid s e hfun).path ≠ [] →
      (greedy grid s e hfun).visitedNodesInOrder.getLast? = some e) ∧
    (∀ (grid : Grid) (s e : Coord) (hfun : Coord → Coord → Nat),
      (astar grid s e hfun).path ≠ [] →
      (astar grid s e hfun).visitedNodesInOrder.getLast? = some e) ∧
    (∀ (grid : Grid) (s e : Coord), e ∉ (ucs grid s e).visitedNodesInOrder) := by
  refine ⟨?_, ?_, ?_, ?_, ?_⟩
  · intro grid s e h
    exact dfsLoop_goal_last e _ _ _ _ h
  · intro grid s e h
    exact bfsLoop_goal_last e _ _ _ _ h
  · intro grid s e hfun h
    exact greedyLoop_goal_last hfun e _ _ _ _ h
  · intro grid s e hfun h
    exact astarLoop_goal_last hfun e _ _ _ _ h
  · intro grid s e
    exact ucsLoop_goal_not_mem e _ _ _ _ (by simp)

/-- C1 (counterexample): on a reset 1×2 grid, `ucs` returns the non-empty
path `[(0,0), (0,1)]` while its `visitedNodesInOrder` is `[(0,0)]`, whose
last element is not the goal — the goal was never appended. -/
theorem ucs_goal_not_last_counterexample :
    (ucs (resetGrid (createGrid 1 2)) (0, 0) (0, 1)).path ≠ [] ∧
    (ucs (resetGrid (createGrid 1 2)) (0, 0) (0, 1)).visitedNodesInOrder.getLast? ≠
      some (0, 1) := by
  decide

/-- C1 (witness): the amended theorem applied to `dfs` on a concrete reset
2×2 grid, with the non-emptiness hypothesis discharged by computation. -/
theorem goal_position_in_visited_order_witness :
    (dfs (resetGrid (createGrid 2 2)) (0, 0) (1, 1)).path ≠ [] ∧
    (dfs (resetGrid (createGrid 2 2)) (0, 0) (1, 1)).visitedNodesInOrder.getLast? =
      some (1, 1) :=
  ⟨by decide, goal_position_in_visited_order.1 _ _ _ (by decide)⟩

/-! ## C3: algorithm dispatch -/

/-- C3: `getAlgorithmFunction` maps "dfs" and "bfs" to the synonymous
functions, but sends "ucs", "greedy" and "astar" (and every other name) to
`dfs`; on a concrete grid the dispatched function for "ucs" demonstrably
computes something different from `ucs`. -/
theorem getAlgorithmFunction_fallback :
    getAlgorithmFunction "dfs" = dfs ∧
    getAlgorithmFunction "bfs" = bfs ∧
    getAlgorithmFunction "ucs" = dfs ∧
    getAlgorithmFunction "greedy" = dfs ∧
    getAlgorithmFunction "astar" = dfs ∧
    getAlgorithmFunction "nonsense" = dfs ∧
    getAlgorithmFunction "ucs" (resetGrid (createGrid 1 2)) (0, 0) (0, 1) ≠
      ucs (resetGrid (createGrid 1 2)) (0, 0) (0, 1) := by
  refine ⟨rfl, rfl, rfl, rfl, rfl, rfl, ?_⟩
  decide

theorem nodeAt?_createGrid (rows cols : Nat) (c : Coord) :
    nodeAt? (createGrid rows cols) c =
      if c.1 < rows ∧ c.2 < cols then some (createNode c.1 c.2) else none := by
  unfold nodeAt? createGrid
  by_cases h1 : c.1 < rows
  · rw [List.getElem?_map, List.getElem?_range h1, Option.map_some']
    dsimp only
    by_cases h2 : c.2 < cols
    · rw [List.getElem?_map, List.getElem?_range h2]
      simp [h1, h2]
    · rw [List.getElem?_map,
        (List.getElem?_eq_none (by simpa using Nat.le_of_not_lt h2) :
          (List.range cols)[c.2]? = none)]
      simp [h1, h2]
  · rw [List.getElem?_map,
      (List.getElem?_eq_none (by simpa using Nat.le_of_not_lt h1) :
        (List.range rows)[c.1]? = none)]
    simp [h1]

theorem visitedAt_createGrid (rows cols : Nat) (c : Coord) :
    visitedAt (createGrid rows cols) c = false := by
  unfold visitedAt
  rw [nodeAt?_createGrid]
  split <;> rfl

theorem wallAt_createGrid (rows cols : Nat) (c : Coord) :
    wallAt (createGrid rows cols) c = false := by
  unfold wallAt
  rw [nodeAt?_createGrid]
  split <;> rfl

theorem isPathAt_createGrid (rows cols : Nat) (c : Coord) :
    isPathAt (createGrid rows cols) c = false := by
  unfold isPathAt
  rw [nodeAt?_createGrid]
  split <;> rfl

theorem isStartAt_createGrid (rows cols : Nat) (c : Coord) :
    isStartAt (createGrid rows cols) c = false := by
  unfold isStartAt
  rw [nodeAt?_createGrid]
  split <;> rfl

theorem isEndAt_createGrid (rows cols : Nat) (c : Coord) :
    isEndAt (createGrid rows cols) c = false := by
  unfold isEndAt
  rw [nodeAt?_createGrid]
  split <;> rfl

theorem inBoundsAt_createGrid (rows cols : Nat) (c : Coord)
    (h1 : c.1 < rows) (h2 : c.2 < cols) : inBoundsAt (createGrid rows cols) c := by
  unfold inBoundsAt
  rw [nodeAt?_createGrid]
  simp [h1, h2]

theorem isStartAt_modifyNode_preserve (g : Grid) (c c' : Coord) (f : NodeType → NodeType)
    (hp : ∀ nd, (f nd).isStart = nd.isStart) :
    isStartAt (modifyNode g c f) c' = isStartAt g c' := by
  unfold isStartAt
  rw [map_nodeAt?_modifyNode NodeType.isStart g c c' f hp]

theorem isEndAt_modifyNode_preserve (g : Grid) (c c' : Coord) (f : NodeType → NodeType)
    (hp : ∀ nd, (f nd).isEnd = nd.isEnd) :
    isEndAt (modifyNode g c f) c' = isEndAt g c' := by
  unfold isEndAt
  rw [map_nodeAt?_modifyNode NodeType.isEnd g c c' f hp]

theorem isPathAt_modifyNode_preserve (g : Grid) (c c' : Coord) (f : NodeType → NodeType)
    (hp : ∀ nd, (f nd).isPath = nd.isPath) :
    isPathAt (modifyNode g c f) c' = isPathAt g c' := by
  unfold isPathAt
  rw [map_nodeAt?_modifyNode NodeType.isPath g c c' f hp]

/-- C2 (amended): `handleReset` clears the step counter, results, animation
flags and execution time, keeps the stored start/goal positions, and
replaces the grid by a freshly created default 7×7 grid: the start and goal
flags sit exactly at the stored positions, no cell is visited or on a path,
and — unlike the original claim — *every* wall is cleared rather than
preserved. -/
theorem handleReset_state (s : HomeState)
    (hs1 : s.startNode.1 < 7) (hs2 : s.startNode.2 < 7)
    (hg1 : s.goalNode.1 < 7) (hg2 : s.goalNode.2 < 7) :
    (handleReset s).currentStep = 0 ∧
    (handleReset s).visitedNodes = [] ∧
    (handleReset s).finalPath = [] ∧
    (handleReset s).executionTime = 0 ∧
    (handleReset s).isPlaying = false ∧
    (handleReset s).isPaused = false ∧
    (handleReset s).isComplete = false ∧
    (handleReset s).startNode = s.startNode ∧
    (handleReset s).goalNode = s.goalNode ∧
    (∀ c : Coord, visitedAt (handleReset s).grid c = false) ∧
    (∀ c : Coord, isPathAt (handleReset s).grid c = false) ∧
    (∀ c : Coord, wallAt (handleReset s).grid c = false) ∧
    (∀ c : Coord, isStartAt (handleReset s).grid c = true ↔ c = s.startNode) ∧
    (∀ c : Coord, isEndAt (handleReset s).grid c = true ↔ c = s.goalNode) := by
  have hgrid : (handleReset s).grid =
      modifyNode (modifyNode (createGrid 7 7) s.startNode fun nd => { nd with isStart := true })
        s.goalNode (fun nd => { nd with isEnd := true }) := rfl
  refine ⟨rfl, rfl, rfl, rfl, rfl, rfl, rfl, rfl, rfl, ?_, ?_, ?_, ?_, ?_⟩
  · intro c
    rw [hgrid, visitedAt_modifyNode_preserve, visitedAt_modifyNode_preserve,
      visitedAt_createGrid] <;> exact fun nd => rfl
  · intro c
    rw [hgrid, isPathAt_modifyNode_preserve, isPathAt_modifyNode_preserve,
      isPathAt_createGrid] <;> exact fun nd => rfl
  · intro c
    rw [hgrid, wallAt_modifyNode_preserve, wallAt_modifyNode_preserve,
      wallAt_createGrid] <;> exact fun nd => rfl
  · intro c
    have h1 : isStartAt (handleReset s).grid c =
        isStartAt (modifyNode (createGrid 7 7) s.startNode fun nd =>
          { nd with isStart := true }) c := by
      rw [hgrid]
      exact isStartAt_modifyNode_preserve _ _ _ _ fun nd => rfl
    rw [h1]
    by_cases hc : c = s.startNode
    · subst hc
      unfold isStartAt
      rw [nodeAt?_modifyNode_self, nodeAt?_createGrid, if_pos ⟨hs1, hs2⟩]
      simp
    · unfold isStartAt
      rw [nodeAt?_modifyNode_ne _ _ _ _ hc, nodeAt?_createGrid]
      constructor
      · intro hfalse
        revert hfalse
        split <;> simp [createNode]
      · intro hcc
        exact absurd hcc hc
  · intro c
    rw [hgrid]
    by_cases hc : c = s.goalNode
    · subst hc
      have hend : isEndAt (modifyNode (modifyNode (createGrid 7 7) s.startNode fun nd =>
          { nd with isStart := true }) s.goalNode fun nd => { nd with isEnd := true })
          s.goalNode = true := by
        unfold isEndAt
        rw [nodeAt?_modifyNode_self]
        have hin : inBoundsAt (modifyNode (createGrid 7 7) s.startNode
            fun nd => { nd with isStart := true }) s.goalNode := by
          rw [inBoundsAt_modifyNode]
          exact inBoundsAt_createGrid 7 7 s.goalNode hg1 hg2
        unfold inBoundsAt at hin
        cases hnd : nodeAt? (modifyNode (createGrid 7 7) s.startNode
            fun nd => { nd with isStart := true }) s.goalNode with
        | none => rw [hnd] at hin; simp at hin
        | some nd => rfl
      simp [hend]
    · have h1 : isEndAt (modifyNode (modifyNode (createGrid 7 7) s.startNode fun nd =>
          { nd with isStart := true }) s.goalNode fun nd => { nd with isEnd := true }) c =
          isEndAt (modifyNode (createGrid 7 7) s.startNode fun nd =>
            { nd with isStart := true }) c := by
        unfold isEndAt
        rw [nodeAt?_modifyNode_ne _ _ _ _ hc]
      have h2 : isEndAt (modifyNode (createGrid 7 7) s.startNode fun nd =>
          { nd with isStart := true }) c = isEndAt (createGrid 7 7) c :=
        isEndAt_modifyNode_preserve _ _ _ _ fun nd => rfl
      rw [h1, h2, isEndAt_createGrid]
      constructor
      · intro hfalse
        exact absurd hfalse (by simp)
      · intro hcc
        exact absurd hcc hc

/-- C2 (counterexample): a state whose grid has a wall at `(0,0)`; after
`handleReset` that wall is gone, refuting the claim that `isWall` flags are
exactly preserved across a reset. -/
theorem handleReset_wall_counterexample :
    (fun s0 : HomeState =>
      wallAt s0.grid (0, 0) = true ∧ wallAt (handleReset s0).grid (0, 0) = false)
      { grid := modifyNode (createGrid 7 7) (0, 0) fun nd => { nd with isWall := true }
        startNode := (1, 1)
        goalNode := (5, 5)
        selectedAlgorithm := "dfs"
        selectedHeuristic := "manhattan"
        isPlaying := false
        isPaused := false
        currentStep := 0
        animationSpeed := 100
        visitedNodes := []
        finalPath := []
        isComplete := false
        executionTime := 0 } := by
  decide

/-- C2 (witness): the amended theorem at a concrete state with the bounds
hypotheses discharged by computation. -/
theorem handleReset_state_witness :
    (handleReset
      { grid := createGrid 7 7
        startNode := (1, 1)
        goalNode := (5, 5)
        selectedAlgorithm := "dfs"
        selectedHeuristic := "manhattan"
        isPlaying := true
        isPaused := false
        currentStep := 3
        animationSpeed := 100
        visitedNodes := [(0, 0)]
        finalPath := [(0, 0)]
        isComplete := true
        executionTime := 5 }).currentStep = 0 ∧
    (∀ c : Coord, wallAt (handleReset
      { grid := createGrid 7 7
        startNode := (1, 1)
        goalNode := (5, 5)
        selectedAlgorithm := "dfs"
        selectedHeuristic := "manhattan"
        isPlaying := true
        isPaused := false
        currentStep := 3
        animationSpeed := 100
        visitedNodes := [(0, 0)]
        finalPath := [(0, 0)]
        isComplete := true
        executionTime := 5 }).grid c = false) :=
  have h := handleReset_state
    { grid := createGrid 7 7
      startNode := (1, 1)
      goalNode := (5, 5)
      selectedAlgorithm := "dfs"
      selectedHeuristic := "manhattan"
      isPlaying := true
      isPaused := false
      currentStep := 3
      animationSpeed := 100
      visitedNodes := [(0, 0)]
      finalPath := [(0, 0)]
      isComplete := true
      executionTime := 5 } (by decide) (by decide) (by decide) (by decide)
  ⟨h.1, h.2.2.2.2.2.2.2.2.2.2.2.1⟩

theorem openRowCount_mazeInitRow (sp gp : Coord) (row : Nat) :
    ∀ (col : Nat) (l : List NodeType),
      openRowCount sp gp row col (mazeInitRow sp gp row col l) = 0 := by
  intro col l
  induction l generalizing col with
  | nil => rfl
  | cons nd rest ih =>
    simp only [mazeInitRow, openRowCount]
    by_cases h : (row = sp.1 ∧ col = sp.2) ∨ (row = gp.1 ∧ col = gp.2)
    · rw [if_pos h]
      have hcoord : ((row, col) = sp ∨ (row, col) = gp) := by
        rcases h with ⟨h1, h2⟩ | ⟨h1, h2⟩
        · left
          exact Prod.ext h1 h2
        · right
          exact Prod.ext h1 h2
      simp [hcoord, ih]
    · rw [if_neg h]
      simp [ih]

theorem openCountRows_mazeInitRows (sp gp : Coord) :
    ∀ (row : Nat) (g : List (List NodeType)),
      openCountRows sp gp row (mazeInitRows sp gp row g) = 0 := by
  intro row g
  induction g generalizing row with
  | nil => rfl
  | cons r rs ih =>
    simp only [mazeInitRows, openCountRows]
    rw [openRowCount_mazeInitRow, ih]

theorem list_modify_nil {α : Type} (f : α → α) (n : Nat) : List.modify f n ([] : List α) = [] := by
  cases n <;> rfl

theorem list_modify_cons_zero {α : Type} (f : α → α) (a : α) (l : List α) :
    List.modify f 0 (a :: l) = f a :: l := by
  simp [List.modify]

theorem list_modify_cons_succ {α : Type} (f : α → α) (a : α) (n : Nat) (l : List α) :
    List.modify f (n + 1) (a :: l) = a :: List.modify f n l := by
  simp [List.modify]

theorem openRowCount_modify_le (sp gp : Coord) (row : Nat) (f : NodeType → NodeType) :
    ∀ (l : List NodeType) (col j : Nat),
      openRowCount sp gp row col (List.modify f j l) ≤ openRowCount sp gp row col l + 1 := by
  intro l
  induction l with
  | nil =>
    intro col j
    rw [list_modify_nil]
    omega
  | cons nd rest ih =>
    intro col j
    cases j with
    | zero =>
      rw [list_modify_cons_zero]
      simp only [openRowCount]
      have h1 : (if ¬((row, col) = sp ∨ (row, col) = gp) ∧ (f nd).isWall = false
          then 1 else 0) ≤ 1 := by
        split <;> omega
      omega
    | succ j =>
      rw [list_modify_cons_succ]
      simp only [openRowCount]
      have := ih (col + 1) j
      omega

theorem openCountRows_modify_le (sp gp : Coord) (f : NodeType → NodeType) (j2 : Nat) :
    ∀ (g : List (List NodeType)) (row j1 : Nat),
      openCountRows sp gp row (List.modify (fun r => List.modify f j2 r) j1 g) ≤
        openCountRows sp gp row g + 1 := by
  intro g
  induction g with
  | nil =>
    intro row j1
    rw [list_modify_nil]
    omega
  | cons r rs ih =>
    intro row j1
    cases j1 with
    | zero =>
      rw [list_modify_cons_zero]
      simp only [openCountRows]
      have := openRowCount_modify_le sp gp row f r 0 j2
      omega
    | succ j1 =>
      rw [list_modify_cons_succ]
      simp only [openCountRows]
      have := ih (row + 1) j1
      omega

theorem openCellCount_modifyNode_le (sp gp : Coord) (g : Grid) (c : Coord)
    (f : NodeType → NodeType) :
    openCellCount sp gp (modifyNode g c f) ≤ openCellCount sp gp g + 1 := by
  unfold openCellCount modifyNode
  exact openCountRows_modify_le sp gp f c.2 g 0 c.1

theorem openCellCount_mazeOpenLoop_le (sp gp : Coord) :
    ∀ (i : Nat) (rng : SeededRandom) (g : Grid),
      openCellCount sp gp (mazeOpenLoop sp gp i rng g) ≤ openCellCount sp gp g + i := by
  intro i
  induction i with
  | zero =>
    intro rng g
    simp [mazeOpenLoop]
  | succ i ih =>
    intro rng g
    simp only [mazeOpenLoop]
    split
    · have := ih ((rng.next.1).next.1) g
      omega
    · split
      · have h1 := openCellCount_modifyNode_le sp gp g
          (((Int.fdiv ((rng.next.1.seed - 1) * (g.length : Int)) 2147483646).toNat,
            (Int.fdiv (((rng.next.1).next.1.seed - 1) * (gridCols g : Int)) 2147483646).toNat))
          (fun nd => { nd with isWall := false })
        have h2 := ih ((rng.next.1).next.1)
          (modifyNode g
            (((Int.fdiv ((rng.next.1.seed - 1) * (g.length : Int)) 2147483646).toNat,
              (Int.fdiv (((rng.next.1).next.1.seed - 1) * (gridCols g : Int)) 2147483646).toNat))
            (fun nd => { nd with isWall := false }))
        omega
      · have := ih ((rng.next.1).next.1) g
        omega

theorem mazeInitRow_getElem? (sp gp : Coord) (row : Nat) :
    ∀ (l : List NodeType) (c0 j : Nat),
      (mazeInitRow sp gp row c0 l)[j]? = (l[j]?).map fun nd =>
        if (row = sp.1 ∧ c0 + j = sp.2) ∨ (row = gp.1 ∧ c0 + j = gp.2)
        then { nd with isWall := false } else { nd with isWall := true } := by
  intro l
  induction l with
  | nil =>
    intro c0 j
    simp [mazeInitRow]
  | cons nd rest ih =>
    intro c0 j
    cases j with
    | zero => simp [mazeInitRow]
    | succ j =>
      simp only [mazeInitRow, List.getElem?_cons_succ]
      rw [show c0 + (j + 1) = c0 + 1 + j by omega]
      exact ih (c0 + 1) j

theorem mazeInitRows_getElem? (sp gp : Coord) :
    ∀ (g : List (List NodeType)) (r0 i : Nat),
      (mazeInitRows sp gp r0 g)[i]? = (g[i]?).map fun row =>
        mazeInitRow sp gp (r0 + i) 0 row := by
  intro g
  induction g with
  | nil =>
    intro r0 i
    simp [mazeInitRows]
  | cons r rs ih =>
    intro r0 i
    cases i with
    | zero => simp [mazeInitRows]
    | succ i =>
      simp only [mazeInitRows, List.getElem?_cons_succ]
      rw [show r0 + (i + 1) = r0 + 1 + i by omega]
      exact ih (r0 + 1) i

theorem nodeAt?_mazeInit (sp gp : Coord) (g : Grid) (c : Coord) :
    nodeAt? (mazeInit sp gp g) c = (nodeAt? g c).map fun nd =>
      if (c.1 = sp.1 ∧ c.2 = sp.2) ∨ (c.1 = gp.1 ∧ c.2 = gp.2)
      then { nd with isWall := false } else { nd with isWall := true } := by
  unfold nodeAt? mazeInit
  rw [mazeInitRows_getElem?]
  cases hrow : g[c.1]? with
  | none => rfl
  | some row =>
    simp only [Option.map_some']
    rw [mazeInitRow_getElem?]
    simp

theorem gridShape_mazeInit (sp gp : Coord) (g : Grid) :
    gridShape (mazeInit sp gp g) = gridShape g := by
  apply List.ext_getElem?
  intro n
  simp only [gridShape, List.getElem?_map]
  unfold mazeInit
  rw [mazeInitRows_getElem?]
  cases hrow : g[n]? with
  | none => rfl
  | some row =>
    simp only [Option.map_some']
    congr 1
    have hlen : ∀ (l : List NodeType) (r c0 : Nat), (mazeInitRow sp gp r c0 l).length = l.length := by
      intro l
      induction l with
      | nil => intro r c0; rfl
      | cons nd rest ih =>
        intro r c0
        simp [mazeInitRow, ih r (c0 + 1)]
    exact hlen row (0 + n) 0

theorem wallAt_mazeInit_start (sp gp : Coord) (g : Grid) :
    wallAt (mazeInit sp gp g) sp = false := by
  unfold wallAt
  rw [nodeAt?_mazeInit]
  cases hnd : nodeAt? g sp with
  | none => rfl
  | some nd => simp

theorem wallAt_mazeInit_goal (sp gp : Coord) (g : Grid) :
    wallAt (mazeInit sp gp g) gp = false := by
  unfold wallAt
  rw [nodeAt?_mazeInit]
  cases hnd : nodeAt? g gp with
  | none => rfl
  | some nd => simp

theorem wallAt_modifyNode_clear (g : Grid) (x c : Coord) (hc : wallAt g c = false) :
    wallAt (modifyNode g x fun nd => { nd with isWall := false }) c = false := by
  by_cases h : c = x
  · subst h
    unfold wallAt
    rw [nodeAt?_modifyNode_self]
    cases hnd : nodeAt? g c with
    | none => rfl
    | some nd => rfl
  · unfold wallAt
    rw [nodeAt?_modifyNode_ne _ _ _ _ h]
    exact hc

theorem wallAt_mazeOpenLoop (sp gp : Coord) :
    ∀ (i : Nat) (rng : SeededRandom) (g : Grid) (c : Coord), wallAt g c = false →
      wallAt (mazeOpenLoop sp gp i rng g) c = false := by
  intro i
  induction i with
  | zero =>
    intro rng g c h
    simpa [mazeOpenLoop] using h
  | succ i ih =>
    intro rng g c h
    simp only [mazeOpenLoop]
    split
    · exact ih _ _ _ h
    · split
      · exact ih _ _ _ (wallAt_modifyNode_clear _ _ _ h)
      · exact ih _ _ _ h

/-- C8 (amended): `generateMaze` leaves the start and goal cells clear, and
the number of opened cells — non-wall cells other than start and goal — is
at most `floor(0.3 × rows × cols)`; repeated or start/goal-colliding random
draws can make it smaller, so equality does not hold in general. -/
theorem generateMaze_open_count (grid : Grid) (seed : Int) (sp gp : Coord) :
    wallAt (generateMaze grid seed sp gp) sp = false ∧
    wallAt (generateMaze grid seed sp gp) gp = false ∧
    openCellCount sp gp (generateMaze grid seed sp gp) ≤ 3 * totalCells grid / 10 := by
  have htot : totalCells (mazeInit sp gp grid) = totalCells grid := by
    unfold totalCells
    rw [length_eq_shape, gridShape_mazeInit, ← length_eq_shape,
      gridCols_eq_shape, gridShape_mazeInit, ← gridCols_eq_shape]
  refine ⟨?_, ?_, ?_⟩
  · exact wallAt_mazeOpenLoop sp gp _ _ _ _ (wallAt_mazeInit_start sp gp grid)
  · exact wallAt_mazeOpenLoop sp gp _ _ _ _ (wallAt_mazeInit_goal sp gp grid)
  · have h1 := openCellCount_mazeOpenLoop_le sp gp (3 * totalCells (mazeInit sp gp grid) / 10)
      (SeededRandom.create seed) (mazeInit sp gp grid)
    have h0 : openCellCount sp gp (mazeInit sp gp grid) = 0 :=
      openCountRows_mazeInitRows sp gp 0 grid
    rw [h0] at h1
    rw [← htot]
    simpa [generateMaze] using h1

/-- C8 (counterexample): on the 7×7 grid with seed 42, start `(1,1)` and
goal `(5,5)`, only 10 cells are opened while `floor(0.3 × 49) = 14` — the
claimed equality fails because repeated draws hit the same cells. -/
theorem generateMaze_count_counterexample :
    openCellCount (1, 1) (5, 5) (generateMaze (createGrid 7 7) 42 (1, 1) (5, 5)) = 10 ∧
    3 * totalCells (createGrid 7 7) / 10 = 14 := by
  decide

theorem obstacleRow_spec (clamped : ℚ) (sp gp : Coord) (row : Nat) :
    ∀ (l : List NodeType) (col : Nat) (rng : SeededRandom),
      (∀ nd ∈ l, nd.isWall = false) →
      (obstacleRow clamped sp gp row col rng l).1.map NodeType.isWall =
        (obstacleRowSpec clamped sp gp row col rng l.length).1 ∧
      (obstacleRow clamped sp gp row col rng l).2 =
        (obstacleRowSpec clamped sp gp row col rng l.length).2 := by
  intro l
  induction l with
  | nil =>
    intro col rng hcl
    exact ⟨rfl, rfl⟩
  | cons nd rest ih =>
    intro col rng hcl
    have hnd : nd.isWall = false := hcl nd (List.mem_cons_self nd rest)
    have hrest : ∀ x ∈ rest, x.isWall = false := fun x hx => hcl x (List.mem_cons_of_mem nd hx)
    simp only [obstacleRow, List.length_cons, obstacleRowSpec]
    by_cases h : (row = sp.1 ∧ col = sp.2) ∨ (row = gp.1 ∧ col = gp.2)
    · rw [if_pos h, if_pos h]
      have := ih (col + 1) rng hrest
      simp only [List.map_cons]
      exact ⟨by rw [hnd, this.1], this.2⟩
    · rw [if_neg h, if_neg h]
      have := ih (col + 1) rng.next.1 hrest
      simp only [List.map_cons]
      refine ⟨?_, this.2⟩
      rw [this.1]
      congr 1
      by_cases hv : rng.next.2 < clamped
      · simp [hv]
      · simp [hv, hnd]

theorem obstacleRows_spec (clamped : ℚ) (sp gp : Coord) :
    ∀ (g : List (List NodeType)) (row : Nat) (rng : SeededRandom),
      (∀ r ∈ g, ∀ nd ∈ r, nd.isWall = false) →
      (obstacleRows clamped sp gp row rng g).map (fun r => r.map NodeType.isWall) =
        (obstacleRowsSpec clamped sp gp row rng (gridShape g)).1 := by
  intro g
  induction g with
  | nil =>
    intro row rng hcl
    rfl
  | cons r rs ih =>
    intro row rng hcl
    have hr : ∀ nd ∈ r, nd.isWall = false := hcl r (List.mem_cons_self r rs)
    have hrs : ∀ x ∈ rs, ∀ nd ∈ x, nd.isWall = false :=
      fun x hx => hcl x (List.mem_cons_of_mem r hx)
    simp only [obstacleRows, gridShape, List.map_cons, obstacleRowsSpec]
    have h1 := obstacleRow_spec clamped sp gp row r 0 rng hr
    have h2 := ih (row + 1) (obstacleRow clamped sp gp row 0 rng r).2 hrs
    rw [h1.1, h1.2] at *
    rw [h2]
    rfl

theorem gridShape_map_map (g : Grid) (f : NodeType → NodeType) :
    gridShape (g.map fun row => row.map f) = gridShape g := by
  simp [gridShape, List.map_map, Function.comp_def]

theorem obstacleRow_length (clamped : ℚ) (sp gp : Coord) (row : Nat) :
    ∀ (l : List NodeType) (col : Nat) (rng : SeededRandom),
      (obstacleRow clamped sp gp row col rng l).1.length = l.length := by
  intro l
  induction l with
  | nil => intro col rng; rfl
  | cons nd rest ih =>
    intro col rng
    simp only [obstacleRow]
    by_cases h : (row = sp.1 ∧ col = sp.2) ∨ (row = gp.1 ∧ col = gp.2)
    · rw [if_pos h]
      simp [ih]
    · rw [if_neg h]
      simp [ih]

theorem gridShape_obstacleRows (clamped : ℚ) (sp gp : Coord) :
    ∀ (g : List (List NodeType)) (row : Nat) (rng : SeededRandom),
      gridShape (obstacleRows clamped sp gp row rng g) = gridShape g := by
  intro g
  induction g with
  | nil => intro row rng; rfl
  | cons r rs ih =>
    intro row rng
    simp only [obstacleRows, gridShape, List.map_cons]
    rw [obstacleRow_length]
    have := ih (row + 1) (obstacleRow clamped sp gp row 0 rng r).2
    simp only [gridShape] at this
    rw [this]

theorem wallLayout_generateRandomObstacles (g : Grid) (density : ℚ) (seed : Int)
    (sp gp : Coord) :
    wallLayout (generateRandomObstacles g density seed sp gp) =
      (obstacleRowsSpec (max 0 (min 1 density)) sp gp 0 (SeededRandom.create seed)
        (gridShape g)).1 := by
  unfold generateRandomObstacles wallLayout
  rw [obstacleRows_spec _ _ _ _ _ _ (by
    intro r hr nd hnd
    simp only [List.mem_map] at hr
    obtain ⟨r0, _, hr0⟩ := hr
    subst hr0
    simp only [List.mem_map] at hnd
    obtain ⟨nd0, _, hnd0⟩ := hnd
    subst hnd0
    rfl)]
  rw [gridShape_map_map]

theorem gridShape_generateRandomObstacles (g : Grid) (density : ℚ) (seed : Int)
    (sp gp : Coord) :
    gridShape (generateRandomObstacles g density seed sp gp) = gridShape g := by
  unfold generateRandomObstacles
  rw [gridShape_obstacleRows, gridShape_map_map]

/-- C9: the wall layout produced by `generateRandomObstacles` is a function
of the grid shape, the seed, the clamped density and the start/goal
positions only — not of the walls already present — so same-shaped inputs
yield identical layouts and re-applying the generator to its own output
with the same parameters leaves the layout unchanged. -/
theorem generateRandomObstacles_deterministic (g1 g2 : Grid) (density : ℚ) (seed : Int)
    (sp gp : Coord) (hsh : gridShape g1 = gridShape g2) :
    wallLayout (generateRandomObstacles g1 density seed sp gp) =
      wallLayout (generateRandomObstacles g2 density seed sp gp) ∧
    wallLayout (generateRandomObstacles (generateRandomObstacles g1 density seed sp gp)
        density seed sp gp) =
      wallLayout (generateRandomObstacles g1 density seed sp gp) := by
  constructor
  · rw [wallLayout_generateRandomObstacles, wallLayout_generateRandomObstacles, hsh]
  · rw [wallLayout_generateRandomObstacles, wallLayout_generateRandomObstacles,
      gridShape_generateRandomObstacles]

/-- C9 (witness): the theorem at two concrete same-shaped 2×2 grids, one of
which already has a wall, with the shape hypothesis checked by computation. -/
theorem generateRandomObstacles_deterministic_witness :
    wallLayout (generateRandomObstacles (createGrid 2 2) (3/10) 42 (0, 0) (1, 1)) =
      wallLayout (generateRandomObstacles
        (modifyNode (createGrid 2 2) (0, 1) fun nd => { nd with isWall := true })
        (3/10) 42 (0, 0) (1, 1)) :=
  (generateRandomObstacles_deterministic (createGrid 2 2)
    (modifyNode (createGrid 2 2) (0, 1) fun nd => { nd with isWall := true })
    (3/10) 42 (0, 0) (1, 1) (by decide)).1

/-! ## C10: no duplicates in `visitedNodesInOrder` -/

theorem nodup_middle_iff {α : Type} (a : α) (l1 l2 : List α) :
    (l1 ++ a :: l2).Nodup ↔ (a :: (l1 ++ l2)).Nodup :=
  List.perm_middle.nodup_iff

theorem rectangular_congr_shape {g1 g2 : Grid} (h : gridShape g1 = gridShape g2)
    (h2 : rectangular g2) : rectangular g1 := by
  rw [rectangular_iff_shape, h, gridCols_eq_shape, h, ← gridCols_eq_shape]
  exact (rectangular_iff_shape g2).mp h2

theorem dfsDiscover_fold_inv (current : Coord) (visited : List Coord) :
    ∀ (ns : List Coord) (g0 : Grid) (s0 : List Coord),
      rectangular g0 →
      (∀ n ∈ ns, n.1 < g0.length ∧ n.2 < gridCols g0) →
      (s0 ++ visited).Nodup →
      (∀ c ∈ s0 ++ visited, visitedAt g0 c = true) →
      gridShape (ns.foldl (dfsDiscover current) (g0, s0)).1 = gridShape g0 ∧
      ((ns.foldl (dfsDiscover current) (g0, s0)).2 ++ visited).Nodup ∧
      (∀ c ∈ (ns.foldl (dfsDiscover current) (g0, s0)).2 ++ visited,
        visitedAt (ns.foldl (dfsDiscover current) (g0, s0)).1 c = true) := by
  intro ns
  induction ns with
  | nil =>
    intro g0 s0 _ _ h1 h2
    exact ⟨rfl, h1, h2⟩
  | cons n ns ih =>
    intro g0 s0 hrect hbnd hnd hmk
    simp only [List.foldl_cons]
    by_cases hc : wallAt g0 n = false ∧ visitedAt g0 n = false
    · have hstep : dfsDiscover current (g0, s0) n =
          (modifyNode g0 n fun nd => { nd with isVisited := true, previousNode := some current },
            n :: s0) := by
        unfold dfsDiscover
        rw [if_pos hc]
      rw [hstep]
      have hbn := hbnd n (List.mem_cons_self n ns)
      have hin : inBoundsAt g0 n := inBoundsAt_of_lt hrect hbn.1 hbn.2
      have hsh : gridShape (modifyNode g0 n fun nd =>
          { nd with isVisited := true, previousNode := some current }) = gridShape g0 :=
        gridShape_modifyNode g0 n _
      have hrect1 : rectangular (modifyNode g0 n fun nd =>
          { nd with isVisited := true, previousNode := some current }) :=
        rectangular_modifyNode g0 n _ hrect
      have hfresh : n ∉ s0 ++ visited := by
        intro hmem
        have := hmk n hmem
        rw [this] at hc
        exact absurd hc.2 (by simp)
      have hnd1 : ((n :: s0) ++ visited).Nodup := by
        simp only [List.cons_append, List.nodup_cons]
        exact ⟨hfresh, hnd⟩
      have hmk1 : ∀ c ∈ (n :: s0) ++ visited,
          visitedAt (modifyNode g0 n fun nd =>
            { nd with isVisited := true, previousNode := some current }) c = true := by
        intro c hcmem
        by_cases hcn : c = n
        · subst hcn
          exact visitedAt_mark_self g0 c hin _ fun nd => rfl
        · rw [visitedAt_modifyNode_ne g0 n c _ hcn]
          rcases List.mem_cons.mp hcmem with h | h
          · exact absurd h hcn
          · exact hmk c h
      have hbnd1 : ∀ m ∈ ns, m.1 < (modifyNode g0 n fun nd =>
          { nd with isVisited := true, previousNode := some current }).length ∧
          m.2 < gridCols (modifyNode g0 n fun nd =>
            { nd with isVisited := true, previousNode := some current }) := by
        intro m hm
        rw [length_modifyNode, gridCols_modifyNode]
        exact hbnd m (List.mem_cons_of_mem n hm)
      obtain ⟨e1, e2, e3⟩ := ih _ _ hrect1 hbnd1 hnd1 hmk1
      exact ⟨by rw [e1, hsh], e2, e3⟩
    · have hstep : dfsDiscover current (g0, s0) n = (g0, s0) := by
        unfold dfsDiscover
        rw [if_neg hc]
      rw [hstep]
      exact ih g0 s0 hrect (fun m hm => hbnd m (List.mem_cons_of_mem n hm)) hnd hmk

theorem dfsLoop_nodup (e : Coord) :
    ∀ (fuel : Nat) (grid : Grid) (stack visited : List Coord),
      rectangular grid →
      (stack ++ visited).Nodup →
      (∀ c ∈ stack ++ visited, visitedAt grid c = true) →
      (dfsLoop e fuel grid stack visited).visitedNodesInOrder.Nodup := by
  intro fuel
  induction fuel with
  | zero =>
    intro grid stack visited _ hnd _
    exact (List.nodup_append.mp hnd).2.1
  | succ n ih =>
    intro grid stack visited hrect hnd hmk
    cases stack with
    | nil =>
      exact (List.nodup_append.mp hnd).2.1
    | cons current rest =>
      simp only [dfsLoop]
      have hcur : current ∉ rest ++ visited := (List.nodup_cons.mp hnd).1
      have hndr : (rest ++ visited).Nodup := (List.nodup_cons.mp hnd).2
      have hnd2 : (rest ++ (visited ++ [current])).Nodup := by
        rw [show rest ++ (visited ++ [current]) = (rest ++ visited) ++ [current] by
          rw [List.append_assoc]]
        rw [List.nodup_append]
        refine ⟨hndr, List.nodup_singleton current, ?_⟩
        intro a ha hb
        rw [List.mem_singleton] at hb
        subst hb
        exact hcur ha
      by_cases hc : current = e
      · rw [if_pos hc]
        rw [List.nodup_append]
        refine ⟨(List.nodup_append.mp hndr).2.1, List.nodup_singleton current, ?_⟩
        intro a ha hb
        rw [List.mem_singleton] at hb
        subst hb
        exact hcur (List.mem_append_right rest ha)
      · rw [if_neg hc]
        have hmk2 : ∀ c ∈ rest ++ (visited ++ [current]), visitedAt grid c = true := by
          intro c hcm
          simp only [List.mem_append, List.mem_singleton] at hcm
          rcases hcm with h | h | h
          · exact hmk c (by simp [h])
          · exact hmk c (by simp [h])
          · subst h
            exact hmk c (by simp)
        obtain ⟨e1, e2, e3⟩ := dfsDiscover_fold_inv current (visited ++ [current])
          (getNeighbors current grid) grid rest hrect
          (fun m hm => mem_getNeighbors_lt hm) hnd2 hmk2
        exact ih _ _ _ (rectangular_congr_shape e1 hrect) e2 e3

theorem bfsDiscover_fold_inv (current : Coord) (visited : List Coord) :
    ∀ (ns : List Coord) (g0 : Grid) (s0 : List Coord),
      rectangular g0 →
      (∀ n ∈ ns, n.1 < g0.length ∧ n.2 < gridCols g0) →
      (s0 ++ visited).Nodup →
      (∀ c ∈ s0 ++ visited, visitedAt g0 c = true) →
      gridShape (ns.foldl (bfsDiscover current) (g0, s0)).1 = gridShape g0 ∧
      ((ns.foldl (bfsDiscover current) (g0, s0)).2 ++ visited).Nodup ∧
      (∀ c ∈ (ns.foldl (bfsDiscover current) (g0, s0)).2 ++ visited,
        visitedAt (ns.foldl (bfsDiscover current) (g0, s0)).1 c = true) := by
  intro ns
  induction ns with
  | nil =>
    intro g0 s0 _ _ h1 h2
    exact ⟨rfl, h1, h2⟩
  | cons n ns ih =>
    intro g0 s0 hrect hbnd hnd hmk
    simp only [List.foldl_cons]
    by_cases hc : wallAt g0 n = false ∧ visitedAt g0 n = false
    · have hstep : bfsDiscover current (g0, s0) n =
          (modifyNode g0 n fun nd => { nd with isVisited := true, previousNode := some current },
            s0 ++ [n]) := by
        unfold bfsDiscover
        rw [if_pos hc]
      rw [hstep]
      have hbn := hbnd n (List.mem_cons_self n ns)
      have hin : inBoundsAt g0 n := inBoundsAt_of_lt hrect hbn.1 hbn.2
      have hsh : gridShape (modifyNode g0 n fun nd =>
          { nd with isVisited := true, previousNode := some current }) = gridShape g0 :=
        gridShape_modifyNode g0 n _
      have hrect1 : rectangular (modifyNode g0 n fun nd =>
          { nd with isVisited := true, previousNode := some current }) :=
        rectangular_modifyNode g0 n _ hrect
      have hfresh : n ∉ s0 ++ visited := by
        intro hmem
        have := hmk n hmem
        rw [this] at hc
        exact absurd hc.2 (by simp)
      have hnd1 : ((s0 ++ [n]) ++ visited).Nodup := by
        rw [List.append_assoc, List.singleton_append, nodup_middle_iff, List.nodup_cons]
        exact ⟨hfresh, hnd⟩
      have hmk1 : ∀ c ∈ (s0 ++ [n]) ++ visited,
          visitedAt (modifyNode g0 n fun nd =>
            { nd with isVisited := true, previousNode := some current }) c = true := by
        intro c hcmem
        by_cases hcn : c = n
        · subst hcn
          exact visitedAt_mark_self g0 c hin _ fun nd => rfl
        · rw [visitedAt_modifyNode_ne g0 n c _ hcn]
          rw [List.append_assoc, List.singleton_append] at hcmem
          rcases (List.mem_append.mp hcmem) with h | h
          · exact hmk c (List.mem_append_left visited h)
          · rcases List.mem_cons.mp h with h2 | h2
            · exact absurd h2 hcn
            · exact hmk c (List.mem_append_right s0 h2)
      have hbnd1 : ∀ m ∈ ns, m.1 < (modifyNode g0 n fun nd =>
          { nd with isVisited := true, previousNode := some current }).length ∧
          m.2 < gridCols (modifyNode g0 n fun nd =>
            { nd with isVisited := true, previousNode := some current }) := by
        intro m hm
        rw [length_modifyNode, gridCols_modifyNode]
        exact hbnd m (List.mem_cons_of_mem n hm)
      obtain ⟨e1, e2, e3⟩ := ih _ _ hrect1 hbnd1 hnd1 hmk1
      exact ⟨by rw [e1, hsh], e2, e3⟩
    · have hstep : bfsDiscover current (g0, s0) n = (g0, s0) := by
        unfold bfsDiscover
        rw [if_neg hc]
      rw [hstep]
      exact ih g0 s0 hrect (fun m hm => hbnd m (List.mem_cons_of_mem n hm)) hnd hmk

theorem bfsLoop_nodup (e : Coord) :
    ∀ (fuel : Nat) (grid : Grid) (queue visited : List Coord),
      rectangular grid →
      (queue ++ visited).Nodup →
      (∀ c ∈ queue ++ visited, visitedAt grid c = true) →
      (bfsLoop e fuel grid queue visited).visitedNodesInOrder.Nodup := by
  intro fuel
  induction fuel with
  | zero =>
    intro grid queue visited _ hnd _
    exact (List.nodup_append.mp hnd).2.1
  | succ n ih =>
    intro grid queue visited hrect hnd hmk
    cases queue with
    | nil =>
      exact (List.nodup_append.mp hnd).2.1
    | cons current rest =>
      simp only [bfsLoop]
      have hcur : current ∉ rest ++ visited := (List.nodup_cons.mp hnd).1
      have hndr : (rest ++ visited).Nodup := (List.nodup_cons.mp hnd).2
      have hnd2 : (rest ++ (visited ++ [current])).Nodup := by
        rw [show rest ++ (visited ++ [current]) = (rest ++ visited) ++ [current] by
          rw [List.append_assoc]]
        rw [List.nodup_append]
        refine ⟨hndr, List.nodup_singleton current, ?_⟩
        intro a ha hb
        rw [List.mem_singleton] at hb
        subst hb
        exact hcur ha
      by_cases hc : current = e
      · rw [if_pos hc]
        rw [List.nodup_append]
        refine ⟨(List.nodup_append.mp hndr).2.1, List.nodup_singleton current, ?_⟩
        intro a ha hb
        rw [List.mem_singleton] at hb
        subst hb
        exact hcur (List.mem_append_right rest ha)
      · rw [if_neg hc]
        have hmk2 : ∀ c ∈ rest ++ (visited ++ [current]), visitedAt grid c = true := by
          intro c hcm
          simp only [List.mem_append, List.mem_singleton] at hcm
          rcases hcm with h | h | h
          · exact hmk c (by simp [h])
          · exact hmk c (by simp [h])
          · subst h
            exact hmk c (by simp)
        obtain ⟨e1, e2, e3⟩ := bfsDiscover_fold_inv current (visited ++ [current])
          (getNeighbors current grid) grid rest hrect
          (fun m hm => mem_getNeighbors_lt hm) hnd2 hmk2
        exact ih _ _ _ (rectangular_congr_shape e1 hrect) e2 e3

theorem insertSorted_perm (le : Coord → Coord → Bool) (x : Coord) :
    ∀ (l : List Coord), (insertSorted le x l).Perm (x :: l) := by
  intro l
  induction l with
  | nil => exact List.Perm.refl _
  | cons y ys ih =>
    simp only [insertSorted]
    split
    · exact (ih.cons y).trans (List.Perm.swap x y ys)
    · exact List.Perm.refl _

theorem foldl_insertSorted_perm (le : Coord → Coord → Bool) :
    ∀ (l acc : List Coord),
      (l.foldl (fun a y => insertSorted le y a) acc).Perm (l ++ acc) := by
  intro l
  induction l with
  | nil => intro acc; exact List.Perm.refl _
  | cons x xs ih =>
    intro acc
    simp only [List.foldl_cons, List.cons_append]
    have h1 := ih (insertSorted le x acc)
    have h2 : (xs ++ insertSorted le x acc).Perm (xs ++ (x :: acc)) :=
      (insertSorted_perm le x acc).append_left xs
    have h3 : (xs ++ (x :: acc)).Perm (x :: (xs ++ acc)) := List.perm_middle
    exact (h1.trans h2).trans h3

theorem stableSortBy_perm (le : Coord → Coord → Bool) (l : List Coord) :
    (stableSortBy le l).Perm l := by
  have := foldl_insertSorted_perm le l []
  simpa [stableSortBy] using this

theorem frontierOk_perm (g : Grid) {f1 f2 visited : List Coord} (hp : f1.Perm f2)
    (h : frontierOk g f2 visited) : frontierOk g f1 visited := by
  obtain ⟨h1, h2, h3, h4⟩ := h
  exact ⟨hp.nodup_iff.mpr h1, h2, fun c hc => h3 c (hp.mem_iff.mp hc), h4⟩

theorem frontierOk_tail (g : Grid) {c : Coord} {rest visited : List Coord}
    (h : frontierOk g (c :: rest) visited) : frontierOk g rest visited := by
  obtain ⟨h1, h2, h3, h4⟩ := h
  exact ⟨(List.nodup_cons.mp h1).2, h2, fun x hx => h3 x (List.mem_cons_of_mem c hx), h4⟩

theorem bounds_transfer {g g' : Grid} (hsh : gridShape g' = gridShape g) {ns : List Coord}
    (h : ∀ m ∈ ns, m.1 < g.length ∧ m.2 < gridCols g) :
    ∀ m ∈ ns, m.1 < g'.length ∧ m.2 < gridCols g' := by
  intro m hm
  rw [length_eq_shape, hsh, ← length_eq_shape, gridCols_eq_shape, hsh, ← gridCols_eq_shape]
  exact h m hm

theorem frontierOk_transfer {g g' : Grid} (hsh : gridShape g' = gridShape g)
    (hvis : ∀ c, visitedAt g' c = visitedAt g c) {frontier visited : List Coord}
    (h : frontierOk g frontier visited) : frontierOk g' frontier visited := by
  obtain ⟨h1, h2, h3, h4⟩ := h
  refine ⟨h1, h2, ?_, ?_⟩
  · intro c hc
    rw [hvis, length_eq_shape, hsh, ← length_eq_shape,
      gridCols_eq_shape, hsh, ← gridCols_eq_shape]
    exact h3 c hc
  · intro c hc
    rw [hvis]
    exact h4 c hc

theorem frontierOk_push {g : Grid} {frontier visited : List Coord} {n : Coord}
    (h : frontierOk g frontier visited) (hn1 : visitedAt g n = false)
    (hn2 : n.1 < g.length) (hn3 : n.2 < gridCols g) (hn4 : n ∉ frontier) :
    frontierOk g (frontier ++ [n]) visited := by
  obtain ⟨h1, h2, h3, h4⟩ := h
  refine ⟨?_, h2, ?_, h4⟩
  · rw [List.nodup_append]
    refine ⟨h1, List.nodup_singleton n, ?_⟩
    intro a ha hb
    rw [List.mem_singleton] at hb
    subst hb
    exact hn4 ha
  · intro c hc
    rcases List.mem_append.mp hc with hm | hm
    · exact h3 c hm
    · rw [List.mem_singleton] at hm
      subst hm
      exact ⟨hn1, hn2, hn3⟩

theorem ucsRelax_fold_inv (current : Coord) (visited : List Coord) :
    ∀ (ns : List Coord) (g0 : Grid) (s0 : List Coord),
      (∀ n ∈ ns, n.1 < g0.length ∧ n.2 < gridCols g0) →
      frontierOk g0 s0 visited →
      gridShape (ns.foldl (ucsRelax current) (g0, s0)).1 = gridShape g0 ∧
      frontierOk (ns.foldl (ucsRelax current) (g0, s0)).1
        (ns.foldl (ucsRelax current) (g0, s0)).2 visited := by
  intro ns
  induction ns with
  | nil =>
    intro g0 s0 _ h
    exact ⟨rfl, h⟩
  | cons n ns ih =>
    intro g0 s0 hbnd hok
    simp only [List.foldl_cons]
    have hbn := hbnd n (List.mem_cons_self n ns)
    have hbnd' : ∀ m ∈ ns, m.1 < g0.length ∧ m.2 < gridCols g0 :=
      fun m hm => hbnd m (List.mem_cons_of_mem n hm)
    by_cases hc1 : wallAt g0 n = false ∧ visitedAt g0 n = false
    · by_cases hc2 : distAt g0 current + 1 < distAt g0 n
      · have hsh : gridShape (modifyNode g0 n fun nd =>
            { nd with distance := distAt g0 current + 1, previousNode := some current }) =
            gridShape g0 := gridShape_modifyNode g0 n _
        have hpres : ∀ c, visitedAt (modifyNode g0 n fun nd =>
            { nd with distance := distAt g0 current + 1, previousNode := some current }) c =
            visitedAt g0 c :=
          fun c => visitedAt_modifyNode_preserve g0 n c _ fun nd => rfl
        by_cases hc3 : n ∈ s0
        · have hstep : ucsRelax current (g0, s0) n =
              (modifyNode g0 n fun nd =>
                { nd with distance := distAt g0 current + 1, previousNode := some current },
                s0) := by
            simp only [ucsRelax]
            rw [if_pos hc1, if_pos hc2, if_pos hc3]
          rw [hstep]
          obtain ⟨e1, e2⟩ := ih _ _ (bounds_transfer hsh hbnd')
            (frontierOk_transfer hsh hpres hok)
          exact ⟨by rw [e1, hsh], e2⟩
        · have hstep : ucsRelax current (g0, s0) n =
              (modifyNode g0 n fun nd =>
                { nd with distance := distAt g0 current + 1, previousNode := some current },
                s0 ++ [n]) := by
            simp only [ucsRelax]
            rw [if_pos hc1, if_pos hc2, if_neg hc3]
          rw [hstep]
          have hok1 := frontierOk_push (frontierOk_transfer hsh hpres hok)
            (by rw [hpres]; exact hc1.2)
            (by rw [length_eq_shape, hsh, ← length_eq_shape]; exact hbn.1)
            (by rw [gridCols_eq_shape, hsh, ← gridCols_eq_shape]; exact hbn.2) hc3
          obtain ⟨e1, e2⟩ := ih _ _ (bounds_transfer hsh hbnd') hok1
          exact ⟨by rw [e1, hsh], e2⟩
      · have hstep : ucsRelax current (g0, s0) n = (g0, s0) := by
          simp only [ucsRelax]
          rw [if_pos hc1, if_neg hc2]
        rw [hstep]
        exact ih _ _ hbnd' hok
    · have hstep : ucsRelax current (g0, s0) n = (g0, s0) := by
        simp only [ucsRelax]
        rw [if_neg hc1]
      rw [hstep]
      exact ih _ _ hbnd' hok

theorem nodeAt?_gridMap (g : Grid) (f : NodeType → NodeType) (c : Coord) :
    nodeAt? (g.map fun row => row.map f) c = (nodeAt? g c).map f := by
  unfold nodeAt?
  rw [List.getElem?_map]
  cases hrow : g[c.1]? with
  | none => rfl
  | some row =>
    simp [List.getElem?_map]

theorem visitedAt_gridMap (g : Grid) (f : NodeType → NodeType)
    (hp : ∀ nd, (f nd).isVisited = nd.isVisited) (c : Coord) :
    visitedAt (g.map fun row => row.map f) c = visitedAt g c := by
  unfold visitedAt
  rw [nodeAt?_gridMap]
  cases nodeAt? g c with
  | none => rfl
  | some nd => simp [hp]

theorem ucsLoop_nodup (e : Coord) :
    ∀ (fuel : Nat) (grid : Grid) (unvisited visited : List Coord),
      rectangular grid →
      frontierOk grid unvisited visited →
      (ucsLoop e fuel grid unvisited visited).visitedNodesInOrder.Nodup := by
  intro fuel
  induction fuel with
  | zero =>
    intro grid unvisited visited _ hok
    exact hok.2.1
  | succ n ih =>
    intro grid unvisited visited hrect hok
    simp only [ucsLoop]
    cases hs : stableSortBy (fun a b => decide (distAt grid a ≤ distAt grid b)) unvisited with
    | nil => exact hok.2.1
    | cons current rest =>
      have hoks : frontierOk grid (current :: rest) visited :=
        frontierOk_perm grid (hs ▸ stableSortBy_perm _ unvisited) hok
      obtain ⟨hndf, hndv, hfr, hvis⟩ := hoks
      have hcurf := hfr current (List.mem_cons_self current rest)
      dsimp only
      by_cases hw : wallAt grid current = true
      · rw [if_pos hw]
        exact ih _ _ _ hrect (frontierOk_tail grid ⟨hndf, hndv, hfr, hvis⟩)
      · rw [if_neg hw]
        by_cases hc : current = e
        · rw [if_pos hc]
          exact hndv
        · rw [if_neg hc]
          have hcnv : current ∉ visited := by
            intro hmem
            have := hvis current hmem
            rw [this] at hcurf
            exact absurd hcurf.1 (by simp)
          have hin : inBoundsAt grid current := inBoundsAt_of_lt hrect hcurf.2.1 hcurf.2.2
          have hndv1 : (visited ++ [current]).Nodup := by
            rw [List.nodup_append]
            refine ⟨hndv, List.nodup_singleton current, ?_⟩
            intro a ha hb
            rw [List.mem_singleton] at hb
            subst hb
            exact hcnv ha
          have hsh1 : gridShape (modifyNode grid current fun nd =>
              { nd with isVisited := true }) = gridShape grid :=
            gridShape_modifyNode grid current _
          have hok1 : frontierOk (modifyNode grid current fun nd =>
              { nd with isVisited := true }) rest (visited ++ [current]) := by
            refine ⟨(List.nodup_cons.mp hndf).2, hndv1, ?_, ?_⟩
            · intro c hcm
              have hcc : c ≠ current := by
                intro hcc
                subst hcc
                exact (List.nodup_cons.mp hndf).1 hcm
              rw [visitedAt_modifyNode_ne grid current c _ hcc,
                length_eq_shape, hsh1, ← length_eq_shape,
                gridCols_eq_shape, hsh1, ← gridCols_eq_shape]
              exact hfr c (List.mem_cons_of_mem current hcm)
            · intro c hcm
              rcases List.mem_append.mp hcm with hm | hm
              · have hcc : c ≠ current := fun hcc => hcnv (hcc ▸ hm)
                rw [visitedAt_modifyNode_ne grid current c _ hcc]
                exact hvis c hm
              · rw [List.mem_singleton] at hm
                subst hm
                exact visitedAt_mark_self grid c hin _ fun nd => rfl
          obtain ⟨e1, e2⟩ := ucsRelax_fold_inv current (visited ++ [current])
            (getNeighbors current (modifyNode grid current fun nd =>
              { nd with isVisited := true }))
            (modifyNode grid current fun nd => { nd with isVisited := true }) rest
            (fun m hm => mem_getNeighbors_lt hm) hok1
          refine ih _ _ _ ?_ e2
          exact rectangular_congr_shape e1 (rectangular_modifyNode grid current _ hrect)

theorem greedyDiscover_fold_inv (current : Coord) (visited : List Coord) :
    ∀ (ns : List Coord) (g0 : Grid) (s0 : List Coord),
      (∀ n ∈ ns, n.1 < g0.length ∧ n.2 < gridCols g0) →
      frontierOk g0 s0 visited →
      gridShape (ns.foldl (greedyDiscover current) (g0, s0)).1 = gridShape g0 ∧
      frontierOk (ns.foldl (greedyDiscover current) (g0, s0)).1
        (ns.foldl (greedyDiscover current) (g0, s0)).2 visited := by
  intro ns
  induction ns with
  | nil =>
    intro g0 s0 _ h
    exact ⟨rfl, h⟩
  | cons n ns ih =>
    intro g0 s0 hbnd hok
    simp only [List.foldl_cons]
    have hbn := hbnd n (List.mem_cons_self n ns)
    have hbnd' : ∀ m ∈ ns, m.1 < g0.length ∧ m.2 < gridCols g0 :=
      fun m hm => hbnd m (List.mem_cons_of_mem n hm)
    by_cases hc1 : wallAt g0 n = false ∧ visitedAt g0 n = false ∧ n ∉ s0
    · have hstep : greedyDiscover current (g0, s0) n =
          (modifyNode g0 n fun nd => { nd with previousNode := some current },
            s0 ++ [n]) := by
        simp only [greedyDiscover]
        rw [if_pos hc1]
      rw [hstep]
      have hsh : gridShape (modifyNode g0 n fun nd =>
          { nd with previousNode := some current }) = gridShape g0 :=
        gridShape_modifyNode g0 n _
      have hpres : ∀ c, visitedAt (modifyNode g0 n fun nd =>
          { nd with previousNode := some current }) c = visitedAt g0 c :=
        fun c => visitedAt_modifyNode_preserve g0 n c _ fun nd => rfl
      have hok1 := frontierOk_push (frontierOk_transfer hsh hpres hok)
        (by rw [hpres]; exact hc1.2.1)
        (by rw [length_eq_shape, hsh, ← length_eq_shape]; exact hbn.1)
        (by rw [gridCols_eq_shape, hsh, ← gridCols_eq_shape]; exact hbn.2) hc1.2.2
      obtain ⟨e1, e2⟩ := ih _ _ (bounds_transfer hsh hbnd') hok1
      exact ⟨by rw [e1, hsh], e2⟩
    · have hstep : greedyDiscover current (g0, s0) n = (g0, s0) := by
        simp only [greedyDiscover]
        rw [if_neg hc1]
      rw [hstep]
      exact ih _ _ hbnd' hok

theorem astarRelax_fold_inv (hfun : Coord → Coord → Nat) (e current : Coord)
    (visited : List Coord) :
    ∀ (ns : List Coord) (g0 : Grid) (s0 : List Coord),
      (∀ n ∈ ns, n.1 < g0.length ∧ n.2 < gridCols g0) →
      frontierOk g0 s0 visited →
      gridShape (ns.foldl (astarRelax hfun e current) (g0, s0)).1 = gridShape g0 ∧
      frontierOk (ns.foldl (astarRelax hfun e current) (g0, s0)).1
        (ns.foldl (astarRelax hfun e current) (g0, s0)).2 visited := by
  intro ns
  induction ns with
  | nil =>
    intro g0 s0 _ h
    exact ⟨rfl, h⟩
  | cons n ns ih =>
    intro g0 s0 hbnd hok
    simp only [List.foldl_cons]
    have hbn := hbnd n (List.mem_cons_self n ns)
    have hbnd' : ∀ m ∈ ns, m.1 < g0.length ∧ m.2 < gridCols g0 :=
      fun m hm => hbnd m (List.mem_cons_of_mem n hm)
    by_cases hc1 : wallAt g0 n = true ∨ visitedAt g0 n = true
    · have hstep : astarRelax hfun e current (g0, s0) n = (g0, s0) := by
        simp only [astarRelax]
        rw [if_pos hc1]
      rw [hstep]
      exact ih _ _ hbnd' hok
    · by_cases hc2 : gScoreAt g0 current + 1 < gScoreAt g0 n
      · have hsh : gridShape (modifyNode g0 n fun nd =>
            { nd with
              previousNode := some current
              gScore := gScoreAt g0 current + 1
              fScore := gScoreAt g0 current + 1 + (hfun n e : ℕ∞) }) = gridShape g0 :=
          gridShape_modifyNode g0 n _
        have hpres : ∀ c, visitedAt (modifyNode g0 n fun nd =>
            { nd with
              previousNode := some current
              gScore := gScoreAt g0 current + 1
              fScore := gScoreAt g0 current + 1 + (hfun n e : ℕ∞) }) c = visitedAt g0 c :=
          fun c => visitedAt_modifyNode_preserve g0 n c _ fun nd => rfl
        have hnv : visitedAt g0 n = false := by
          rcases Bool.eq_false_or_eq_true (visitedAt g0 n) with h | h
          · exact absurd (Or.inr h) hc1
          · exact h
        by_cases hc3 : n ∈ s0
        · have hstep : astarRelax hfun e current (g0, s0) n =
              (modifyNode g0 n fun nd =>
                { nd with
                previousNode := some current
                gScore := gScoreAt g0 current + 1
                fScore := gScoreAt g0 current + 1 + (hfun n e : ℕ∞) }, s0) := by
            simp only [astarRelax]
            rw [if_neg hc1, if_pos hc2, if_pos hc3]
          rw [hstep]
          obtain ⟨e1, e2⟩ := ih _ _ (bounds_transfer hsh hbnd')
            (frontierOk_transfer hsh hpres hok)
          exact ⟨by rw [e1, hsh], e2⟩
        · have hstep : astarRelax hfun e current (g0, s0) n =
              (modifyNode g0 n fun nd =>
                { nd with
                previousNode := some current
                gScore := gScoreAt g0 current + 1
                fScore := gScoreAt g0 current + 1 + (hfun n e : ℕ∞) }, s0 ++ [n]) := by
            simp only [astarRelax]
            rw [if_neg hc1, if_pos hc2, if_neg hc3]
          rw [hstep]
          have hok1 := frontierOk_push (frontierOk_transfer hsh hpres hok)
            (by rw [hpres]; exact hnv)
            (by rw [length_eq_shape, hsh, ← length_eq_shape]; exact hbn.1)
            (by rw [gridCols_eq_shape, hsh, ← gridCols_eq_shape]; exact hbn.2) hc3
          obtain ⟨e1, e2⟩ := ih _ _ (bounds_transfer hsh hbnd') hok1
          exact ⟨by rw [e1, hsh], e2⟩
      · have hstep : astarRelax hfun e current (g0, s0) n = (g0, s0) := by
          simp only [astarRelax]
          rw [if_neg hc1, if_neg hc2]
        rw [hstep]
        exact ih _ _ hbnd' hok

theorem greedyLoop_nodup (hfun : Coord → Coord → Nat) (e : Coord) :
    ∀ (fuel : Nat) (grid : Grid) (unvisited visited : List Coord),
      rectangular grid →
      frontierOk grid unvisited visited →
      (greedyLoop hfun e fuel grid unvisited visited).visitedNodesInOrder.Nodup := by
  intro fuel
  induction fuel with
  | zero =>
    intro grid unvisited visited _ hok
    exact hok.2.1
  | succ n ih =>
    intro grid unvisited visited hrect hok
    simp only [greedyLoop]
    cases hs : stableSortBy (fun a b => decide (hfun a e ≤ hfun b e)) unvisited with
    | nil => exact hok.2.1
    | cons current rest =>
      have hoks : frontierOk grid (current :: rest) visited :=
        frontierOk_perm grid (hs ▸ stableSortBy_perm _ unvisited) hok
      obtain ⟨hndf, hndv, hfr, hvis⟩ := hoks
      have hcurf := hfr current (List.mem_cons_self current rest)
      dsimp only
      by_cases hw : wallAt grid current = true
      · rw [if_pos hw]
        exact ih _ _ _ hrect (frontierOk_tail grid ⟨hndf, hndv, hfr, hvis⟩)
      · rw [if_neg hw]
        have hcnv : current ∉ visited := by
          intro hmem
          have := hvis current hmem
          rw [this] at hcurf
          exact absurd hcurf.1 (by simp)
        have hin : inBoundsAt grid current := inBoundsAt_of_lt hrect hcurf.2.1 hcurf.2.2
        have hndv1 : (visited ++ [current]).Nodup := by
          rw [List.nodup_append]
          refine ⟨hndv, List.nodup_singleton current, ?_⟩
          intro a ha hb
          rw [List.mem_singleton] at hb
          subst hb
          exact hcnv ha
        by_cases hc : current = e
        · rw [if_pos hc]
          exact hndv1
        · rw [if_neg hc]
          have hsh1 : gridShape (modifyNode grid current fun nd =>
              { nd with isVisited := true }) = gridShape grid :=
            gridShape_modifyNode grid current _
          have hok1 : frontierOk (modifyNode grid current fun nd =>
              { nd with isVisited := true }) rest (visited ++ [current]) := by
            refine ⟨(List.nodup_cons.mp hndf).2, hndv1, ?_, ?_⟩
            · intro c hcm
              have hcc : c ≠ current := by
                intro hcc
                subst hcc
                exact (List.nodup_cons.mp hndf).1 hcm
              rw [visitedAt_modifyNode_ne grid current c _ hcc,
                length_eq_shape, hsh1, ← length_eq_shape,
                gridCols_eq_shape, hsh1, ← gridCols_eq_shape]
              exact hfr c (List.mem_cons_of_mem current hcm)
            · intro c hcm
              rcases List.mem_append.mp hcm with hm | hm
              · have hcc : c ≠ current := fun hcc => hcnv (hcc ▸ hm)
                rw [visitedAt_modifyNode_ne grid current c _ hcc]
                exact hvis c hm
              · rw [List.mem_singleton] at hm
                subst hm
                exact visitedAt_mark_self grid c hin _ fun nd => rfl
          obtain ⟨e1, e2⟩ := greedyDiscover_fold_inv current (visited ++ [current])
            (getNeighbors current (modifyNode grid current fun nd =>
              { nd with isVisited := true }))
            (modifyNode grid current fun nd => { nd with isVisited := true }) rest
            (fun m hm => mem_getNeighbors_lt hm) hok1
          refine ih _ _ _ ?_ e2
          exact rectangular_congr_shape e1 (rectangular_modifyNode grid current _ hrect)

theorem astarLoop_nodup (hfun : Coord → Coord → Nat) (e : Coord) :
    ∀ (fuel : Nat) (grid : Grid) (openSet visited : List Coord),
      rectangular grid →
      frontierOk grid openSet visited →
      (astarLoop hfun e fuel grid openSet visited).visitedNodesInOrder.Nodup := by
  intro fuel
  induction fuel with
  | zero =>
    intro grid openSet visited _ hok
    exact hok.2.1
  | succ n ih =>
    intro grid openSet visited hrect hok
    simp only [astarLoop]
    cases hs : stableSortBy (fun a b => decide (fScoreAt grid a ≤ fScoreAt grid b)) openSet with
    | nil => exact hok.2.1
    | cons current rest =>
      have hoks : frontierOk grid (current :: rest) visited :=
        frontierOk_perm grid (hs ▸ stableSortBy_perm _ openSet) hok
      obtain ⟨hndf, hndv, hfr, hvis⟩ := hoks
      have hcurf := hfr current (List.mem_cons_self current rest)
      dsimp only
      by_cases hw : wallAt grid current = true
      · rw [if_pos hw]
        exact ih _ _ _ hrect (frontierOk_tail grid ⟨hndf, hndv, hfr, hvis⟩)
      · rw [if_neg hw]
        have hcnv : current ∉ visited := by
          intro hmem
          have := hvis current hmem
          rw [this] at hcurf
          exact absurd hcurf.1 (by simp)
        have hin : inBoundsAt grid current := inBoundsAt_of_lt hrect hcurf.2.1 hcurf.2.2
        have hndv1 : (visited ++ [current]).Nodup := by
          rw [List.nodup_append]
          refine ⟨hndv, List.nodup_singleton current, ?_⟩
          intro a ha hb
          rw [List.mem_singleton] at hb
          subst hb
          exact hcnv ha
        by_cases hc : current = e
        · rw [if_pos hc]
          exact hndv1
        · rw [if_neg hc]
          have hsh1 : gridShape (modifyNode grid current fun nd =>
              { nd with isVisited := true }) = gridShape grid :=
            gridShape_modifyNode grid current _
          have hok1 : frontierOk (modifyNode grid current fun nd =>
              { nd with isVisited := true }) rest (visited ++ [current]) := by
            refine ⟨(List.nodup_cons.mp hndf).2, hndv1, ?_, ?_⟩
            · intro c hcm
              have hcc : c ≠ current := by
                intro hcc
                subst hcc
                exact (List.nodup_cons.mp hndf).1 hcm
              rw [visitedAt_modifyNode_ne grid current c _ hcc,
                length_eq_shape, hsh1, ← length_eq_shape,
                gridCols_eq_shape, hsh1, ← gridCols_eq_shape]
              exact hfr c (List.mem_cons_of_mem current hcm)
            · intro c hcm
              rcases List.mem_append.mp hcm with hm | hm
              · have hcc : c ≠ current := fun hcc => hcnv (hcc ▸ hm)
                rw [visitedAt_modifyNode_ne grid current c _ hcc]
                exact hvis c hm
              · rw [List.mem_singleton] at hm
                subst hm
                exact visitedAt_mark_self grid c hin _ fun nd => rfl
          obtain ⟨e1, e2⟩ := astarRelax_fold_inv hfun e current (visited ++ [current])
            (getNeighbors current (modifyNode grid current fun nd =>
              { nd with isVisited := true }))
            (modifyNode grid current fun nd => { nd with isVisited := true }) rest
            (fun m hm => mem_getNeighbors_lt hm) hok1
          refine ih _ _ _ ?_ e2
          exact rectangular_congr_shape e1 (rectangular_modifyNode grid current _ hrect)

/-- C10: on a rectangular grid whose start cell is in bounds and initially
unvisited (as after `resetGrid`), every one of the five search functions
returns a `visitedNodesInOrder` without duplicates: `dfs`/`bfs` mark
`isVisited` at push time and `ucs`/`greedy`/`astar` guard against re-adding
visited or already-enqueued cells. -/
theorem visited_order_nodup (grid : Grid) (s e : Coord)
    (hrect : rectangular grid) (h1 : s.1 < grid.length) (h2 : s.2 < gridCols grid)
    (hclean : visitedAt grid s = false) :
    (dfs grid s e).visitedNodesInOrder.Nodup ∧
    (bfs grid s e).visitedNodesInOrder.Nodup ∧
    (ucs grid s e).visitedNodesInOrder.Nodup ∧
    (∀ hfun : Coord → Coord → Nat, (greedy grid s e hfun).visitedNodesInOrder.Nodup) ∧
    (∀ hfun : Coord → Coord → Nat, (astar grid s e hfun).visitedNodesInOrder.Nodup) := by
  have hin : inBoundsAt grid s := inBoundsAt_of_lt hrect h1 h2
  refine ⟨?_, ?_, ?_, ?_, ?_⟩
  · apply dfsLoop_nodup e (totalCells grid + 1)
      (modifyNode grid s fun nd => { nd with isVisited := true }) [s] []
    · exact rectangular_modifyNode grid s _ hrect
    · simp
    · intro c hc
      simp only [List.append_nil, List.mem_singleton] at hc
      subst hc
      exact visitedAt_mark_self grid c hin _ fun nd => rfl
  · apply bfsLoop_nodup e (totalCells grid + 1)
      (modifyNode grid s fun nd => { nd with isVisited := true }) [s] []
    · exact rectangular_modifyNode grid s _ hrect
    · simp
    · intro c hc
      simp only [List.append_nil, List.mem_singleton] at hc
      subst hc
      exact visitedAt_mark_self grid c hin _ fun nd => rfl
  · have hsh1 : gridShape (modifyNode (grid.map fun row => row.map fun nd =>
        { nd with distance := (⊤ : ℕ∞) }) s fun nd => { nd with distance := 0 }) =
        gridShape grid := by
      rw [gridShape_modifyNode, gridShape_map_map]
    apply ucsLoop_nodup e (totalCells grid + 1)
      (modifyNode (grid.map fun row => row.map fun nd =>
        { nd with distance := (⊤ : ℕ∞) }) s fun nd => { nd with distance := 0 }) [s] []
    · exact rectangular_congr_shape hsh1 hrect
    · refine ⟨List.nodup_singleton s, List.nodup_nil, ?_, by intro c hc; cases hc⟩
      intro c hc
      rw [List.mem_singleton] at hc
      subst hc
      refine ⟨?_, ?_, ?_⟩
      · have ha : visitedAt (modifyNode (grid.map fun row => row.map fun nd =>
            { nd with distance := (⊤ : ℕ∞) }) c fun nd => { nd with distance := 0 }) c =
            visitedAt (grid.map fun row => row.map fun nd =>
              { nd with distance := (⊤ : ℕ∞) }) c :=
          visitedAt_modifyNode_preserve _ _ _ _ fun nd => rfl
        have hb : visitedAt (grid.map fun row => row.map fun nd =>
            { nd with distance := (⊤ : ℕ∞) }) c = visitedAt grid c :=
          visitedAt_gridMap grid (fun nd => { nd with distance := (⊤ : ℕ∞) })
            (fun nd => rfl) c
        rw [ha, hb]
        exact hclean
      · rw [length_eq_shape, hsh1, ← length_eq_shape]
        exact h1
      · rw [gridCols_eq_shape, hsh1, ← gridCols_eq_shape]
        exact h2
  · intro hfun
    apply greedyLoop_nodup hfun e (totalCells grid + 1) grid [s] [] hrect
    refine ⟨List.nodup_singleton s, List.nodup_nil, ?_, by intro c hc; cases hc⟩
    intro c hc
    rw [List.mem_singleton] at hc
    subst hc
    exact ⟨hclean, h1, h2⟩
  · intro hfun
    have hsh1 : gridShape (modifyNode (grid.map fun row => row.map fun nd =>
        { nd with gScore := (⊤ : ℕ∞), fScore := (⊤ : ℕ∞) }) s fun nd =>
        { nd with gScore := 0, fScore := (hfun s e : ℕ∞) }) = gridShape grid := by
      rw [gridShape_modifyNode, gridShape_map_map]
    apply astarLoop_nodup hfun e (totalCells grid + 1)
      (modifyNode (grid.map fun row => row.map fun nd =>
        { nd with gScore := (⊤ : ℕ∞), fScore := (⊤ : ℕ∞) }) s fun nd =>
        { nd with gScore := 0, fScore := (hfun s e : ℕ∞) }) [s] []
    · exact rectangular_congr_shape hsh1 hrect
    · refine ⟨List.nodup_singleton s, List.nodup_nil, ?_, by intro c hc; cases hc⟩
      intro c hc
      rw [List.mem_singleton] at hc
      subst hc
      refine ⟨?_, ?_, ?_⟩
      · have ha : visitedAt (modifyNode (grid.map fun row => row.map fun nd =>
            { nd with gScore := (⊤ : ℕ∞), fScore := (⊤ : ℕ∞) }) c fun nd =>
            { nd with gScore := 0, fScore := (hfun c e : ℕ∞) }) c =
            visitedAt (grid.map fun row => row.map fun nd =>
              { nd with gScore := (⊤ : ℕ∞), fScore := (⊤ : ℕ∞) }) c :=
          visitedAt_modifyNode_preserve _ _ _ _ fun nd => rfl
        have hb : visitedAt (grid.map fun row => row.map fun nd =>
            { nd with gScore := (⊤ : ℕ∞), fScore := (⊤ : ℕ∞) }) c = visitedAt grid c :=
          visitedAt_gridMap grid (fun nd => { nd with gScore := (⊤ : ℕ∞), fScore := (⊤ : ℕ∞) })
            (fun nd => rfl) c
        rw [ha, hb]
        exact hclean
      · rw [length_eq_shape, hsh1, ← length_eq_shape]
        exact h1
      · rw [gridCols_eq_shape, hsh1, ← gridCols_eq_shape]
        exact h2

/-- C10 (witness): the theorem at a concrete reset 2×2 grid, all
hypotheses checked by computation. -/
theorem visited_order_nodup_witness :
    (dfs (resetGrid (createGrid 2 2)) (0, 0) (1, 1)).visitedNodesInOrder.Nodup ∧
    (ucs (resetGrid (createGrid 2 2)) (0, 0) (1, 1)).visitedNodesInOrder.Nodup :=
  have h := visited_order_nodup (resetGrid (createGrid 2 2)) (0, 0) (1, 1)
    (by unfold rectangular; decide) (by decide) (by decide) (by decide)
  ⟨h.1, h.2.2.1⟩

/-- Folding a neighbour-processing step over the up-to-four neighbours of a
reachable cell keeps the shape, the walls, and the reachability of every
frontier entry. -/
theorem fold_reach (step : Grid × List Coord → Coord → Grid × List Coord)
    (hstep : ∀ (g : Grid) (l : List Coord) (n : Coord),
      gridShape (step (g, l) n).1 = gridShape g ∧
      (∀ c, wallAt (step (g, l) n).1 c = wallAt g c) ∧
      (∀ c ∈ (step (g, l) n).2, c ∈ l ∨ (c = n ∧ wallAt g n = false)))
    (grid0 : Grid) (s current : Coord) (hcur : Reachable grid0 s current) :
    ∀ (ns : List Coord) (g0 : Grid) (l0 : List Coord),
      gridShape g0 = gridShape grid0 →
      (∀ c, wallAt g0 c = wallAt grid0 c) →
      (∀ n ∈ ns, n ∈ getNeighbors current grid0) →
      (∀ c ∈ l0, Reachable grid0 s c) →
      gridShape (ns.foldl step (g0, l0)).1 = gridShape grid0 ∧
      (∀ c, wallAt (ns.foldl step (g0, l0)).1 c = wallAt grid0 c) ∧
      (∀ c ∈ (ns.foldl step (g0, l0)).2, Reachable grid0 s c) := by
  intro ns
  induction ns with
  | nil =>
    intro g0 l0 h1 h2 _ h4
    exact ⟨h1, h2, h4⟩
  | cons n ns ih =>
    intro g0 l0 h1 h2 h3 h4
    simp only [List.foldl_cons]
    obtain ⟨s1, s2, s3⟩ := hstep g0 l0 n
    have hg1 : gridShape (step (g0, l0) n).1 = gridShape grid0 := by rw [s1, h1]
    have hw1 : ∀ c, wallAt (step (g0, l0) n).1 c = wallAt grid0 c := by
      intro c
      rw [s2 c, h2 c]
    have hl1 : ∀ c ∈ (step (g0, l0) n).2, Reachable grid0 s c := by
      intro c hc
      rcases s3 c hc with hm | ⟨heq, hwn⟩
      · exact h4 c hm
      · have hwg : wallAt grid0 n = false := by
          rw [← h2 n]
          exact heq ▸ hwn
        rw [heq]
        exact hcur.tail ⟨h3 n (List.mem_cons_self n ns), hwg⟩
    have := ih (step (g0, l0) n).1 (step (g0, l0) n).2 hg1 hw1
      (fun m hm => h3 m (List.mem_cons_of_mem n hm)) hl1
    simpa using this

theorem dfsDiscover_step_props (current : Coord) (g : Grid) (l : List Coord) (n : Coord) :
    gridShape (dfsDiscover current (g, l) n).1 = gridShape g ∧
    (∀ c, wallAt (dfsDiscover current (g, l) n).1 c = wallAt g c) ∧
    (∀ c ∈ (dfsDiscover current (g, l) n).2, c ∈ l ∨ (c = n ∧ wallAt g n = false)) := by
  by_cases hc : wallAt g n = false ∧ visitedAt g n = false
  · have hstep : dfsDiscover current (g, l) n =
        (modifyNode g n fun nd => { nd with isVisited := true, previousNode := some current },
          n :: l) := by
      unfold dfsDiscover
      rw [if_pos hc]
    rw [hstep]
    refine ⟨gridShape_modifyNode g n _, ?_, ?_⟩
    · intro c
      exact wallAt_modifyNode_preserve g n c _ fun nd => rfl
    · intro c hcm
      rcases List.mem_cons.mp hcm with h | h
      · exact Or.inr ⟨h, hc.1⟩
      · exact Or.inl h
  · have hstep : dfsDiscover current (g, l) n = (g, l) := by
      unfold dfsDiscover
      rw [if_neg hc]
    rw [hstep]
    exact ⟨rfl, fun c => rfl, fun c hcm => Or.inl hcm⟩

theorem bfsDiscover_step_props (current : Coord) (g : Grid) (l : List Coord) (n : Coord) :
    gridShape (bfsDiscover current (g, l) n).1 = gridShape g ∧
    (∀ c, wallAt (bfsDiscover current (g, l) n).1 c = wallAt g c) ∧
    (∀ c ∈ (bfsDiscover current (g, l) n).2, c ∈ l ∨ (c = n ∧ wallAt g n = false)) := by
  by_cases hc : wallAt g n = false ∧ visitedAt g n = false
  · have hstep : bfsDiscover current (g, l) n =
        (modifyNode g n fun nd => { nd with isVisited := true, previousNode := some current },
          l ++ [n]) := by
      unfold bfsDiscover
      rw [if_pos hc]
    rw [hstep]
    refine ⟨gridShape_modifyNode g n _, ?_, ?_⟩
    · intro c
      exact wallAt_modifyNode_preserve g n c _ fun nd => rfl
    · intro c hcm
      rcases List.mem_append.mp hcm with h | h
      · exact Or.inl h
      · rw [List.mem_singleton] at h
        exact Or.inr ⟨h, hc.1⟩
  · have hstep : bfsDiscover current (g, l) n = (g, l) := by
      unfold bfsDiscover
      rw [if_neg hc]
    rw [hstep]
    exact ⟨rfl, fun c => rfl, fun c hcm => Or.inl hcm⟩

theorem ucsRelax_step_props (current : Coord) (g : Grid) (l : List Coord) (n : Coord) :
    gridShape (ucsRelax current (g, l) n).1 = gridShape g ∧
    (∀ c, wallAt (ucsRelax current (g, l) n).1 c = wallAt g c) ∧
    (∀ c ∈ (ucsRelax current (g, l) n).2, c ∈ l ∨ (c = n ∧ wallAt g n = false)) := by
  by_cases hc1 : wallAt g n = false ∧ visitedAt g n = false
  · by_cases hc2 : distAt g current + 1 < distAt g n
    · by_cases hc3 : n ∈ l
      · have hstep : ucsRelax current (g, l) n =
            (modifyNode g n fun nd =>
              { nd with distance := distAt g current + 1, previousNode := some current },
              l) := by
          simp only [ucsRelax]
          rw [if_pos hc1, if_pos hc2, if_pos hc3]
        rw [hstep]
        exact ⟨gridShape_modifyNode g n _,
          fun c => wallAt_modifyNode_preserve g n c _ fun nd => rfl,
          fun c hcm => Or.inl hcm⟩
      · have hstep : ucsRelax current (g, l) n =
            (modifyNode g n fun nd =>
              { nd with distance := distAt g current + 1, previousNode := some current },
              l ++ [n]) := by
          simp only [ucsRelax]
          rw [if_pos hc1, if_pos hc2, if_neg hc3]
        rw [hstep]
        refine ⟨gridShape_modifyNode g n _,
          fun c => wallAt_modifyNode_preserve g n c _ fun nd => rfl, ?_⟩
        intro c hcm
        rcases List.mem_append.mp hcm with h | h
        · exact Or.inl h
        · rw [List.mem_singleton] at h
          exact Or.inr ⟨h, hc1.1⟩
    · have hstep : ucsRelax current (g, l) n = (g, l) := by
        simp only [ucsRelax]
        rw [if_pos hc1, if_neg hc2]
      rw [hstep]
      exact ⟨rfl, fun c => rfl, fun c hcm => Or.inl hcm⟩
  · have hstep : ucsRelax current (g, l) n = (g, l) := by
      simp only [ucsRelax]
      rw [if_neg hc1]
    rw [hstep]
    exact ⟨rfl, fun c => rfl, fun c hcm => Or.inl hcm⟩

theorem greedyDiscover_step_props (current : Coord) (g : Grid) (l : List Coord) (n : Coord) :
    gridShape (greedyDiscover current (g, l) n).1 = gridShape g ∧
    (∀ c, wallAt (greedyDiscover current (g, l) n).1 c = wallAt g c) ∧
    (∀ c ∈ (greedyDiscover current (g, l) n).2, c ∈ l ∨ (c = n ∧ wallAt g n = false)) := by
  by_cases hc : wallAt g n = false ∧ visitedAt g n = false ∧ n ∉ l
  · have hstep : greedyDiscover current (g, l) n =
        (modifyNode g n fun nd => { nd with previousNode := some current }, l ++ [n]) := by
      simp only [greedyDiscover]
      rw [if_pos hc]
    rw [hstep]
    refine ⟨gridShape_modifyNode g n _,
      fun c => wallAt_modifyNode_preserve g n c _ fun nd => rfl, ?_⟩
    intro c hcm
    rcases List.mem_append.mp hcm with h | h
    · exact Or.inl h
    · rw [List.mem_singleton] at h
      exact Or.inr ⟨h, hc.1⟩
  · have hstep : greedyDiscover current (g, l) n = (g, l) := by
      simp only [greedyDiscover]
      rw [if_neg hc]
    rw [hstep]
    exact ⟨rfl, fun c => rfl, fun c hcm => Or.inl hcm⟩

theorem astarRelax_step_props (hfun : Coord → Coord → Nat) (e current : Coord)
    (g : Grid) (l : List Coord) (n : Coord) :
    gridShape (astarRelax hfun e current (g, l) n).1 = gridShape g ∧
    (∀ c, wallAt (astarRelax hfun e current (g, l) n).1 c = wallAt g c) ∧
    (∀ c ∈ (astarRelax hfun e current (g, l) n).2, c ∈ l ∨ (c = n ∧ wallAt g n = false)) := by
  by_cases hc1 : wallAt g n = true ∨ visitedAt g n = true
  · have hstep : astarRelax hfun e current (g, l) n = (g, l) := by
      simp only [astarRelax]
      rw [if_pos hc1]
    rw [hstep]
    exact ⟨rfl, fun c => rfl, fun c hcm => Or.inl hcm⟩
  · have hnw : wallAt g n = false := by
      rcases Bool.eq_false_or_eq_true (wallAt g n) with h | h
      · exact absurd (Or.inl h) hc1
      · exact h
    by_cases hc2 : gScoreAt g current + 1 < gScoreAt g n
    · by_cases hc3 : n ∈ l
      · have hstep : astarRelax hfun e current (g, l) n =
            (modifyNode g n fun nd =>
              { nd with
                previousNode := some current
                gScore := gScoreAt g current + 1
                fScore := gScoreAt g current + 1 + (hfun n e : ℕ∞) }, l) := by
          simp only [astarRelax]
          rw [if_neg hc1, if_pos hc2, if_pos hc3]
        rw [hstep]
        exact ⟨gridShape_modifyNode g n _,
          fun c => wallAt_modifyNode_preserve g n c _ fun nd => rfl,
          fun c hcm => Or.inl hcm⟩
      · have hstep : astarRelax hfun e current (g, l) n =
            (modifyNode g n fun nd =>
              { nd with
                previousNode := some current
                gScore := gScoreAt g current + 1
                fScore := gScoreAt g current + 1 + (hfun n e : ℕ∞) }, l ++ [n]) := by
          simp only [astarRelax]
          rw [if_neg hc1, if_pos hc2, if_neg hc3]
        rw [hstep]
        refine ⟨gridShape_modifyNode g n _,
          fun c => wallAt_modifyNode_preserve g n c _ fun nd => rfl, ?_⟩
        intro c hcm
        rcases List.mem_append.mp hcm with h | h
        · exact Or.inl h
        · rw [List.mem_singleton] at h
          exact Or.inr ⟨h, hnw⟩
    · have hstep : astarRelax hfun e current (g, l) n = (g, l) := by
        simp only [astarRelax]
        rw [if_neg hc1, if_neg hc2]
      rw [hstep]
      exact ⟨rfl, fun c => rfl, fun c hcm => Or.inl hcm⟩

theorem dfsLoop_reach (grid0 : Grid) (s e : Coord) :
    ∀ (fuel : Nat) (g : Grid) (stack visited : List Coord),
      gridShape g = gridShape grid0 →
      (∀ c, wallAt g c = wallAt grid0 c) →
      (∀ c ∈ stack, Reachable grid0 s c) →
      (dfsLoop e fuel g stack visited).path ≠ [] → Reachable grid0 s e := by
  intro fuel
  induction fuel with
  | zero =>
    intro g stack visited _ _ _ h
    simp [dfsLoop] at h
  | succ n ih =>
    intro g stack visited hsh hw hr h
    cases stack with
    | nil => simp [dfsLoop] at h
    | cons current rest =>
      simp only [dfsLoop] at h
      by_cases hc : current = e
      · rw [← hc]
        exact hr current (List.mem_cons_self current rest)
      · rw [if_neg hc] at h
        obtain ⟨e1, e2, e3⟩ := fold_reach (dfsDiscover current)
          (fun g l n => dfsDiscover_step_props current g l n) grid0 s current
          (hr current (List.mem_cons_self current rest))
          (getNeighbors current g) g rest hsh hw
          (fun m hm => (getNeighbors_congr_shape current g grid0 hsh) ▸ hm)
          (fun c hcm => hr c (List.mem_cons_of_mem current hcm))
        exact ih _ _ _ e1 e2 e3 h

theorem bfsLoop_reach (grid0 : Grid) (s e : Coord) :
    ∀ (fuel : Nat) (g : Grid) (queue visited : List Coord),
      gridShape g = gridShape grid0 →
      (∀ c, wallAt g c = wallAt grid0 c) →
      (∀ c ∈ queue, Reachable grid0 s c) →
      (bfsLoop e fuel g queue visited).path ≠ [] → Reachable grid0 s e := by
  intro fuel
  induction fuel with
  | zero =>
    intro g queue visited _ _ _ h
    simp [bfsLoop] at h
  | succ n ih =>
    intro g queue visited hsh hw hr h
    cases queue with
    | nil => simp [bfsLoop] at h
    | cons current rest =>
      simp only [bfsLoop] at h
      by_cases hc : current = e
      · rw [← hc]
        exact hr current (List.mem_cons_self current rest)
      · rw [if_neg hc] at h
        obtain ⟨e1, e2, e3⟩ := fold_reach (bfsDiscover current)
          (fun g l n => bfsDiscover_step_props current g l n) grid0 s current
          (hr current (List.mem_cons_self current rest))
          (getNeighbors current g) g rest hsh hw
          (fun m hm => (getNeighbors_congr_shape current g grid0 hsh) ▸ hm)
          (fun c hcm => hr c (List.mem_cons_of_mem current hcm))
        exact ih _ _ _ e1 e2 e3 h

theorem ucsLoop_reach (grid0 : Grid) (s e : Coord) :
    ∀ (fuel : Nat) (g : Grid) (unvisited visited : List Coord),
      gridShape g = gridShape grid0 →
      (∀ c, wallAt g c = wallAt grid0 c) →
      (∀ c ∈ unvisited, Reachable grid0 s c) →
      (ucsLoop e fuel g unvisited visited).path ≠ [] → Reachable grid0 s e := by
  intro fuel
  induction fuel with
  | zero =>
    intro g unvisited visited _ _ _ h
    simp [ucsLoop] at h
  | succ n ih =>
    intro g unvisited visited hsh hw hr h
    simp only [ucsLoop] at h
    cases hs : stableSortBy (fun a b => decide (distAt g a ≤ distAt g b)) unvisited with
    | nil => rw [hs] at h; exact absurd rfl h
    | cons current rest =>
      rw [hs] at h
      have hrs : ∀ c ∈ current :: rest, Reachable grid0 s c := by
        intro c hcm
        exact hr c ((hs ▸ stableSortBy_perm _ unvisited).mem_iff.mp hcm)
      dsimp only at h
      by_cases hwall : wallAt g current = true
      · rw [if_pos hwall] at h
        exact ih _ _ _ hsh hw
          (fun c hcm => hrs c (List.mem_cons_of_mem current hcm)) h
      · rw [if_neg hwall] at h
        by_cases hc : current = e
        · rw [← hc]
          exact hrs current (List.mem_cons_self current rest)
        · rw [if_neg hc] at h
          have hsh1 : gridShape (modifyNode g current fun nd =>
              { nd with isVisited := true }) = gridShape grid0 := by
            rw [gridShape_modifyNode, hsh]
          have hw1 : ∀ c, wallAt (modifyNode g current fun nd =>
              { nd with isVisited := true }) c = wallAt grid0 c := by
            intro c
            rw [wallAt_modifyNode_preserve g current c
              (fun nd => { nd with isVisited := true }) fun nd => rfl]
            exact hw c
          obtain ⟨e1, e2, e3⟩ := fold_reach (ucsRelax current)
            (fun g l n => ucsRelax_step_props current g l n) grid0 s current
            (hrs current (List.mem_cons_self current rest))
            (getNeighbors current (modifyNode g current fun nd => { nd with isVisited := true }))
            (modifyNode g current fun nd => { nd with isVisited := true }) rest hsh1 hw1
            (fun m hm => (getNeighbors_congr_shape current _ grid0 hsh1) ▸ hm)
            (fun c hcm => hrs c (List.mem_cons_of_mem current hcm))
          exact ih _ _ _ e1 e2 e3 h

theorem greedyLoop_reach (hfun : Coord → Coord → Nat) (grid0 : Grid) (s e : Coord) :
    ∀ (fuel : Nat) (g : Grid) (unvisited visited : List Coord),
      gridShape g = gridShape grid0 →
      (∀ c, wallAt g c = wallAt grid0 c) →
      (∀ c ∈ unvisited, Reachable grid0 s c) →
      (greedyLoop hfun e fuel g unvisited visited).path ≠ [] → Reachable grid0 s e := by
  intro fuel
  induction fuel with
  | zero =>
    intro g unvisited visited _ _ _ h
    simp [greedyLoop] at h
  | succ n ih =>
    intro g unvisited visited hsh hw hr h
    simp only [greedyLoop] at h
    cases hs : stableSortBy (fun a b => decide (hfun a e ≤ hfun b e)) unvisited with
    | nil => rw [hs] at h; exact absurd rfl h
    | cons current rest =>
      rw [hs] at h
      have hrs : ∀ c ∈ current :: rest, Reachable grid0 s c := by
        intro c hcm
        exact hr c ((hs ▸ stableSortBy_perm _ unvisited).mem_iff.mp hcm)
      dsimp only at h
      by_cases hwall : wallAt g current = true
      · rw [if_pos hwall] at h
        exact ih _ _ _ hsh hw
          (fun c hcm => hrs c (List.mem_cons_of_mem current hcm)) h
      · rw [if_neg hwall] at h
        by_cases hc : current = e
        · rw [← hc]
          exact hrs current (List.mem_cons_self current rest)
        · rw [if_neg hc] at h
          have hsh1 : gridShape (modifyNode g current fun nd =>
              { nd with isVisited := true }) = gridShape grid0 := by
            rw [gridShape_modifyNode, hsh]
          have hw1 : ∀ c, wallAt (modifyNode g current fun nd =>
              { nd with isVisited := true }) c = wallAt grid0 c := by
            intro c
            rw [wallAt_modifyNode_preserve g current c
              (fun nd => { nd with isVisited := true }) fun nd => rfl]
            exact hw c
          obtain ⟨e1, e2, e3⟩ := fold_reach (greedyDiscover current)
            (fun g l n => greedyDiscover_step_props current g l n) grid0 s current
            (hrs current (List.mem_cons_self current rest))
            (getNeighbors current (modifyNode g current fun nd => { nd with isVisited := true }))
            (modifyNode g current fun nd => { nd with isVisited := true }) rest hsh1 hw1
            (fun m hm => (getNeighbors_congr_shape current _ grid0 hsh1) ▸ hm)
            (fun c hcm => hrs c (List.mem_cons_of_mem current hcm))
          exact ih _ _ _ e1 e2 e3 h

theorem astarLoop_reach (hfun : Coord → Coord → Nat) (grid0 : Grid) (s e : Coord) :
    ∀ (fuel : Nat) (g : Grid) (openSet visited : List Coord),
      gridShape g = gridShape grid0 →
      (∀ c, wallAt g c = wallAt grid0 c) →
      (∀ c ∈ openSet, Reachable grid0 s c) →
      (astarLoop hfun e fuel g openSet visited).path ≠ [] → Reachable grid0 s e := by
  intro fuel
  induction fuel with
  | zero =>
    intro g openSet visited _ _ _ h
    simp [astarLoop] at h
  | succ n ih =>
    intro g openSet visited hsh hw hr h
    simp only [astarLoop] at h
    cases hs : stableSortBy (fun a b => decide (fScoreAt g a ≤ fScoreAt g b)) openSet with
    | nil => rw [hs] at h; exact absurd rfl h
    | cons current rest =>
      rw [hs] at h
      have hrs : ∀ c ∈ current :: rest, Reachable grid0 s c := by
        intro c hcm
        exact hr c ((hs ▸ stableSortBy_perm _ openSet).mem_iff.mp hcm)
      dsimp only at h
      by_cases hwall : wallAt g current = true
      · rw [if_pos hwall] at h
        exact ih _ _ _ hsh hw
          (fun c hcm => hrs c (List.mem_cons_of_mem current hcm)) h
      · rw [if_neg hwall] at h
        by_cases hc : current = e
        · rw [← hc]
          exact hrs current (List.mem_cons_self current rest)
        · rw [if_neg hc] at h
          have hsh1 : gridShape (modifyNode g current fun nd =>
              { nd with isVisited := true }) = gridShape grid0 := by
            rw [gridShape_modifyNode, hsh]
          have hw1 : ∀ c, wallAt (modifyNode g current fun nd =>
              { nd with isVisited := true }) c = wallAt grid0 c := by
            intro c
            rw [wallAt_modifyNode_preserve g current c
              (fun nd => { nd with isVisited := true }) fun nd => rfl]
            exact hw c
          obtain ⟨e1, e2, e3⟩ := fold_reach (astarRelax hfun e current)
            (fun g l n => astarRelax_step_props hfun e current g l n) grid0 s current
            (hrs current (List.mem_cons_self current rest))
            (getNeighbors current (modifyNode g current fun nd => { nd with isVisited := true }))
            (modifyNode g current fun nd => { nd with isVisited := true }) rest hsh1 hw1
            (fun m hm => (getNeighbors_congr_shape current _ grid0 hsh1) ▸ hm)
            (fun c hcm => hrs c (List.mem_cons_of_mem current hcm))
          exact ih _ _ _ e1 e2 e3 h

theorem wallAt_gridMap (g : Grid) (f : NodeType → NodeType)
    (hp : ∀ nd, (f nd).isWall = nd.isWall) (c : Coord) :
    wallAt (g.map fun row => row.map f) c = wallAt g c := by
  unfold wallAt
  rw [nodeAt?_gridMap]
  cases nodeAt? g c with
  | none => rfl
  | some nd => simp [hp]

set_option maxHeartbeats 1000000 in
/-- C7: when the goal is not reachable from the start through non-wall
cells, every one of the five search functions returns normally with an
empty path (the frontier empties without the goal ever being selected, and
the accumulated `visitedNodesInOrder` is returned as is). -/
theorem unreachable_empty_path (grid : Grid) (s e : Coord)
    (hnr : ¬ Reachable grid s e) :
    (dfs grid s e).path = [] ∧
    (bfs grid s e).path = [] ∧
    (ucs grid s e).path = [] ∧
    (∀ hfun : Coord → Coord → Nat, (greedy grid s e hfun).path = []) ∧
    (∀ hfun : Coord → Coord → Nat, (astar grid s e hfun).path = []) := by
  have hstart : Reachable grid s s := Relation.ReflTransGen.refl
  refine ⟨?_, ?_, ?_, ?_, ?_⟩
  · by_contra hne
    refine hnr (dfsLoop_reach grid s e (totalCells grid + 1)
      (modifyNode grid s fun nd => { nd with isVisited := true }) [s] []
      (gridShape_modifyNode grid s _) ?_ ?_ hne)
    · intro c
      exact wallAt_modifyNode_preserve grid s c
        (fun nd => { nd with isVisited := true }) fun nd => rfl
    · intro c hc
      rw [List.mem_singleton] at hc
      subst hc
      exact hstart
  · by_contra hne
    refine hnr (bfsLoop_reach grid s e (totalCells grid + 1)
      (modifyNode grid s fun nd => { nd with isVisited := true }) [s] []
      (gridShape_modifyNode grid s _) ?_ ?_ hne)
    · intro c
      exact wallAt_modifyNode_preserve grid s c
        (fun nd => { nd with isVisited := true }) fun nd => rfl
    · intro c hc
      rw [List.mem_singleton] at hc
      subst hc
      exact hstart
  · by_contra hne
    have hne2 : (ucsLoop e (totalCells grid + 1)
        (modifyNode (grid.map fun row => row.map fun nd =>
          { nd with distance := (⊤ : ℕ∞) }) s fun nd => { nd with distance := 0 })
        [s] []).path ≠ [] := hne
    refine hnr (ucsLoop_reach grid s e (totalCells grid + 1)
      (modifyNode (grid.map fun row => row.map fun nd =>
        { nd with distance := (⊤ : ℕ∞) }) s fun nd => { nd with distance := 0 }) [s] []
      ?_ ?_ ?_ hne2)
    · rw [gridShape_modifyNode, gridShape_map_map]
    · intro c
      rw [wallAt_modifyNode_preserve _ s c (fun nd => { nd with distance := 0 })
        fun nd => rfl]
      exact wallAt_gridMap grid (fun nd => { nd with distance := (⊤ : ℕ∞) })
        (fun nd => rfl) c
    · intro c hc
      rw [List.mem_singleton] at hc
      subst hc
      exact hstart
  · intro hfun
    by_contra hne
    refine hnr (greedyLoop_reach hfun grid s e (totalCells grid + 1) grid [s] []
      rfl (fun c => rfl) ?_ hne)
    intro c hc
    rw [List.mem_singleton] at hc
    subst hc
    exact hstart
  · intro hfun
    by_contra hne
    have hne2 : (astarLoop hfun e (totalCells grid + 1)
        (modifyNode (grid.map fun row => row.map fun nd =>
          { nd with gScore := (⊤ : ℕ∞), fScore := (⊤ : ℕ∞) }) s fun nd =>
          { nd with gScore := 0, fScore := (hfun s e : ℕ∞) }) [s] []).path ≠ [] := hne
    refine hnr (astarLoop_reach hfun grid s e (totalCells grid + 1)
      (modifyNode (grid.map fun row => row.map fun nd =>
        { nd with gScore := (⊤ : ℕ∞), fScore := (⊤ : ℕ∞) }) s fun nd =>
        { nd with gScore := 0, fScore := (hfun s e : ℕ∞) }) [s] []
      ?_ ?_ ?_ hne2)
    · rw [gridShape_modifyNode, gridShape_map_map]
    · intro c
      rw [wallAt_modifyNode_preserve _ s c
        (fun nd => { nd with gScore := 0, fScore := (hfun s e : ℕ∞) }) fun nd => rfl]
      exact wallAt_gridMap grid
        (fun nd => { nd with gScore := (⊤ : ℕ∞), fScore := (⊤ : ℕ∞) }) (fun nd => rfl) c
    · intro c hc
      rw [List.mem_singleton] at hc
      subst hc
      exact hstart

/-- C7 (witness): on the 1×3 grid `[start, wall, goal]` the goal is
unreachable, and `dfs` and `ucs` indeed return an empty path. -/
theorem unreachable_empty_path_witness :
    (¬ Reachable (modifyNode (createGrid 1 3) (0, 1) fun nd => { nd with isWall := true })
      (0, 0) (0, 2)) ∧
    (dfs (modifyNode (createGrid 1 3) (0, 1) fun nd => { nd with isWall := true })
      (0, 0) (0, 2)).path = [] ∧
    (ucs (modifyNode (createGrid 1 3) (0, 1) fun nd => { nd with isWall := true })
      (0, 0) (0, 2)).path = [] := by
  have hnr : ¬ Reachable (modifyNode (createGrid 1 3) (0, 1) fun nd =>
      { nd with isWall := true }) (0, 0) (0, 2) := by
    intro hre
    rcases Relation.ReflTransGen.cases_head hre with heq | ⟨c, hstep, _⟩
    · exact absurd heq (by decide)
    · obtain ⟨hmem, hwall⟩ := hstep
      rw [show getNeighbors (0, 0) (modifyNode (createGrid 1 3) (0, 1) fun nd =>
        { nd with isWall := true }) = [(0, 1)] from by decide] at hmem
      rw [List.mem_singleton] at hmem
      subst hmem
      rw [show wallAt (modifyNode (createGrid 1 3) (0, 1) fun nd =>
        { nd with isWall := true }) (0, 1) = true from by decide] at hwall
      cases hwall
  have h := unreachable_empty_path
    (modifyNode (createGrid 1 3) (0, 1) fun nd => { nd with isWall := true })
    (0, 0) (0, 2) hnr
  exact ⟨hnr, h.1, h.2.2.1⟩

theorem getNeighbors_eq_filterMap (node : Coord) (grid : Grid) :
    getNeighbors node grid =
      ([(-1, 0), (1, 0), (0, -1), (0, 1)] : List (Int × Int)).filterMap
        (neighborOf grid node) := rfl

theorem validateExpand_eq (grid : Grid) (current : Coord)
    (st : List (List Bool) × List Coord) (d : Int × Int) :
    validateExpand grid current st d =
      match neighborOf grid current d with
      | none => st
      | some c =>
        if wallAt grid c = false ∧ visitedMAt st.1 c = false then
          (setVisitedM st.1 c, c :: st.2)
        else st := by
  unfold validateExpand neighborOf
  dsimp only
  by_cases h : 0 ≤ (current.1 : Int) + d.1 ∧ (current.1 : Int) + d.1 < (grid.length : Int) ∧
      0 ≤ (current.2 : Int) + d.2 ∧ (current.2 : Int) + d.2 < (gridCols grid : Int)
  · rw [if_pos h, if_pos h]
  · rw [if_neg h, if_neg h]

theorem vmShape_setVisitedM (vm : List (List Bool)) (c : Coord) :
    vmShape (setVisitedM vm c) = vmShape vm := by
  apply List.ext_getElem?
  intro n
  simp only [vmShape, List.getElem?_map, setVisitedM, List.getElem?_modify]
  cases vm[n]? with
  | none => rfl
  | some row =>
    simp only [Option.map_eq_map, Option.map_some]
    split <;> simp [List.length_modify]

theorem visitedMAt_set_self (vm : List (List Bool)) (c : Coord)
    (h1 : c.1 < vm.length) (h2 : ∀ (h : c.1 < vm.length), c.2 < vm[c.1].length) :
    visitedMAt (setVisitedM vm c) c = true := by
  unfold visitedMAt setVisitedM
  rw [List.getElem?_modify, List.getElem?_eq_getElem h1]
  simp only [Option.map_eq_map, Option.map_some, eq_self_iff_true, if_true]
  rw [List.getElem?_modify, List.getElem?_eq_getElem (h2 h1)]
  simp

theorem visitedMAt_set_ne (vm : List (List Bool)) (c c' : Coord) (h : c' ≠ c) :
    visitedMAt (setVisitedM vm c) c' = visitedMAt vm c' := by
  unfold visitedMAt setVisitedM
  rw [List.getElem?_modify]
  by_cases h1 : c.1 = c'.1
  · have h2 : c.2 ≠ c'.2 := by
      intro h2
      exact h (Prod.ext h1.symm h2.symm)
    cases hrow : vm[c'.1]? with
    | none => rfl
    | some row =>
      simp only [Option.map_eq_map, Option.map_some, if_pos h1, List.getElem?_modify]
      cases hnd : row[c'.2]? with
      | none => rfl
      | some b => simp [if_neg h2]
  · cases hrow : vm[c'.1]? with
    | none => rfl
    | some row => simp [if_neg h1]

theorem visitedMAt_set_mono (vm : List (List Bool)) (c c' : Coord)
    (h : visitedMAt vm c' = true) : visitedMAt (setVisitedM vm c) c' = true := by
  by_cases hc : c' = c
  · subst hc
    unfold visitedMAt setVisitedM
    unfold visitedMAt at h
    rw [List.getElem?_modify]
    cases hrow : vm[c'.1]? with
    | none => rw [hrow] at h; simp at h
    | some row =>
      rw [hrow] at h
      dsimp only at h
      simp only [Option.map_eq_map, Option.map_some, eq_self_iff_true, if_true]
      rw [List.getElem?_modify]
      cases hnd : row[c'.2]? with
      | none => rw [hnd] at h; simp at h
      | some b => simp
  · rw [visitedMAt_set_ne vm c c' hc]
    exact h

theorem filter_false_modify_true {row : List Bool} :
    ∀ (j : Nat), row[j]? = some false →
      ((List.modify (fun _ => true) j row).filter fun b => b = false).length + 1 =
        (row.filter fun b => b = false).length := by
  induction row with
  | nil =>
    intro j h
    simp at h
  | cons b rest ih =>
    intro j h
    cases j with
    | zero =>
      rw [list_modify_cons_zero]
      simp only [List.getElem?_cons_zero, Option.some_inj] at h
      subst h
      simp [List.filter]
    | succ j =>
      rw [list_modify_cons_succ]
      simp only [List.getElem?_cons_succ] at h
      have := ih j h
      rw [List.filter_cons, List.filter_cons]
      split
      · simp only [List.length_cons]
        omega
      · exact this

theorem countFalse_modify_aux :
    ∀ (vm : List (List Bool)) (i j : Nat) (row : List Bool),
      vm[i]? = some row → row[j]? = some false →
      countFalse (List.modify (fun r => List.modify (fun _ => true) j r) i vm) + 1 =
        countFalse vm := by
  intro vm
  induction vm with
  | nil =>
    intro i j row h _
    simp at h
  | cons r0 rest ih =>
    intro i j row hrow hcell
    cases i with
    | zero =>
      rw [list_modify_cons_zero]
      simp only [List.getElem?_cons_zero, Option.some_inj] at hrow
      subst hrow
      unfold countFalse
      simp only [List.map_cons, List.sum_cons]
      have := filter_false_modify_true j hcell
      omega
    | succ i =>
      rw [list_modify_cons_succ]
      simp only [List.getElem?_cons_succ] at hrow
      have := ih i j row hrow hcell
      unfold countFalse at this ⊢
      simp only [List.map_cons, List.sum_cons]
      omega

theorem countFalse_set (vm : List (List Bool)) (c : Coord) (row : List Bool)
    (hrow : vm[c.1]? = some row) (hcell : row[c.2]? = some false) :
    countFalse (setVisitedM vm c) + 1 = countFalse vm :=
  countFalse_modify_aux vm c.1 c.2 row hrow hcell

theorem neighborOf_some_lt {grid : Grid} {c n : Coord} {d : Int × Int}
    (h : neighborOf grid c d = some n) : n.1 < grid.length ∧ n.2 < gridCols grid := by
  unfold neighborOf at h
  dsimp only at h
  revert h
  split
  · rename_i hcond
    intro h
    cases h
    obtain ⟨h1, h2, h3, h4⟩ := hcond
    exact ⟨by omega, by omega⟩
  · intro h
    cases h

theorem visitedMAt_set_origin (vm : List (List Bool)) (c c' : Coord)
    (h : visitedMAt (setVisitedM vm c) c' = true) :
    c' = c ∨ visitedMAt vm c' = true := by
  by_cases hc : c' = c
  · exact Or.inl hc
  · right
    rw [← visitedMAt_set_ne vm c c' hc]
    exact h

theorem vm_bounds {grid : Grid} {vm : List (List Bool)}
    (hsh : vmShape vm = gridShape grid) (hrect : rectangular grid) {c : Coord}
    (h1 : c.1 < grid.length) (h2 : c.2 < gridCols grid) :
    c.1 < vm.length ∧ ∀ (hh : c.1 < vm.length), c.2 < vm[c.1].length := by
  have hlen : vm.length = grid.length := by
    have : (vmShape vm).length = (gridShape grid).length := by rw [hsh]
    simpa [vmShape, gridShape] using this
  refine ⟨by omega, ?_⟩
  intro hh
  have hv : (vmShape vm)[c.1]? = some vm[c.1].length := by
    simp only [vmShape, List.getElem?_map, List.getElem?_eq_getElem hh]
    rfl
  have hg : (gridShape grid)[c.1]? = some grid[c.1].length := by
    simp only [gridShape, List.getElem?_map, List.getElem?_eq_getElem h1]
    rfl
  rw [hsh, hg] at hv
  have hrow := hrect grid[c.1] (List.getElem_mem h1)
  simp only [Option.some_inj] at hv
  omega

theorem visitedMAt_cell_false {grid : Grid} {vm : List (List Bool)}
    (hsh : vmShape vm = gridShape grid) (hrect : rectangular grid) {c : Coord}
    (h1 : c.1 < grid.length) (h2 : c.2 < gridCols grid)
    (hf : visitedMAt vm c = false) :
    ∃ row, vm[c.1]? = some row ∧ row[c.2]? = some false := by
  obtain ⟨b1, b2⟩ := vm_bounds hsh hrect h1 h2
  refine ⟨vm[c.1], List.getElem?_eq_getElem b1, ?_⟩
  rw [List.getElem?_eq_getElem (b2 b1)]
  unfold visitedMAt at hf
  rw [List.getElem?_eq_getElem b1] at hf
  simp only at hf
  rw [List.getElem?_eq_getElem (b2 b1)] at hf
  simpa using hf

theorem validateExpand_fold (grid : Grid) (hrect : rectangular grid) (current : Coord) :
    ∀ (ds : List (Int × Int)) (vm : List (List Bool)) (st : List Coord),
      vmShape vm = gridShape grid →
      (∀ c ∈ st, visitedMAt vm c = true) →
      vmShape (ds.foldl (validateExpand grid current) (vm, st)).1 = gridShape grid ∧
      (∀ c, visitedMAt vm c = true →
        visitedMAt (ds.foldl (validateExpand grid current) (vm, st)).1 c = true) ∧
      (∀ c ∈ st, c ∈ (ds.foldl (validateExpand grid current) (vm, st)).2) ∧
      (∀ c ∈ (ds.foldl (validateExpand grid current) (vm, st)).2,
        visitedMAt (ds.foldl (validateExpand grid current) (vm, st)).1 c = true) ∧
      (∀ d ∈ ds, ∀ n, neighborOf grid current d = some n → wallAt grid n = false →
        visitedMAt (ds.foldl (validateExpand grid current) (vm, st)).1 n = true) ∧
      (countFalse (ds.foldl (validateExpand grid current) (vm, st)).1 +
        (ds.foldl (validateExpand grid current) (vm, st)).2.length =
        countFalse vm + st.length) ∧
      (∀ c, visitedMAt (ds.foldl (validateExpand grid current) (vm, st)).1 c = true →
        visitedMAt vm c = true ∨ c ∈ (ds.foldl (validateExpand grid current) (vm, st)).2) := by
  intro ds
  induction ds with
  | nil =>
    intro vm st hsh hst
    exact ⟨hsh, fun c h => h, fun c h => h, hst, fun d hd => absurd hd (by simp),
      rfl, fun c h => Or.inl h⟩
  | cons d ds ih =>
    intro vm st hsh hst
    simp only [List.foldl_cons]
    rw [validateExpand_eq]
    cases hn : neighborOf grid current d with
    | none =>
      dsimp only
      obtain ⟨e1, e2, e3, e4, e5, e6, e7⟩ := ih vm st hsh hst
      refine ⟨e1, e2, e3, e4, ?_, e6, e7⟩
      intro d' hd' n hnb hw
      rcases List.mem_cons.mp hd' with h | h
      · subst h
        rw [hn] at hnb
        cases hnb
      · exact e5 d' h n hnb hw
    | some n =>
      dsimp only
      by_cases hc : wallAt grid n = false ∧ visitedMAt vm n = false
      · rw [if_pos hc]
        have hbn := neighborOf_some_lt hn
        have hb := vm_bounds hsh hrect hbn.1 hbn.2
        have hsh1 : vmShape (setVisitedM vm n) = gridShape grid := by
          rw [vmShape_setVisitedM, hsh]
        have hst1 : ∀ c ∈ n :: st, visitedMAt (setVisitedM vm n) c = true := by
          intro c hcm
          rcases List.mem_cons.mp hcm with h | h
          · subst h
            exact visitedMAt_set_self vm c hb.1 hb.2
          · exact visitedMAt_set_mono vm n c (hst c h)
        obtain ⟨e1, e2, e3, e4, e5, e6, e7⟩ := ih (setVisitedM vm n) (n :: st) hsh1 hst1
        obtain ⟨row, hrow, hcell⟩ := visitedMAt_cell_false hsh hrect hbn.1 hbn.2 hc.2
        have hcnt := countFalse_set vm n row hrow hcell
        refine ⟨e1, ?_, ?_, e4, ?_, ?_, ?_⟩
        · intro c h
          exact e2 c (visitedMAt_set_mono vm n c h)
        · intro c h
          exact e3 c (List.mem_cons_of_mem n h)
        · intro d' hd' m hnb hw
          rcases List.mem_cons.mp hd' with h | h
          · subst h
            rw [hn] at hnb
            cases hnb
            exact e2 _ (visitedMAt_set_self vm _ hb.1 hb.2)
          · exact e5 d' h m hnb hw
        · rw [e6]
          simp only [List.length_cons]
          omega
        · intro c h
          rcases e7 c h with h2 | h2
          · rcases visitedMAt_set_origin vm n c h2 with h3 | h3
            · subst h3
              exact Or.inr (e3 c (List.mem_cons_self c st))
            · exact Or.inl h3
          · exact Or.inr h2
      · rw [if_neg hc]
        obtain ⟨e1, e2, e3, e4, e5, e6, e7⟩ := ih vm st hsh hst
        refine ⟨e1, e2, e3, e4, ?_, e6, e7⟩
        intro d' hd' m hnb hw
        rcases List.mem_cons.mp hd' with h | h
        · subst h
          rw [hn] at hnb
          cases hnb
          have hv : visitedMAt vm n = true := by
            rcases Bool.eq_false_or_eq_true (visitedMAt vm n) with hh | hh
            · exact hh
            · exact absurd ⟨hw, hh⟩ hc
          exact e2 n hv
        · exact e5 d' h m hnb hw

theorem validateExpand_fold_stack (grid : Grid) (current : Coord) :
    ∀ (ds : List (Int × Int)) (p : List (List Bool) × List Coord),
      ∀ c ∈ (ds.foldl (validateExpand grid current) p).2,
        c ∈ p.2 ∨ ∃ d ∈ ds, neighborOf grid current d = some c ∧ wallAt grid c = false := by
  intro ds
  induction ds with
  | nil =>
    intro p c hc
    exact Or.inl hc
  | cons d ds ih =>
    intro p c hc
    simp only [List.foldl_cons] at hc
    rw [validateExpand_eq] at hc
    cases hn : neighborOf grid current d with
    | none =>
      rw [hn] at hc
      dsimp only at hc
      rcases ih p c hc with h | ⟨d', hd', h1, h2⟩
      · exact Or.inl h
      · exact Or.inr ⟨d', List.mem_cons_of_mem d hd', h1, h2⟩
    | some n =>
      rw [hn] at hc
      dsimp only at hc
      by_cases hcond : wallAt grid n = false ∧ visitedMAt p.1 n = false
      · rw [if_pos hcond] at hc
        rcases ih _ c hc with h | ⟨d', hd', h1, h2⟩
        · rcases List.mem_cons.mp h with h3 | h3
          · subst h3
            exact Or.inr ⟨d, List.mem_cons_self d ds, hn, hcond.1⟩
          · exact Or.inl h3
        · exact Or.inr ⟨d', List.mem_cons_of_mem d hd', h1, h2⟩
      · rw [if_neg hcond] at hc
        rcases ih p c hc with h | ⟨d', hd', h1, h2⟩
        · exact Or.inl h
        · exact Or.inr ⟨d', List.mem_cons_of_mem d hd', h1, h2⟩

theorem validateLoop_sound (grid : Grid) (s e : Coord) :
    ∀ (fuel : Nat) (vm : List (List Bool)) (stack : List Coord),
      (∀ c ∈ stack, Reachable grid s c) →
      validateLoop grid e fuel vm stack = true →
      Reachable grid s e := by
  intro fuel
  induction fuel with
  | zero =>
    intro vm stack _ h
    simp [validateLoop] at h
  | succ n ih =>
    intro vm stack hr h
    cases stack with
    | nil => simp [validateLoop] at h
    | cons current rest =>
      simp only [validateLoop] at h
      by_cases hc : current = e
      · rw [← hc]
        exact hr current (List.mem_cons_self current rest)
      · rw [if_neg hc] at h
        refine ih _ _ ?_ h
        intro c hcm
        rcases validateExpand_fold_stack grid current _ (vm, rest) c hcm with
          h1 | ⟨d, hd, h1, h2⟩
        · exact hr c (List.mem_cons_of_mem current h1)
        · have hnb : c ∈ getNeighbors current grid := by
            rw [getNeighbors_eq_filterMap]
            exact List.mem_filterMap.mpr ⟨d, hd, h1⟩
          exact Relation.ReflTransGen.tail
            (hr current (List.mem_cons_self current rest)) ⟨hnb, h2⟩

theorem reach_closed (grid : Grid) (vis : Coord → Bool) {s e : Coord}
    (hclo : ∀ c, vis c = true → ∀ n, stepRel grid c n → vis n = true)
    (hs : vis s = true) (h : Reachable grid s e) : vis e = true := by
  induction h with
  | refl => exact hs
  | tail _ h2 ih => exact hclo _ ih _ h2

theorem validateLoop_complete (grid : Grid) (hrect : rectangular grid) (s e : Coord) :
    ∀ (fuel : Nat) (vm : List (List Bool)) (stack : List Coord),
      vmShape vm = gridShape grid →
      (∀ c ∈ stack, visitedMAt vm c = true) →
      (∀ c, visitedMAt vm c = true → c ∈ stack ∨
        (∀ n, stepRel grid c n → visitedMAt vm n = true)) →
      visitedMAt vm s = true →
      (visitedMAt vm e = true → e ∈ stack) →
      countFalse vm + stack.length ≤ fuel →
      Reachable grid s e →
      validateLoop grid e fuel vm stack = true := by
  intro fuel
  induction fuel with
  | zero =>
    intro vm stack _ _ hclo hs he hcnt hre
    have hstack : stack = [] := by
      cases stack with
      | nil => rfl
      | cons a l => simp at hcnt
    subst hstack
    have hvis : visitedMAt vm e = true := by
      refine reach_closed grid (fun c => visitedMAt vm c) ?_ hs hre
      intro c hc n hsn
      rcases hclo c hc with h | h
      · cases h
      · exact h n hsn
    cases he hvis
  | succ fu ih =>
    intro vm stack hsh hst hclo hs he hcnt hre
    cases stack with
    | nil =>
      have hvis : visitedMAt vm e = true := by
        refine reach_closed grid (fun c => visitedMAt vm c) ?_ hs hre
        intro c hc n hsn
        rcases hclo c hc with h | h
        · cases h
        · exact h n hsn
      cases he hvis
    | cons current rest =>
      simp only [validateLoop]
      by_cases hc : current = e
      · rw [if_pos hc]
      · rw [if_neg hc]
        obtain ⟨e1, e2, e3, e4, e5, e6, e7⟩ := validateExpand_fold
          grid hrect current [(-1, 0), (1, 0), (0, -1), (0, 1)] vm rest
          hsh (fun c hcm => hst c (List.mem_cons_of_mem current hcm))
        refine ih _ _ e1 e4 ?_ (e2 s hs) ?_ ?_ hre
        · intro c hvc
          rcases e7 c hvc with hold | hnew
          · rcases hclo c hold with hmem | hcl
            · rcases List.mem_cons.mp hmem with h1 | h1
              · subst h1
                right
                intro n hsn
                obtain ⟨hnb, hw⟩ := hsn
                rw [getNeighbors_eq_filterMap] at hnb
                obtain ⟨d, hd, hnd⟩ := List.mem_filterMap.mp hnb
                exact e5 d hd n hnd hw
              · exact Or.inl (e3 c h1)
            · right
              intro n hsn
              exact e2 n (hcl n hsn)
          · exact Or.inl hnew
        · intro hve
          rcases e7 e hve with hold | hnew
          · rcases List.mem_cons.mp (he hold) with h1 | h1
            · exact absurd h1.symm hc
            · exact e3 e h1
          · exact hnew
        · rw [e6]
          simp only [List.length_cons] at hcnt
          omega

theorem vmShape_allFalse (grid : Grid) :
    vmShape (grid.map fun row => row.map fun _ => false) = gridShape grid := by
  simp [vmShape, gridShape]

theorem visitedMAt_allFalse (grid : Grid) (c : Coord) :
    visitedMAt (grid.map fun row => row.map fun _ => false) c = false := by
  unfold visitedMAt
  rw [List.getElem?_map]
  cases hr : grid[c.1]? with
  | none => rfl
  | some row =>
    show ((row.map fun _ => false)[c.2]?).getD false = false
    rw [List.getElem?_map]
    cases row[c.2]? <;> rfl

theorem filter_false_allFalse (row : List NodeType) :
    ((row.map fun _ => false).filter fun b => b = false).length = row.length := by
  induction row with
  | nil => rfl
  | cons a l ih => simp [List.filter_cons]

theorem countFalse_allFalse (grid : Grid) (hrect : rectangular grid) :
    countFalse (grid.map fun row => row.map fun _ => false) = totalCells grid := by
  unfold countFalse totalCells
  rw [List.map_map]
  have h : ∀ (l : List (List NodeType)), (∀ r ∈ l, r.length = gridCols grid) →
      (l.map ((fun r => (List.filter (fun b => b = false) r).length) ∘
        (fun row => row.map fun _ => false))).sum = l.length * gridCols grid := by
    intro l
    induction l with
    | nil => intro _; simp
    | cons a t ih =>
      intro hl
      simp only [List.map_cons, List.sum_cons, List.length_cons, Function.comp]
      rw [filter_false_allFalse, ih (fun r hr => hl r (List.mem_cons_of_mem a hr)),
        hl a (List.mem_cons_self a t)]
      ring
  exact h grid hrect

theorem validatePath_sound (grid : Grid) (s e : Coord)
    (h : validatePath grid s e = true) : Reachable grid s e := by
  unfold validatePath at h
  refine validateLoop_sound grid s e _ _ _ ?_ h
  intro c hc
  rcases List.mem_singleton.mp hc with rfl
  exact Relation.ReflTransGen.refl

theorem validatePath_complete (grid : Grid) (hrect : rectangular grid) (s e : Coord)
    (hs1 : s.1 < grid.length) (hs2 : s.2 < gridCols grid) (hne : e ≠ s)
    (hre : Reachable grid s e) : validatePath grid s e = true := by
  unfold validatePath
  have hsh0 := vmShape_allFalse grid
  have hb := vm_bounds hsh0 hrect hs1 hs2
  have hsmark := visitedMAt_set_self (grid.map fun row => row.map fun _ => false) s hb.1 hb.2
  obtain ⟨row, hrow, hcell⟩ := visitedMAt_cell_false hsh0 hrect hs1 hs2 (visitedMAt_allFalse grid s)
  have hcnt := countFalse_set (grid.map fun row => row.map fun _ => false) s row hrow hcell
  refine validateLoop_complete grid hrect s e _ _ _ ?_ ?_ ?_ hsmark ?_ ?_ hre
  · rw [vmShape_setVisitedM]
    exact hsh0
  · intro c hc
    rcases List.mem_singleton.mp hc with rfl
    exact hsmark
  · intro c hc
    rcases visitedMAt_set_origin _ s c hc with rfl | hold
    · exact Or.inl (List.mem_singleton.mpr rfl)
    · rw [visitedMAt_allFalse] at hold
      cases hold
  · intro hc
    rcases visitedMAt_set_origin _ s e hc with rfl | hold
    · exact absurd rfl hne
    · rw [visitedMAt_allFalse] at hold
      cases hold
  · rw [countFalse_allFalse grid hrect] at hcnt
    simp only [List.length_singleton]
    omega

theorem filter_unvis_modify {f : NodeType → NodeType} (hf : ∀ nd, (f nd).isVisited = true) :
    ∀ (row : List NodeType) (j : Nat) (nd : NodeType), row[j]? = some nd →
      nd.isVisited = false →
      ((List.modify f j row).filter fun x => x.isVisited = false).length + 1 =
        (row.filter fun x => x.isVisited = false).length := by
  intro row
  induction row with
  | nil =>
    intro j nd h _
    simp at h
  | cons a rest ih =>
    intro j nd h hu
    cases j with
    | zero =>
      rw [list_modify_cons_zero]
      simp only [List.getElem?_cons_zero, Option.some_inj] at h
      subst h
      rw [List.filter_cons, List.filter_cons]
      simp [hf, hu]
    | succ j =>
      rw [list_modify_cons_succ]
      simp only [List.getElem?_cons_succ] at h
      have := ih j nd h hu
      rw [List.filter_cons, List.filter_cons]
      split
      · simp only [List.length_cons]
        omega
      · exact this

theorem countUnvisited_modify_aux {f : NodeType → NodeType}
    (hf : ∀ nd, (f nd).isVisited = true) :
    ∀ (g : Grid) (i j : Nat) (row : List NodeType) (nd : NodeType),
      g[i]? = some row → row[j]? = some nd → nd.isVisited = false →
      countUnvisited (List.modify (fun r => List.modify f j r) i g) + 1 =
        countUnvisited g := by
  intro g
  induction g with
  | nil =>
    intro i j row nd h _ _
    simp at h
  | cons r0 rest ih =>
    intro i j row nd hrow hcell hu
    cases i with
    | zero =>
      rw [list_modify_cons_zero]
      simp only [List.getElem?_cons_zero, Option.some_inj] at hrow
      subst hrow
      unfold countUnvisited
      simp only [List.map_cons, List.sum_cons]
      have := filter_unvis_modify hf r0 j nd hcell hu
      omega
    | succ i =>
      rw [list_modify_cons_succ]
      simp only [List.getElem?_cons_succ] at hrow
      have := ih i j row nd hrow hcell hu
      unfold countUnvisited at this ⊢
      simp only [List.map_cons, List.sum_cons]
      omega

theorem visitedAt_cell_false {g : Grid} (hrect : rectangular g) {c : Coord}
    (h1 : c.1 < g.length) (h2 : c.2 < gridCols g) (hf : visitedAt g c = false) :
    ∃ row nd, g[c.1]? = some row ∧ row[c.2]? = some nd ∧ nd.isVisited = false := by
  have hin := inBoundsAt_of_lt hrect h1 h2
  unfold inBoundsAt nodeAt? at hin
  cases hr : g[c.1]? with
  | none => rw [hr] at hin; simp at hin
  | some row =>
    rw [hr] at hin
    dsimp only at hin
    cases hc : row[c.2]? with
    | none => rw [hc] at hin; simp at hin
    | some nd =>
      refine ⟨row, nd, rfl, hc, ?_⟩
      unfold visitedAt nodeAt? at hf
      rw [hr] at hf
      dsimp only at hf
      rw [hc] at hf
      simpa using hf

theorem countUnvisited_modifyNode {f : NodeType → NodeType}
    (hf : ∀ nd, (f nd).isVisited = true) {g : Grid} (hrect : rectangular g) {c : Coord}
    (h1 : c.1 < g.length) (h2 : c.2 < gridCols g) (hv : visitedAt g c = false) :
    countUnvisited (modifyNode g c f) + 1 = countUnvisited g := by
  obtain ⟨row, nd, hrow, hcell, hu⟩ := visitedAt_cell_false hrect h1 h2 hv
  exact countUnvisited_modify_aux hf g c.1 c.2 row nd hrow hcell hu

theorem visitedAt_modifyNode_origin (g : Grid) (c c' : Coord) (f : NodeType → NodeType)
    (h : visitedAt (modifyNode g c f) c' = true) : c' = c ∨ visitedAt g c' = true := by
  by_cases hc : c' = c
  · exact Or.inl hc
  · right
    rw [← visitedAt_modifyNode_ne g c c' f hc]
    exact h

theorem visitedAt_mark_mono {g : Grid} {c : Coord} {f : NodeType → NodeType}
    (hf : ∀ nd, (f nd).isVisited = true) (hrect : rectangular g)
    (h1 : c.1 < g.length) (h2 : c.2 < gridCols g) (c' : Coord)
    (h : visitedAt g c' = true) : visitedAt (modifyNode g c f) c' = true := by
  by_cases hc : c' = c
  · subst hc
    exact visitedAt_mark_self g c' (inBoundsAt_of_lt hrect h1 h2) f hf
  · rw [visitedAt_modifyNode_ne g c c' f hc]
    exact h

theorem reconstructPath_succ_ne_nil (grid : Grid) (n : Nat) (c : Coord) :
    reconstructPath grid (n + 1) c ≠ [] := by
  simp only [reconstructPath]
  cases prevAt grid c with
  | none => simp
  | some p => simp

theorem bfsDiscover_eq (current : Coord) (st : Grid × List Coord) (n : Coord) :
    bfsDiscover current st n =
      if wallAt st.1 n = false ∧ visitedAt st.1 n = false then
        (modifyNode st.1 n fun nd => { nd with isVisited := true, previousNode := some current },
          st.2 ++ [n])
      else st := rfl

theorem bfsDiscover_fold_complete (current : Coord) :
    ∀ (ns : List Coord) (g : Grid) (q : List Coord),
      rectangular g →
      (∀ n ∈ ns, n.1 < g.length ∧ n.2 < gridCols g) →
      (∀ c ∈ q, visitedAt g c = true) →
      gridShape (ns.foldl (bfsDiscover current) (g, q)).1 = gridShape g ∧
      (∀ c, wallAt (ns.foldl (bfsDiscover current) (g, q)).1 c = wallAt g c) ∧
      (∀ c, visitedAt g c = true →
        visitedAt (ns.foldl (bfsDiscover current) (g, q)).1 c = true) ∧
      (∀ c ∈ q, c ∈ (ns.foldl (bfsDiscover current) (g, q)).2) ∧
      (∀ c ∈ (ns.foldl (bfsDiscover current) (g, q)).2,
        visitedAt (ns.foldl (bfsDiscover current) (g, q)).1 c = true) ∧
      (∀ n ∈ ns, wallAt g n = false →
        visitedAt (ns.foldl (bfsDiscover current) (g, q)).1 n = true) ∧
      (countUnvisited (ns.foldl (bfsDiscover current) (g, q)).1 +
        (ns.foldl (bfsDiscover current) (g, q)).2.length = countUnvisited g + q.length) ∧
      (∀ c, visitedAt (ns.foldl (bfsDiscover current) (g, q)).1 c = true →
        visitedAt g c = true ∨ c ∈ (ns.foldl (bfsDiscover current) (g, q)).2) := by
  intro ns
  induction ns with
  | nil =>
    intro g q _ _ hq
    exact ⟨rfl, fun c => rfl, fun c h => h, fun c h => h, hq,
      fun n hn => absurd hn (by simp), rfl, fun c h => Or.inl h⟩
  | cons n ns ih =>
    intro g q hrect hbd hq
    simp only [List.foldl_cons]
    rw [bfsDiscover_eq]
    by_cases hcond : wallAt g n = false ∧ visitedAt g n = false
    · rw [if_pos hcond]
      have hbn := hbd n (List.mem_cons_self n ns)
      have hin := inBoundsAt_of_lt hrect hbn.1 hbn.2
      have hfm : ∀ nd : NodeType,
          ({ nd with isVisited := true, previousNode := some current } : NodeType).isVisited
            = true := fun nd => rfl
      have hsh1 : gridShape (modifyNode g n fun nd =>
          { nd with isVisited := true, previousNode := some current }) = gridShape g :=
        gridShape_modifyNode g n _
      have hrect1 : rectangular (modifyNode g n fun nd =>
          { nd with isVisited := true, previousNode := some current }) :=
        rectangular_congr_shape hsh1 hrect
      have hbd1 := bounds_transfer hsh1 (fun m hm => hbd m (List.mem_cons_of_mem n hm))
      have hmono1 := visitedAt_mark_mono (f := fun nd =>
          { nd with isVisited := true, previousNode := some current })
        hfm hrect hbn.1 hbn.2
      have hnmark : visitedAt (modifyNode g n fun nd =>
          { nd with isVisited := true, previousNode := some current }) n = true :=
        visitedAt_mark_self g n hin _ hfm
      have hq1 : ∀ c ∈ q ++ [n], visitedAt (modifyNode g n fun nd =>
          { nd with isVisited := true, previousNode := some current }) c = true := by
        intro c hc
        rcases List.mem_append.mp hc with h | h
        · exact hmono1 c (hq c h)
        · rcases List.mem_singleton.mp h with rfl
          exact hnmark
      obtain ⟨e1, e2, e3, e4, e5, e6, e7, e8⟩ := ih _ _ hrect1 hbd1 hq1
      have hwall1 : ∀ c, wallAt (modifyNode g n fun nd =>
          { nd with isVisited := true, previousNode := some current }) c = wallAt g c :=
        fun c => wallAt_modifyNode_preserve g n c _ (fun nd => rfl)
      have hcnt1 := countUnvisited_modifyNode (f := fun nd =>
          { nd with isVisited := true, previousNode := some current })
        hfm hrect hbn.1 hbn.2 hcond.2
      refine ⟨e1.trans hsh1, ?_, ?_, ?_, e5, ?_, ?_, ?_⟩
      · intro c
        exact (e2 c).trans (hwall1 c)
      · intro c h
        exact e3 c (hmono1 c h)
      · intro c h
        exact e4 c (List.mem_append_left _ h)
      · intro m hm hw
        rcases List.mem_cons.mp hm with h | h
        · subst h
          exact e3 m hnmark
        · exact e6 m h ((hwall1 m).trans hw)
      · rw [e7]
        simp only [List.length_append, List.length_singleton]
        omega
      · intro c h
        rcases e8 c h with hold | hnew
        · rcases visitedAt_modifyNode_origin g n c _ hold with h2 | h2
          · subst h2
            exact Or.inr (e4 c (List.mem_append_right _ (List.mem_singleton.mpr rfl)))
          · exact Or.inl h2
        · exact Or.inr hnew
    · rw [if_neg hcond]
      obtain ⟨e1, e2, e3, e4, e5, e6, e7, e8⟩ := ih g q hrect
        (fun m hm => hbd m (List.mem_cons_of_mem n hm)) hq
      refine ⟨e1, e2, e3, e4, e5, ?_, e7, e8⟩
      intro m hm hw
      rcases List.mem_cons.mp hm with h | h
      · subst h
        have hv : visitedAt g m = true := by
          rcases Bool.eq_false_or_eq_true (visitedAt g m) with hh | hh
          · exact hh
          · exact absurd ⟨hw, hh⟩ hcond
        exact e3 m hv
      · exact e6 m h hw

theorem bfsLoop_complete (grid0 : Grid) (hrect0 : rectangular grid0) (s e : Coord) :
    ∀ (fuel : Nat) (g : Grid) (queue visited : List Coord),
      gridShape g = gridShape grid0 →
      (∀ c, wallAt g c = wallAt grid0 c) →
      (∀ c ∈ queue, visitedAt g c = true) →
      (∀ c, visitedAt g c = true → c ∈ queue ∨
        (∀ n, stepRel grid0 c n → visitedAt g n = true)) →
      visitedAt g s = true →
      (visitedAt g e = true → e ∈ queue) →
      countUnvisited g + queue.length ≤ fuel →
      Reachable grid0 s e →
      (bfsLoop e fuel g queue visited).path ≠ [] := by
  intro fuel
  induction fuel with
  | zero =>
    intro g queue visited _ _ _ hclo hs he hcnt hre
    have hqueue : queue = [] := by
      cases queue with
      | nil => rfl
      | cons a l => simp at hcnt
    subst hqueue
    have hvis : visitedAt g e = true := by
      refine reach_closed grid0 (fun c => visitedAt g c) ?_ hs hre
      intro c hc n hsn
      rcases hclo c hc with h | h
      · cases h
      · exact h n hsn
    cases he hvis
  | succ fu ih =>
    intro g queue visited hsh hw hq hclo hs he hcnt hre
    cases queue with
    | nil =>
      have hvis : visitedAt g e = true := by
        refine reach_closed grid0 (fun c => visitedAt g c) ?_ hs hre
        intro c hc n hsn
        rcases hclo c hc with h | h
        · cases h
        · exact h n hsn
      cases he hvis
    | cons current rest =>
      simp only [bfsLoop]
      by_cases hc : current = e
      · rw [if_pos hc]
        exact reconstructPath_succ_ne_nil g (totalCells g) e
      · rw [if_neg hc]
        have hrect : rectangular g := rectangular_congr_shape hsh hrect0
        obtain ⟨e1, e2, e3, e4, e5, e6, e7, e8⟩ := bfsDiscover_fold_complete current
          (getNeighbors current g) g rest hrect
          (fun n hn => mem_getNeighbors_lt hn)
          (fun c hcm => hq c (List.mem_cons_of_mem current hcm))
        refine ih _ _ _ (e1.trans hsh) (fun c => (e2 c).trans (hw c)) e5 ?_
          (e3 s hs) ?_ ?_ hre
        · intro c hvc
          rcases e8 c hvc with hold | hnew
          · rcases hclo c hold with hmem | hcl
            · rcases List.mem_cons.mp hmem with h1 | h1
              · subst h1
                right
                intro n hsn
                obtain ⟨hnb, hwn⟩ := hsn
                rw [← getNeighbors_congr_shape c g grid0 hsh] at hnb
                exact e6 n hnb ((hw n).symm ▸ hwn)
              · exact Or.inl (e4 c h1)
            · right
              intro n hsn
              exact e3 n (hcl n hsn)
          · exact Or.inl hnew
        · intro hve
          rcases e8 e hve with hold | hnew
          · rcases List.mem_cons.mp (he hold) with h1 | h1
            · exact absurd h1.symm hc
            · exact e4 e h1
          · exact hnew
        · rw [e7]
          simp only [List.length_cons] at hcnt
          omega

theorem filter_unvis_map (f : NodeType → NodeType) (hf : ∀ nd, (f nd).isVisited = false)
    (row : List NodeType) :
    ((row.map f).filter fun x => x.isVisited = false).length = row.length := by
  induction row with
  | nil => rfl
  | cons a l ih =>
    rw [List.map_cons, List.filter_cons, if_pos (by simp [hf])]
    simp only [List.length_cons, ih]

theorem countUnvisited_gridMap (g : Grid) (hrect : rectangular g)
    (f : NodeType → NodeType) (hf : ∀ nd, (f nd).isVisited = false) :
    countUnvisited (g.map fun row => row.map f) = totalCells g := by
  unfold countUnvisited totalCells
  rw [List.map_map]
  have h : ∀ (l : List (List NodeType)), (∀ r ∈ l, r.length = gridCols g) →
      (l.map ((fun r => (List.filter (fun nd => nd.isVisited = false) r).length) ∘
        (fun row => row.map f))).sum = l.length * gridCols g := by
    intro l
    induction l with
    | nil => intro _; simp
    | cons a t ih =>
      intro hl
      simp only [List.map_cons, List.sum_cons, List.length_cons, Function.comp]
      rw [filter_unvis_map f hf, ih (fun r hr => hl r (List.mem_cons_of_mem a hr)),
        hl a (List.mem_cons_self a t)]
      ring
  exact h g hrect

theorem visitedAt_resetGrid (g : Grid) (c : Coord) :
    visitedAt (resetGrid g) c = false := by
  unfold visitedAt resetGrid nodeAt?
  rw [List.getElem?_map]
  cases g[c.1]? with
  | none => rfl
  | some row =>
    show (((row.map _)[c.2]?).map NodeType.isVisited).getD false = false
    rw [List.getElem?_map]
    cases row[c.2]? with
    | none => rfl
    | some nd => rfl

theorem stepRel_resetGrid (g : Grid) (a b : Coord) :
    stepRel (resetGrid g) a b ↔ stepRel g a b := by
  unfold stepRel resetGrid
  rw [getNeighbors_congr_shape a _ g (gridShape_map_map g _),
    wallAt_gridMap g (fun node =>
      { node with
        isVisited := false
        isPath := false
        distance := ⊤
        previousNode := none
        gScore := ⊤
        fScore := ⊤ }) (fun nd => rfl) b]

theorem Reachable_resetGrid (g : Grid) (s e : Coord) :
    Reachable (resetGrid g) s e ↔ Reachable g s e := by
  constructor
  · intro h
    exact Relation.ReflTransGen.mono (fun a b hab => (stepRel_resetGrid g a b).mp hab) h
  · intro h
    exact Relation.ReflTransGen.mono (fun a b hab => (stepRel_resetGrid g a b).mpr hab) h

theorem bfs_complete (g : Grid) (hrect : rectangular g) (s e : Coord)
    (hs1 : s.1 < g.length) (hs2 : s.2 < gridCols g)
    (hvall : ∀ c, visitedAt g c = false)
    (hcnt : countUnvisited g = totalCells g)
    (hne : e ≠ s) (hre : Reachable g s e) :
    (bfs g s e).path ≠ [] := by
  unfold bfs
  have hfm : ∀ nd : NodeType,
      ({ nd with isVisited := true } : NodeType).isVisited = true := fun nd => rfl
  have hsh1 : gridShape (modifyNode g s fun nd => { nd with isVisited := true })
      = gridShape g := gridShape_modifyNode g s _
  have hsmark : visitedAt (modifyNode g s fun nd => { nd with isVisited := true }) s = true :=
    visitedAt_mark_self g s (inBoundsAt_of_lt hrect hs1 hs2) _ hfm
  have hcnt1 := countUnvisited_modifyNode (f := fun nd => { nd with isVisited := true })
    hfm hrect hs1 hs2 (hvall s)
  refine bfsLoop_complete g hrect s e _ _ _ _ hsh1
    (fun c => wallAt_modifyNode_preserve g s c _ (fun nd => rfl)) ?_ ?_ hsmark ?_ ?_ hre
  · intro c hcm
    rcases List.mem_singleton.mp hcm with rfl
    exact hsmark
  · intro c hcv
    rcases visitedAt_modifyNode_origin g s c _ hcv with rfl | hold
    · exact Or.inl (List.mem_singleton.mpr rfl)
    · rw [hvall] at hold
      cases hold
  · intro hev
    rcases visitedAt_modifyNode_origin g s e _ hev with rfl | hold
    · exact absurd rfl hne
    · rw [hvall] at hold
      cases hold
  · simp only [List.length_singleton]
    omega

theorem gridShape_resetGrid (g : Grid) : gridShape (resetGrid g) = gridShape g := by
  unfold resetGrid
  exact gridShape_map_map g _

theorem wallAt_resetGrid (g : Grid) (c : Coord) : wallAt (resetGrid g) c = wallAt g c := by
  unfold resetGrid
  exact wallAt_gridMap g (fun node =>
    { node with
      isVisited := false
      isPath := false
      distance := ⊤
      previousNode := none
      gScore := ⊤
      fScore := ⊤ }) (fun nd => rfl) c

theorem countUnvisited_resetGrid (g : Grid) (hrect : rectangular g) :
    countUnvisited (resetGrid g) = totalCells g := by
  unfold resetGrid
  exact countUnvisited_gridMap g hrect _ (fun nd => rfl)

/-- C6: for every rectangular grid with distinct in-bounds start and goal
where the start is not a wall, `validatePath grid start goal` returns `true`
exactly when `bfs`, run on the `resetGrid`-cleared copy of the grid, returns
a non-empty path. -/
theorem validatePath_iff_bfs (grid : Grid) (s e : Coord)
    (hrect : rectangular grid)
    (hs1 : s.1 < grid.length) (hs2 : s.2 < gridCols grid)
    (he1 : e.1 < grid.length) (he2 : e.2 < gridCols grid)
    (hsw : wallAt grid s = false) (hne : s ≠ e) :
    (validatePath grid s e = true ↔ (bfs (resetGrid grid) s e).path ≠ []) := by
  have hshr := gridShape_resetGrid grid
  have hlenr : (resetGrid grid).length = grid.length := by
    rw [length_eq_shape, hshr, ← length_eq_shape]
  have hcolsr : gridCols (resetGrid grid) = gridCols grid := by
    rw [gridCols_eq_shape, hshr, ← gridCols_eq_shape]
  have hrectr : rectangular (resetGrid grid) := rectangular_congr_shape hshr hrect
  constructor
  · intro h
    have hre : Reachable grid s e := validatePath_sound grid s e h
    refine bfs_complete (resetGrid grid) hrectr s e (by omega) (by omega)
      (visitedAt_resetGrid grid) ?_ (Ne.symm hne) ((Reachable_resetGrid grid s e).mpr hre)
    rw [countUnvisited_resetGrid grid hrect]
    unfold totalCells
    rw [hlenr, hcolsr]
  · intro h
    unfold bfs at h
    have hre : Reachable grid s e := by
      refine bfsLoop_reach grid s e _ _ _ _ ?_ ?_ ?_ h
      · rw [gridShape_modifyNode, hshr]
      · intro c
        rw [wallAt_modifyNode_preserve (resetGrid grid) s c
          (fun nd => { nd with isVisited := true }) (fun nd => rfl), wallAt_resetGrid]
      · intro c hc
        rcases List.mem_singleton.mp hc with rfl
        exact Relation.ReflTransGen.refl
    exact validatePath_complete grid hrect s e hs1 hs2 (Ne.symm hne) hre

theorem validatePath_iff_bfs_witness :
    rectangular (createGrid 2 2) ∧
      (validatePath (createGrid 2 2) (0, 0) (1, 1) = true ↔
        (bfs (resetGrid (createGrid 2 2)) (0, 0) (1, 1)).path ≠ []) :=
  ⟨by unfold rectangular; decide,
    validatePath_iff_bfs (createGrid 2 2) (0, 0) (1, 1)
      (by unfold rectangular; decide) (by decide) (by decide) (by decide) (by decide)
      (by decide) (by decide)⟩

theorem manhattanDist_self (a : Coord) : manhattanDist a a = 0 := by
  unfold manhattanDist
  omega

theorem manhattanDist_eq_zero {a b : Coord} (h : manhattanDist a b = 0) : a = b := by
  unfold manhattanDist at h
  rcases a with ⟨a1, a2⟩
  rcases b with ⟨b1, b2⟩
  simp only [Prod.mk.injEq]
  omega

theorem manhattanDist_comm (a b : Coord) : manhattanDist a b = manhattanDist b a := by
  unfold manhattanDist
  omega

theorem manhattanDist_triangle (a b c : Coord) :
    manhattanDist a c ≤ manhattanDist a b + manhattanDist b c := by
  unfold manhattanDist
  omega

theorem mem_getNeighbors_iff {g : Grid} {c n : Coord} :
    n ∈ getNeighbors c g ↔
      (n.1 < g.length ∧ n.2 < gridCols g) ∧
        ((c.1 = n.1 + 1 ∧ c.2 = n.2) ∨ (n.1 = c.1 + 1 ∧ c.2 = n.2) ∨
          (c.2 = n.2 + 1 ∧ c.1 = n.1) ∨ (n.2 = c.2 + 1 ∧ c.1 = n.1)) := by
  rw [getNeighbors_eq_filterMap]
  simp only [List.mem_filterMap]
  constructor
  · rintro ⟨d, hd, hnd⟩
    unfold neighborOf at hnd
    dsimp only at hnd
    revert hnd
    split
    · rename_i hcond
      intro hnd
      obtain ⟨h1, h2, h3, h4⟩ := hcond
      cases hnd
      fin_cases hd <;> dsimp only <;> omega
    · intro hnd
      cases hnd
  · rintro ⟨⟨hb1, hb2⟩, hadj⟩
    rcases hadj with ⟨h1, h2⟩ | ⟨h1, h2⟩ | ⟨h1, h2⟩ | ⟨h1, h2⟩
    · refine ⟨(-1, 0), by simp, ?_⟩
      unfold neighborOf
      dsimp only
      rw [if_pos (by omega)]
      have e1 : ((c.1 : Int) + (-1)).toNat = n.1 := by omega
      have e2 : ((c.2 : Int) + 0).toNat = n.2 := by omega
      rw [e1, e2]
    · refine ⟨(1, 0), by simp, ?_⟩
      unfold neighborOf
      dsimp only
      rw [if_pos (by omega)]
      have e1 : ((c.1 : Int) + 1).toNat = n.1 := by omega
      have e2 : ((c.2 : Int) + 0).toNat = n.2 := by omega
      rw [e1, e2]
    · refine ⟨(0, -1), by simp, ?_⟩
      unfold neighborOf
      dsimp only
      rw [if_pos (by omega)]
      have e1 : ((c.1 : Int) + 0).toNat = n.1 := by omega
      have e2 : ((c.2 : Int) + (-1)).toNat = n.2 := by omega
      rw [e1, e2]
    · refine ⟨(0, 1), by simp, ?_⟩
      unfold neighborOf
      dsimp only
      rw [if_pos (by omega)]
      have e1 : ((c.1 : Int) + 0).toNat = n.1 := by omega
      have e2 : ((c.2 : Int) + 1).toNat = n.2 := by omega
      rw [e1, e2]

theorem manhattanDist_adj {g : Grid} {c n : Coord} (s : Coord)
    (h : n ∈ getNeighbors c g) :
    manhattanDist s n = manhattanDist s c + 1 ∨
      manhattanDist s c = manhattanDist s n + 1 := by
  have := (mem_getNeighbors_iff.mp h).2
  unfold manhattanDist
  omega

theorem getNeighbors_symm {g : Grid} {c n : Coord} (h : n ∈ getNeighbors c g)
    (hc1 : c.1 < g.length) (hc2 : c.2 < gridCols g) : c ∈ getNeighbors n g := by
  rw [mem_getNeighbors_iff] at h ⊢
  refine ⟨⟨hc1, hc2⟩, ?_⟩
  have := h.2
  omega

theorem exists_step_toward {g : Grid} {v z : Coord}
    (hv1 : v.1 < g.length) (hv2 : v.2 < gridCols g)
    (hz1 : z.1 < g.length) (hz2 : z.2 < gridCols g)
    (hne : manhattanDist v z ≠ 0) :
    ∃ w, w ∈ getNeighbors v g ∧ manhattanDist w z + 1 = manhattanDist v z := by
  by_cases h1 : v.1 < z.1
  · refine ⟨(v.1 + 1, v.2), mem_getNeighbors_iff.mpr ⟨⟨by omega, hv2⟩, ?_⟩, ?_⟩
    · right; left
      exact ⟨rfl, rfl⟩
    · unfold manhattanDist
      dsimp only
      omega
  · by_cases h2 : z.1 < v.1
    · refine ⟨(v.1 - 1, v.2), mem_getNeighbors_iff.mpr ⟨⟨by omega, hv2⟩, ?_⟩, ?_⟩
      · left
        exact ⟨by omega, rfl⟩
      · unfold manhattanDist
        dsimp only
        omega
    · by_cases h3 : v.2 < z.2
      · refine ⟨(v.1, v.2 + 1), mem_getNeighbors_iff.mpr ⟨⟨hv1, by omega⟩, ?_⟩, ?_⟩
        · right; right; right
          exact ⟨rfl, rfl⟩
        · unfold manhattanDist
          dsimp only
          omega
      · by_cases h4 : z.2 < v.2
        · refine ⟨(v.1, v.2 - 1), mem_getNeighbors_iff.mpr ⟨⟨hv1, by omega⟩, ?_⟩, ?_⟩
          · right; right; left
            exact ⟨by omega, rfl⟩
          · unfold manhattanDist
            dsimp only
            omega
        · exfalso
          apply hne
          unfold manhattanDist
          omega

theorem reachable_of_inBounds {g : Grid} {s : Coord}
    (hw : ∀ c, wallAt g c = false)
    (hs1 : s.1 < g.length) (hs2 : s.2 < gridCols g) :
    ∀ (k : Nat) (c : Coord), c.1 < g.length → c.2 < gridCols g →
      manhattanDist s c = k → Reachable g s c := by
  intro k
  induction k with
  | zero =>
    intro c _ _ hk
    obtain rfl := manhattanDist_eq_zero hk
    exact Relation.ReflTransGen.refl
  | succ k ih =>
    intro c hc1 hc2 hk
    obtain ⟨p, hp, hd⟩ := exists_step_toward hc1 hc2 hs1 hs2
      (by rw [manhattanDist_comm, hk]; omega)
    have hps : manhattanDist s p = k := by
      have hd2 : manhattanDist s p + 1 = manhattanDist s c := by
        rw [manhattanDist_comm s p, manhattanDist_comm s c]
        exact hd
      omega
    have hpb := mem_getNeighbors_lt hp
    have hre := ih p hpb.1 hpb.2 hps
    exact Relation.ReflTransGen.tail hre ⟨getNeighbors_symm hp hc1 hc2, hw c⟩

theorem insertSorted_pairwise {le : Coord → Coord → Bool}
    (htot : ∀ a b, le a b = true ∨ le b a = true)
    (htrans : ∀ a b c, le a b = true → le b c = true → le a c = true) :
    ∀ (acc : List Coord) (x : Coord), acc.Pairwise (fun a b => le a b = true) →
      (insertSorted le x acc).Pairwise (fun a b => le a b = true) := by
  intro acc
  induction acc with
  | nil =>
    intro x _
    simp [insertSorted]
  | cons y ys ih =>
    intro x hp
    rw [List.pairwise_cons] at hp
    unfold insertSorted
    by_cases hle : le y x = true
    · rw [if_pos hle]
      rw [List.pairwise_cons]
      constructor
      · intro z hz
        have hz2 : z ∈ x :: ys := (insertSorted_perm le x ys).mem_iff.mp hz
        rcases List.mem_cons.mp hz2 with rfl | h
        · exact hle
        · exact hp.1 z h
      · exact ih x hp.2
    · rw [if_neg hle]
      have hxy : le x y = true := by
        rcases htot x y with h | h
        · exact h
        · exact absurd h hle
      rw [List.pairwise_cons]
      constructor
      · intro z hz
        rcases List.mem_cons.mp hz with rfl | h
        · exact hxy
        · exact htrans x y z hxy (hp.1 z h)
      · rw [List.pairwise_cons]
        exact hp

theorem stableSortBy_pairwise {le : Coord → Coord → Bool}
    (htot : ∀ a b, le a b = true ∨ le b a = true)
    (htrans : ∀ a b c, le a b = true → le b c = true → le a c = true) (l : List Coord) :
    (stableSortBy le l).Pairwise (fun a b => le a b = true) := by
  unfold stableSortBy
  have h : ∀ (l acc : List Coord), acc.Pairwise (fun a b => le a b = true) →
      (l.foldl (fun a y => insertSorted le y a) acc).Pairwise
        (fun a b => le a b = true) := by
    intro l
    induction l with
    | nil =>
      intro acc h
      exact h
    | cons x xs ih =>
      intro acc h
      simp only [List.foldl_cons]
      exact ih _ (insertSorted_pairwise htot htrans acc x h)
  exact h l [] (by simp)

theorem stableSortBy_head_le {le : Coord → Coord → Bool}
    (htot : ∀ a b, le a b = true ∨ le b a = true)
    (htrans : ∀ a b c, le a b = true → le b c = true → le a c = true)
    {l : List Coord} {x : Coord} {xs : List Coord}
    (h : stableSortBy le l = x :: xs) : ∀ y ∈ l, le x y = true := by
  intro y hy
  have hperm := stableSortBy_perm le l
  rw [h] at hperm
  have hy2 : y ∈ x :: xs := hperm.symm.mem_iff.mp hy
  rcases List.mem_cons.mp hy2 with rfl | hmem
  · rcases htot y y with h2 | h2 <;> exact h2
  · have hp := stableSortBy_pairwise htot htrans l
    rw [h, List.pairwise_cons] at hp
    exact hp.1 y hmem

theorem reconstructPath_len {g : Grid} {s : Coord} {M : Coord → Prop}
    (h0 : prevAt g s = none)
    (hstep : ∀ c, M c → c ≠ s → ∃ p, prevAt g c = some p ∧ M p ∧
      manhattanDist s p + 1 = manhattanDist s c) :
    ∀ (k : Nat) (c : Coord), M c → manhattanDist s c ≤ k →
      (reconstructPath g (k + 1) c).length = manhattanDist s c + 1 := by
  intro k
  induction k with
  | zero =>
    intro c hm hk
    have h1 : manhattanDist s c = 0 := by omega
    obtain rfl := manhattanDist_eq_zero h1
    simp [reconstructPath, h0, manhattanDist_self]
  | succ k ih =>
    intro c hm hk
    by_cases hc : c = s
    · subst hc
      simp [reconstructPath, h0, manhattanDist_self]
    · obtain ⟨p, hp, hmp, hd⟩ := hstep c hm hc
      have hlen := ih p hmp (by omega)
      simp only [reconstructPath, hp]
      rw [List.length_append]
      have hshow : (match prevAt g p with
          | none => [p]
          | some p1 => reconstructPath g k p1 ++ [p]).length =
          (reconstructPath g (k + 1) p).length := rfl
      rw [hshow, hlen]
      simp only [List.length_singleton]
      omega

theorem prevAt_modifyNode_ne (g : Grid) (c c' : Coord) (f : NodeType → NodeType)
    (h : c' ≠ c) : prevAt (modifyNode g c f) c' = prevAt g c' := by
  unfold prevAt
  rw [nodeAt?_modifyNode_ne g c c' f h]

theorem prevAt_set_self (g : Grid) (c : Coord) (hin : inBoundsAt g c)
    (f : NodeType → NodeType) (p : Option Coord)
    (hf : ∀ nd, (f nd).previousNode = p) :
    prevAt (modifyNode g c f) c = p := by
  unfold prevAt
  rw [nodeAt?_modifyNode_self g c f]
  unfold inBoundsAt at hin
  cases hnd : nodeAt? g c with
  | none => rw [hnd] at hin; simp at hin
  | some nd => simp [hf]

theorem bfsDiscover_fold_opt (current : Coord) :
    ∀ (ns : List Coord) (g : Grid) (q : List Coord),
      rectangular g →
      (∀ n ∈ ns, n.1 < g.length ∧ n.2 < gridCols g) →
      ∃ new : List Coord,
        (ns.foldl (bfsDiscover current) (g, q)).2 = q ++ new ∧
        (∀ c ∈ new, c ∈ ns ∧ visitedAt g c = false ∧
          prevAt (ns.foldl (bfsDiscover current) (g, q)).1 c = some current ∧
          visitedAt (ns.foldl (bfsDiscover current) (g, q)).1 c = true) ∧
        (∀ c, visitedAt g c = true →
          prevAt (ns.foldl (bfsDiscover current) (g, q)).1 c = prevAt g c ∧
          visitedAt (ns.foldl (bfsDiscover current) (g, q)).1 c = true) ∧
        (∀ c, visitedAt (ns.foldl (bfsDiscover current) (g, q)).1 c = true →
          visitedAt g c = true ∨ c ∈ new) ∧
        (∀ n ∈ ns, wallAt g n = false →
          visitedAt (ns.foldl (bfsDiscover current) (g, q)).1 n = true) ∧
        gridShape (ns.foldl (bfsDiscover current) (g, q)).1 = gridShape g ∧
        (∀ c, wallAt (ns.foldl (bfsDiscover current) (g, q)).1 c = wallAt g c) ∧
        countUnvisited (ns.foldl (bfsDiscover current) (g, q)).1 + new.length =
          countUnvisited g := by
  intro ns
  induction ns with
  | nil =>
    intro g q _ _
    exact ⟨[], by simp, by simp, fun c h => ⟨rfl, h⟩, fun c h => Or.inl h,
      fun n hn => absurd hn (by simp), rfl, fun c => rfl, by simp⟩
  | cons n ns ih =>
    intro g q hrect hbd
    simp only [List.foldl_cons]
    rw [bfsDiscover_eq]
    by_cases hcond : wallAt g n = false ∧ visitedAt g n = false
    · rw [if_pos hcond]
      have hbn := hbd n (List.mem_cons_self n ns)
      have hin := inBoundsAt_of_lt hrect hbn.1 hbn.2
      have hfm : ∀ nd : NodeType,
          ({ nd with isVisited := true, previousNode := some current } : NodeType).isVisited
            = true := fun nd => rfl
      have hsh1 : gridShape (modifyNode g n fun nd =>
          { nd with isVisited := true, previousNode := some current }) = gridShape g :=
        gridShape_modifyNode g n _
      have hrect1 : rectangular (modifyNode g n fun nd =>
          { nd with isVisited := true, previousNode := some current }) :=
        rectangular_congr_shape hsh1 hrect
      have hbd1 := bounds_transfer hsh1 (fun m hm => hbd m (List.mem_cons_of_mem n hm))
      have hnmark : visitedAt (modifyNode g n fun nd =>
          { nd with isVisited := true, previousNode := some current }) n = true :=
        visitedAt_mark_self g n hin _ hfm
      have hnprev : prevAt (modifyNode g n fun nd =>
          { nd with isVisited := true, previousNode := some current }) n = some current :=
        prevAt_set_self g n hin _ (some current) (fun nd => rfl)
      obtain ⟨new1, e1, e2, e3, e4, e5, e6, e7, e8⟩ := ih _ (q ++ [n]) hrect1 hbd1
      have hcnt1 := countUnvisited_modifyNode (f := fun nd =>
          { nd with isVisited := true, previousNode := some current })
        hfm hrect hbn.1 hbn.2 hcond.2
      refine ⟨n :: new1, ?_, ?_, ?_, ?_, ?_, ?_, ?_, ?_⟩
      · rw [e1, List.append_assoc]
        rfl
      · intro c hc
        rcases List.mem_cons.mp hc with rfl | hmem
        · have h3 := e3 c hnmark
          exact ⟨List.mem_cons_self c ns, hcond.2, (h3.1).trans hnprev, h3.2⟩
        · obtain ⟨g1, g2, g3, g4⟩ := e2 c hmem
          refine ⟨List.mem_cons_of_mem n g1, ?_, g3, g4⟩
          by_cases hcn : c = n
          · subst hcn
            exact hcond.2
          · rw [← visitedAt_modifyNode_ne g n c (fun nd =>
              { nd with isVisited := true, previousNode := some current }) hcn]
            exact g2
      · intro c hcv
        have hcn : c ≠ n := by
          intro hcn
          subst hcn
          rw [hcv] at hcond
          exact absurd hcond.2 (by simp)
        have hv1 : visitedAt (modifyNode g n fun nd =>
            { nd with isVisited := true, previousNode := some current }) c = true := by
          rw [visitedAt_modifyNode_ne g n c _ hcn]
          exact hcv
        have h3 := e3 c hv1
        refine ⟨h3.1.trans ?_, h3.2⟩
        exact prevAt_modifyNode_ne g n c _ hcn
      · intro c hcv
        rcases e4 c hcv with hold | hnew
        · rcases visitedAt_modifyNode_origin g n c _ hold with rfl | h2
          · exact Or.inr (List.mem_cons_self c new1)
          · exact Or.inl h2
        · exact Or.inr (List.mem_cons_of_mem n hnew)
      · intro m hm hw
        rcases List.mem_cons.mp hm with rfl | h
        · exact (e3 m hnmark).2
        · refine e5 m h ?_
          rw [wallAt_modifyNode_preserve g n m (fun nd =>
            { nd with isVisited := true, previousNode := some current }) (fun nd => rfl)]
          exact hw
      · exact e6.trans hsh1
      · intro c
        exact (e7 c).trans (wallAt_modifyNode_preserve g n c _ (fun nd => rfl))
      · simp only [List.length_cons]
        omega
    · rw [if_neg hcond]
      obtain ⟨new1, e1, e2, e3, e4, e5, e6, e7, e8⟩ := ih g q hrect
        (fun m hm => hbd m (List.mem_cons_of_mem n hm))
      refine ⟨new1, e1, ?_, e3, e4, ?_, e6, e7, e8⟩
      · intro c hc
        obtain ⟨g1, g2, g3, g4⟩ := e2 c hc
        exact ⟨List.mem_cons_of_mem n g1, g2, g3, g4⟩
      · intro m hm hw
        rcases List.mem_cons.mp hm with rfl | h
        · have hv : visitedAt g m = true := by
            rcases Bool.eq_false_or_eq_true (visitedAt g m) with hh | hh
            · exact hh
            · exact absurd ⟨hw, hh⟩ hcond
          exact (e3 m hv).2
        · exact e5 m h hw

theorem totalCells_congr_shape {g g0 : Grid} (hsh : gridShape g = gridShape g0) :
    totalCells g = totalCells g0 := by
  unfold totalCells
  rw [length_eq_shape, hsh, ← length_eq_shape, gridCols_eq_shape, hsh, ← gridCols_eq_shape]

theorem grid_mul_bound {R C : Nat} (hR : 0 < R) (hC : 0 < C) :
    (R - 1) + (C - 1) < R * C := by
  obtain ⟨r, rfl⟩ : ∃ r, R = r + 1 := ⟨R - 1, by omega⟩
  obtain ⟨c, rfl⟩ : ∃ c, C = c + 1 := ⟨C - 1, by omega⟩
  have h : (r + 1) * (c + 1) = r * c + r + c + 1 := by ring
  omega

theorem manhattanDist_lt_totalCells {g0 : Grid} {s e : Coord}
    (hs1 : s.1 < g0.length) (hs2 : s.2 < gridCols g0)
    (he1 : e.1 < g0.length) (he2 : e.2 < gridCols g0) :
    manhattanDist s e < totalCells g0 := by
  have h1 : manhattanDist s e ≤ (g0.length - 1) + (gridCols g0 - 1) := by
    unfold manhattanDist
    omega
  have h2 := grid_mul_bound (by omega : 0 < g0.length) (by omega : 0 < gridCols g0)
  unfold totalCells
  omega

theorem bfs_layer_bump (grid0 : Grid) (s : Coord) {g : Grid} {queue : List Coord} {d : Nat}
    (hsh : gridShape g = gridShape grid0)
    (hq2 : ∀ c ∈ queue, manhattanDist s c = d + 1)
    (hclo : ∀ c, visitedAt g c = true → c ∈ queue ∨
      (∀ n, n ∈ getNeighbors c g → visitedAt g n = true))
    (hL1 : ∀ c, c.1 < grid0.length → c.2 < gridCols grid0 → manhattanDist s c ≤ d →
      visitedAt g c = true)
    (hs1 : s.1 < grid0.length) (hs2 : s.2 < gridCols grid0) :
    ∀ c, c.1 < grid0.length → c.2 < gridCols grid0 → manhattanDist s c ≤ d + 1 →
      visitedAt g c = true := by
  have hlen : g.length = grid0.length := by
    rw [length_eq_shape, hsh, ← length_eq_shape]
  have hcols : gridCols g = gridCols grid0 := by
    rw [gridCols_eq_shape, hsh, ← gridCols_eq_shape]
  intro c hc1 hc2 hmd
  by_cases hd : manhattanDist s c ≤ d
  · exact hL1 c hc1 hc2 hd
  · have hmd1 : manhattanDist s c = d + 1 := by omega
    obtain ⟨p, hp, hpd⟩ := exists_step_toward (g := g)
      (by omega : c.1 < g.length) (by omega : c.2 < gridCols g)
      (by omega : s.1 < g.length) (by omega : s.2 < gridCols g)
      (by rw [manhattanDist_comm, hmd1]; omega)
    have hpsd : manhattanDist s p = d := by
      have h2 : manhattanDist s p + 1 = manhattanDist s c := by
        rw [manhattanDist_comm s p, manhattanDist_comm s c]
        exact hpd
      omega
    have hpb := mem_getNeighbors_lt hp
    have hpv := hL1 p (by omega) (by omega) (by omega)
    rcases hclo p hpv with hmem | hcl
    · have := hq2 p hmem
      omega
    · exact hcl c (getNeighbors_symm hp (by omega) (by omega))

theorem bfsLoop_optimal (grid0 : Grid) (hrect0 : rectangular grid0) (s e : Coord)
    (hs1 : s.1 < grid0.length) (hs2 : s.2 < gridCols grid0)
    (he1 : e.1 < grid0.length) (he2 : e.2 < gridCols grid0) :
    ∀ (fuel : Nat) (g : Grid) (queue visited : List Coord) (d : Nat),
      gridShape g = gridShape grid0 →
      (∀ c, wallAt g c = false) →
      prevAt g s = none →
      visitedAt g s = true →
      (∀ c, visitedAt g c = true → c ≠ s → ∃ p, prevAt g c = some p ∧
        visitedAt g p = true ∧ manhattanDist s p + 1 = manhattanDist s c) →
      (∀ c ∈ queue, visitedAt g c = true) →
      (∀ c, visitedAt g c = true → c ∈ queue ∨
        (∀ n, n ∈ getNeighbors c g → visitedAt g n = true)) →
      (visitedAt g e = true → e ∈ queue) →
      (∃ q1 q2, queue = q1 ++ q2 ∧ (∀ c ∈ q1, manhattanDist s c = d) ∧
        (∀ c ∈ q2, manhattanDist s c = d + 1)) →
      (∀ c, c.1 < grid0.length → c.2 < gridCols grid0 → manhattanDist s c ≤ d →
        visitedAt g c = true) →
      (∀ c, visitedAt g c = true → c.1 < grid0.length ∧ c.2 < gridCols grid0) →
      countUnvisited g + queue.length ≤ fuel →
      (bfsLoop e fuel g queue visited).path.length = manhattanDist s e + 1 := by
  have hreach : ∀ (g : Grid), gridShape g = gridShape grid0 → (∀ c, wallAt g c = false) →
      Reachable g s e := by
    intro g hsh hw
    have hlen : g.length = grid0.length := by
      rw [length_eq_shape, hsh, ← length_eq_shape]
    have hcols : gridCols g = gridCols grid0 := by
      rw [gridCols_eq_shape, hsh, ← gridCols_eq_shape]
    exact reachable_of_inBounds hw (by omega) (by omega) (manhattanDist s e) e
      (by omega) (by omega) rfl
  intro fuel
  induction fuel with
  | zero =>
    intro g queue visited d hsh hw hP0 hSV hPC hQ hE hHE hLAY hL1 hVB hcnt
    exfalso
    have hqueue : queue = [] := by
      cases queue with
      | nil => rfl
      | cons a l => simp at hcnt
    subst hqueue
    have hvis : visitedAt g e = true := by
      refine reach_closed g (fun c => visitedAt g c) ?_ hSV (hreach g hsh hw)
      intro c hc n hsn
      rcases hE c hc with h | h
      · cases h
      · exact h n hsn.1
    cases hHE hvis
  | succ fu ih =>
    intro g queue visited d hsh hw hP0 hSV hPC hQ hE hHE hLAY hL1 hVB hcnt
    have hlen : g.length = grid0.length := by
      rw [length_eq_shape, hsh, ← length_eq_shape]
    have hcols : gridCols g = gridCols grid0 := by
      rw [gridCols_eq_shape, hsh, ← gridCols_eq_shape]
    cases queue with
    | nil =>
      exfalso
      have hvis : visitedAt g e = true := by
        refine reach_closed g (fun c => visitedAt g c) ?_ hSV (hreach g hsh hw)
        intro c hc n hsn
        rcases hE c hc with h | h
        · cases h
        · exact h n hsn.1
      cases hHE hvis
    | cons current rest =>
      obtain ⟨q1, q2, hqeq, hq1, hq2⟩ := hLAY
      obtain ⟨d', hdc, hq2', hL1'⟩ :
          ∃ d', manhattanDist s current = d' ∧
            (∃ r1 r2, rest = r1 ++ r2 ∧ (∀ c ∈ r1, manhattanDist s c = d') ∧
              (∀ c ∈ r2, manhattanDist s c = d' + 1)) ∧
            (∀ c, c.1 < grid0.length → c.2 < gridCols grid0 → manhattanDist s c ≤ d' →
              visitedAt g c = true) := by
        cases q1 with
        | nil =>
          simp only [List.nil_append] at hqeq
          refine ⟨d + 1, ?_, ⟨rest, [], by simp, ?_, by simp⟩, ?_⟩
          · exact hq2 current (hqeq ▸ List.mem_cons_self current rest)
          · intro c hcm
            exact hq2 c (hqeq ▸ List.mem_cons_of_mem current hcm)
          · refine bfs_layer_bump grid0 s hsh ?_ hE hL1 hs1 hs2
            intro c hcm
            exact hq2 c (hqeq ▸ hcm)
        | cons c0 q1t =>
          rw [List.cons_append] at hqeq
          have hcur : current = c0 ∧ rest = q1t ++ q2 := by
            injection hqeq with h1 h2
            exact ⟨h1, h2⟩
          refine ⟨d, ?_, ⟨q1t, q2, hcur.2, fun c hcm => hq1 c (by simp [hcm]), hq2⟩, hL1⟩
          rw [hcur.1]
          exact hq1 c0 (by simp)
      simp only [bfsLoop]
      by_cases hc : current = e
      · rw [if_pos hc]
        have hev : visitedAt g e = true := by
          rw [← hc]
          exact hQ current (List.mem_cons_self current rest)
        have hmde : manhattanDist s e ≤ totalCells g := by
          have h2 := totalCells_congr_shape hsh
          have h4 := manhattanDist_lt_totalCells hs1 hs2 he1 he2
          omega
        show (reconstructPath g (totalCells g + 1) e).length = manhattanDist s e + 1
        exact reconstructPath_len (M := fun c => visitedAt g c = true) hP0 hPC
          (totalCells g) e hev hmde
      · rw [if_neg hc]
        have hrect : rectangular g := rectangular_congr_shape hsh hrect0
        obtain ⟨r1, r2, hrest, hr1, hr2⟩ := hq2'
        obtain ⟨new, f1, f2, f3, f4, f5, f6, f7, f8⟩ := bfsDiscover_fold_opt current
          (getNeighbors current g) g rest hrect (fun n hn => mem_getNeighbors_lt hn)
        have hcurv : visitedAt g current = true := hQ current (List.mem_cons_self current rest)
        have hnewmd : ∀ c ∈ new, manhattanDist s c = d' + 1 := by
          intro c hcm
          obtain ⟨g1, g2, _, _⟩ := f2 c hcm
          have hb := mem_getNeighbors_lt g1
          rcases manhattanDist_adj s g1 with h | h
          · omega
          · exfalso
            have hcv : visitedAt g c = true := hL1' c (by omega) (by omega) (by omega)
            rw [hcv] at g2
            cases g2
        refine ih _ _ _ d' (f6.trans hsh) (fun c => (f7 c).trans (hw c))
          ((f3 s hSV).1.trans hP0) (f3 s hSV).2 ?_ ?_ ?_ ?_ ?_ ?_ ?_ ?_
        · intro c hcv hcs
          rcases f4 c hcv with hold | hnew
          · obtain ⟨p, hp1, hp2, hp3⟩ := hPC c hold hcs
            exact ⟨p, (f3 c hold).1.trans hp1, (f3 p hp2).2, hp3⟩
          · obtain ⟨hin, hunv, hprev, hvis2⟩ := f2 c hnew
            refine ⟨current, hprev, (f3 current hcurv).2, ?_⟩
            rw [hdc, hnewmd c hnew]
        · intro c hcq
          rw [f1] at hcq
          rcases List.mem_append.mp hcq with h | h
          · exact (f3 c (hQ c (List.mem_cons_of_mem current h))).2
          · exact (f2 c h).2.2.2
        · intro c hcv
          rcases f4 c hcv with hold | hnew
          · rcases hE c hold with hmem | hcl
            · rcases List.mem_cons.mp hmem with h1 | h1
              · subst h1
                right
                intro n hn
                rw [getNeighbors_congr_shape _ _ g f6] at hn
                exact f5 n hn (hw n)
              · left
                rw [f1]
                exact List.mem_append_left _ h1
            · right
              intro n hn
              rw [getNeighbors_congr_shape _ _ g f6] at hn
              exact (f3 n (hcl n hn)).2
          · left
            rw [f1]
            exact List.mem_append_right _ hnew
        · intro hev
          rcases f4 e hev with hold | hnew
          · rcases List.mem_cons.mp (hHE hold) with h1 | h1
            · exact absurd h1.symm hc
            · rw [f1]
              exact List.mem_append_left _ h1
          · rw [f1]
            exact List.mem_append_right _ hnew
        · refine ⟨r1, r2 ++ new, ?_, hr1, ?_⟩
          · rw [f1, hrest, List.append_assoc]
          · intro c hcm
            rcases List.mem_append.mp hcm with h | h
            · exact hr2 c h
            · exact hnewmd c h
        · intro c h1 h2 h3
          exact (f3 c (hL1' c h1 h2 h3)).2
        · intro c hcv
          rcases f4 c hcv with hold | hnew
          · exact hVB c hold
          · have hb := mem_getNeighbors_lt (f2 c hnew).1
            omega
        · simp only [List.length_cons] at hcnt
          rw [f1, List.length_append]
          omega

theorem prevAt_modifyNode_preserve (g : Grid) (c c' : Coord) (f : NodeType → NodeType)
    (hp : ∀ nd, (f nd).previousNode = nd.previousNode) :
    prevAt (modifyNode g c f) c' = prevAt g c' := by
  unfold prevAt
  rw [map_nodeAt?_modifyNode NodeType.previousNode g c c' f hp]

theorem prevAt_resetGrid (g : Grid) (c : Coord) : prevAt (resetGrid g) c = none := by
  unfold prevAt resetGrid nodeAt?
  rw [List.getElem?_map]
  cases g[c.1]? with
  | none => rfl
  | some row =>
    show (((row.map _)[c.2]?).map NodeType.previousNode).getD none = none
    rw [List.getElem?_map]
    cases row[c.2]? with
    | none => rfl
    | some nd => rfl

theorem wallAt_false_of_structural {g : Grid}
    (h : ∀ row ∈ g, ∀ nd ∈ row, nd.isWall = false) (c : Coord) : wallAt g c = false := by
  unfold wallAt nodeAt?
  cases hr : g[c.1]? with
  | none => rfl
  | some row =>
    dsimp only
    cases hc : row[c.2]? with
    | none => rfl
    | some nd =>
      simp only [Option.map_some', Option.getD_some]
      exact h row (List.getElem?_mem hr) nd (List.getElem?_mem hc)

theorem countUnvisited_le_totalCells (g : Grid) (hrect : rectangular g) :
    countUnvisited g ≤ totalCells g := by
  unfold countUnvisited totalCells
  have h : ∀ (l : List (List NodeType)), (∀ r ∈ l, r.length = gridCols g) →
      (l.map fun r => (r.filter fun nd => nd.isVisited = false).length).sum ≤
        l.length * gridCols g := by
    intro l
    induction l with
    | nil => intro _; simp
    | cons a t ih =>
      intro hl
      simp only [List.map_cons, List.sum_cons, List.length_cons]
      have h1 : (a.filter fun nd => nd.isVisited = false).length ≤ a.length :=
        List.length_filter_le _ a
      have h2 := ih (fun r hr => hl r (List.mem_cons_of_mem a hr))
      have h3 := hl a (List.mem_cons_self a t)
      have h4 : (t.length + 1) * gridCols g = t.length * gridCols g + gridCols g := by ring
      omega
  exact h g hrect

theorem bfs_optimal (g : Grid) (hrect : rectangular g) (s e : Coord)
    (hs1 : s.1 < g.length) (hs2 : s.2 < gridCols g)
    (he1 : e.1 < g.length) (he2 : e.2 < gridCols g)
    (hw : ∀ c, wallAt g c = false)
    (hvall : ∀ c, visitedAt g c = false)
    (hprev : ∀ c, prevAt g c = none)
    (hne : e ≠ s) :
    (bfs g s e).path.length = manhattanDist s e + 1 := by
  unfold bfs
  have hfm : ∀ nd : NodeType,
      ({ nd with isVisited := true } : NodeType).isVisited = true := fun nd => rfl
  have hsh1 : gridShape (modifyNode g s fun nd => { nd with isVisited := true })
      = gridShape g := gridShape_modifyNode g s _
  have hsmark : visitedAt (modifyNode g s fun nd => { nd with isVisited := true }) s = true :=
    visitedAt_mark_self g s (inBoundsAt_of_lt hrect hs1 hs2) _ hfm
  have hcnt1 := countUnvisited_modifyNode (f := fun nd => { nd with isVisited := true })
    hfm hrect hs1 hs2 (hvall s)
  have horig : ∀ c, visitedAt (modifyNode g s fun nd => { nd with isVisited := true }) c
       = true → c = s := by
    intro c hcv
    rcases visitedAt_modifyNode_origin g s c _ hcv with h | h
    · exact h
    · rw [hvall] at h
      cases h
  refine bfsLoop_optimal g hrect s e hs1 hs2 he1 he2 _ _ _ _ 0 hsh1
    (fun c => (wallAt_modifyNode_preserve g s c
      (fun nd => { nd with isVisited := true }) (fun nd => rfl)).trans (hw c))
    ((prevAt_modifyNode_preserve g s s
      (fun nd => { nd with isVisited := true }) (fun nd => rfl)).trans (hprev s))
    hsmark ?_ ?_ ?_ ?_ ?_ ?_ ?_ ?_
  · intro c hcv hcs
    exact absurd (horig c hcv) hcs
  · intro c hcm
    rcases List.mem_singleton.mp hcm with rfl
    exact hsmark
  · intro c hcv
    obtain rfl := horig c hcv
    exact Or.inl (List.mem_singleton.mpr rfl)
  · intro hev
    exact absurd (horig e hev) hne
  · refine ⟨[s], [], by simp, ?_, by simp⟩
    intro c hcm
    rcases List.mem_singleton.mp hcm with rfl
    exact manhattanDist_self c
  · intro c hc1 hc2 hc3
    have h0 : manhattanDist s c = 0 := by omega
    obtain rfl := manhattanDist_eq_zero h0
    exact hsmark
  · intro c hcv
    obtain rfl := horig c hcv
    exact ⟨hs1, hs2⟩
  · have h2 := countUnvisited_le_totalCells g hrect
    simp only [List.length_singleton]
    omega

theorem distAt_modifyNode_preserve (g : Grid) (c c' : Coord) (f : NodeType → NodeType)
    (hp : ∀ nd, (f nd).distance = nd.distance) :
    distAt (modifyNode g c f) c' = distAt g c' := by
  unfold distAt
  rw [map_nodeAt?_modifyNode NodeType.distance g c c' f hp]

theorem distAt_modifyNode_ne (g : Grid) (c c' : Coord) (f : NodeType → NodeType)
    (h : c' ≠ c) : distAt (modifyNode g c f) c' = distAt g c' := by
  unfold distAt
  rw [nodeAt?_modifyNode_ne g c c' f h]

theorem distAt_set_self (g : Grid) (c : Coord) (hin : inBoundsAt g c)
    (f : NodeType → NodeType) (v : ℕ∞) (hf : ∀ nd, (f nd).distance = v) :
    distAt (modifyNode g c f) c = v := by
  unfold distAt
  rw [nodeAt?_modifyNode_self g c f]
  unfold inBoundsAt at hin
  cases hnd : nodeAt? g c with
  | none => rw [hnd] at hin; simp at hin
  | some nd => simp [hf]

theorem filter_length_modify_pres {f : NodeType → NodeType}
    (hf : ∀ nd, (f nd).isVisited = nd.isVisited) :
    ∀ (row : List NodeType) (j : Nat),
      ((List.modify f j row).filter fun x => x.isVisited = false).length =
        (row.filter fun x => x.isVisited = false).length := by
  intro row
  induction row with
  | nil =>
    intro j
    rw [list_modify_nil]
  | cons a rest ih =>
    intro j
    cases j with
    | zero =>
      rw [list_modify_cons_zero, List.filter_cons, List.filter_cons]
      by_cases hv : a.isVisited = false
      · rw [if_pos (by simp [hf, hv]), if_pos (by simp [hv])]
        simp only [List.length_cons]
      · rw [if_neg (by simp [hf]; simpa using hv), if_neg (by simpa using hv)]
    | succ j =>
      rw [list_modify_cons_succ, List.filter_cons, List.filter_cons]
      split
      · simp only [List.length_cons, ih j]
      · exact ih j

theorem countUnvisited_modifyNode_pres {f : NodeType → NodeType}
    (hf : ∀ nd, (f nd).isVisited = nd.isVisited) (g : Grid) (c : Coord) :
    countUnvisited (modifyNode g c f) = countUnvisited g := by
  unfold countUnvisited modifyNode
  have h : ∀ (l : List (List NodeType)) (i : Nat),
      ((List.modify (fun row => List.modify f c.2 row) i l).map fun r =>
        (r.filter fun nd => nd.isVisited = false).length).sum =
      (l.map fun r => (r.filter fun nd => nd.isVisited = false).length).sum := by
    intro l
    induction l with
    | nil =>
      intro i
      rw [list_modify_nil]
    | cons r0 rest ih =>
      intro i
      cases i with
      | zero =>
        rw [list_modify_cons_zero]
        simp only [List.map_cons, List.sum_cons]
        rw [filter_length_modify_pres hf]
      | succ i =>
        rw [list_modify_cons_succ]
        simp only [List.map_cons, List.sum_cons]
        rw [ih i]
  exact h g c.1

theorem ucsRelax_eq (current : Coord) (st : Grid × List Coord) (n : Coord) :
    ucsRelax current st n =
      if wallAt st.1 n = false ∧ visitedAt st.1 n = false then
        if distAt st.1 current + 1 < distAt st.1 n then
          if n ∈ st.2 then
            (modifyNode st.1 n fun nd =>
              { nd with distance := distAt st.1 current + 1, previousNode := some current },
              st.2)
          else
            (modifyNode st.1 n fun nd =>
              { nd with distance := distAt st.1 current + 1, previousNode := some current },
              st.2 ++ [n])
        else st
      else st := rfl

theorem ucsRelax_fold_opt (current : Coord) (D : Nat) :
    ∀ (ns : List Coord) (g : Grid) (q : List Coord),
      rectangular g →
      (∀ n ∈ ns, n.1 < g.length ∧ n.2 < gridCols g) →
      visitedAt g current = true →
      distAt g current = (D : ℕ∞) →
      (∀ n ∈ ns, visitedAt g n = false → n ∈ q → ¬((D : ℕ∞) + 1 < distAt g n)) →
      (∀ n ∈ ns, visitedAt g n = false → n ∉ q → distAt g n = ⊤) →
      ∃ new : List Coord,
        (ns.foldl (ucsRelax current) (g, q)).2 = q ++ new ∧
        (∀ c, visitedAt (ns.foldl (ucsRelax current) (g, q)).1 c = visitedAt g c) ∧
        (∀ c ∈ new, c ∈ ns ∧ visitedAt g c = false ∧ c ∉ q ∧
          distAt (ns.foldl (ucsRelax current) (g, q)).1 c = (D : ℕ∞) + 1 ∧
          prevAt (ns.foldl (ucsRelax current) (g, q)).1 c = some current) ∧
        (∀ c, c ∉ new →
          distAt (ns.foldl (ucsRelax current) (g, q)).1 c = distAt g c ∧
          prevAt (ns.foldl (ucsRelax current) (g, q)).1 c = prevAt g c) ∧
        (∀ n ∈ ns, wallAt g n = false → visitedAt g n = false →
          n ∈ (ns.foldl (ucsRelax current) (g, q)).2) ∧
        new.Nodup ∧
        gridShape (ns.foldl (ucsRelax current) (g, q)).1 = gridShape g ∧
        (∀ c, wallAt (ns.foldl (ucsRelax current) (g, q)).1 c = wallAt g c) ∧
        countUnvisited (ns.foldl (ucsRelax current) (g, q)).1 = countUnvisited g := by
  intro ns
  induction ns with
  | nil =>
    intro g q _ _ _ _ _ _
    exact ⟨[], by simp, fun c => rfl, by simp, fun c _ => ⟨rfl, rfl⟩,
      fun n hn => absurd hn (by simp), List.nodup_nil, rfl, fun c => rfl, rfl⟩
  | cons n ns ih =>
    intro g q hrect hbd hcv hcd hQX hT
    simp only [List.foldl_cons]
    rw [ucsRelax_eq]
    dsimp only
    by_cases hcond : wallAt g n = false ∧ visitedAt g n = false
    · rw [if_pos hcond]
      rw [hcd]
      by_cases hupd : (D : ℕ∞) + 1 < distAt g n
      · rw [if_pos hupd]
        have hnq : n ∉ q := by
          intro hmem
          exact hQX n (List.mem_cons_self n ns) hcond.2 hmem hupd
        rw [if_neg hnq]
        have hbn := hbd n (List.mem_cons_self n ns)
        have hin := inBoundsAt_of_lt hrect hbn.1 hbn.2
        have hsh1 : gridShape (modifyNode g n fun nd =>
            { nd with distance := (D : ℕ∞) + 1, previousNode := some current })
            = gridShape g := gridShape_modifyNode g n _
        have hvp : ∀ c, visitedAt (modifyNode g n fun nd =>
            { nd with distance := (D : ℕ∞) + 1, previousNode := some current }) c
            = visitedAt g c :=
          fun c => visitedAt_modifyNode_preserve g n c _ (fun nd => rfl)
        have hwp : ∀ c, wallAt (modifyNode g n fun nd =>
            { nd with distance := (D : ℕ∞) + 1, previousNode := some current }) c
            = wallAt g c :=
          fun c => wallAt_modifyNode_preserve g n c _ (fun nd => rfl)
        have hdn : distAt (modifyNode g n fun nd =>
            { nd with distance := (D : ℕ∞) + 1, previousNode := some current }) n
            = (D : ℕ∞) + 1 :=
          distAt_set_self g n hin _ _ (fun nd => rfl)
        have hpn : prevAt (modifyNode g n fun nd =>
            { nd with distance := (D : ℕ∞) + 1, previousNode := some current }) n
            = some current :=
          prevAt_set_self g n hin _ _ (fun nd => rfl)
        have hncur : n ≠ current := by
          intro hq2
          rw [hq2, hcv] at hcond
          exact absurd hcond.2 (by simp)
        have hcd1 : distAt (modifyNode g n fun nd =>
            { nd with distance := (D : ℕ∞) + 1, previousNode := some current }) current
            = (D : ℕ∞) := by
          rw [distAt_modifyNode_ne g n current _ (fun h => hncur h.symm)]
          exact hcd
        have hQX1 : ∀ m ∈ ns, visitedAt (modifyNode g n fun nd =>
            { nd with distance := (D : ℕ∞) + 1, previousNode := some current }) m = false →
            m ∈ q ++ [n] →
            ¬((D : ℕ∞) + 1 < distAt (modifyNode g n fun nd =>
              { nd with distance := (D : ℕ∞) + 1, previousNode := some current }) m) := by
          intro m hm hmv hmq
          rcases List.mem_append.mp hmq with hq2 | hone
          · by_cases hmn : m = n
            · subst hmn
              rw [hdn]
              simp
            · rw [distAt_modifyNode_ne g n m _ hmn]
              exact hQX m (List.mem_cons_of_mem n hm) (by rw [← hvp m]; exact hmv) hq2
          · rcases List.mem_singleton.mp hone with rfl
            rw [hdn]
            simp
        have hT1 : ∀ m ∈ ns, visitedAt (modifyNode g n fun nd =>
            { nd with distance := (D : ℕ∞) + 1, previousNode := some current }) m = false →
            m ∉ q ++ [n] →
            distAt (modifyNode g n fun nd =>
              { nd with distance := (D : ℕ∞) + 1, previousNode := some current }) m = ⊤ := by
          intro m hm hmv hmq
          have hmn : m ≠ n := fun h =>
            hmq (h ▸ List.mem_append_right q (List.mem_singleton.mpr rfl))
          rw [distAt_modifyNode_ne g n m _ hmn]
          exact hT m (List.mem_cons_of_mem n hm) (by rw [← hvp m]; exact hmv)
            (fun hq2 => hmq (List.mem_append_left _ hq2))
        obtain ⟨new1, e1, e2, e3, e4, e5, e6, e7, e8, e9⟩ := ih
          (modifyNode g n fun nd =>
            { nd with distance := (D : ℕ∞) + 1, previousNode := some current })
          (q ++ [n]) (rectangular_congr_shape hsh1 hrect)
          (bounds_transfer hsh1 (fun m hm => hbd m (List.mem_cons_of_mem n hm)))
          (by rw [hvp]; exact hcv) hcd1 hQX1 hT1
        refine ⟨n :: new1, ?_, ?_, ?_, ?_, ?_, ?_, ?_, ?_, ?_⟩
        · rw [e1, List.append_assoc]
          rfl
        · intro c
          rw [e2 c, hvp c]
        · intro c hcm
          rcases List.mem_cons.mp hcm with rfl | hmem
          · have hnn1 : c ∉ new1 := by
              intro hmem1
              exact absurd (List.mem_append_right q (List.mem_singleton.mpr rfl))
                (e3 c hmem1).2.2.1
            obtain ⟨d1, d2⟩ := e4 c hnn1
            exact ⟨List.mem_cons_self c ns, hcond.2, hnq, d1.trans hdn, d2.trans hpn⟩
          · obtain ⟨m1, m2, m3, m4, m5⟩ := e3 c hmem
            refine ⟨List.mem_cons_of_mem n m1, ?_, fun hq2 =>
              m3 (List.mem_append_left _ hq2), m4, m5⟩
            rw [← hvp c]
            exact m2
        · intro c hcm
          have hcn : c ≠ n := fun h => hcm (h ▸ List.mem_cons_self n new1)
          have hc1 : c ∉ new1 := fun h => hcm (List.mem_cons_of_mem n h)
          obtain ⟨d1, d2⟩ := e4 c hc1
          exact ⟨d1.trans (distAt_modifyNode_ne g n c _ hcn),
            d2.trans (prevAt_modifyNode_ne g n c _ hcn)⟩
        · intro m hm hmw hmv
          rcases List.mem_cons.mp hm with rfl | hmem
          · have : m ∈ q ++ [m] := List.mem_append_right q (List.mem_singleton.mpr rfl)
            rw [e1]
            exact List.mem_append_left _ this
          · exact e5 m hmem (by rw [hwp m]; exact hmw) (by rw [hvp m]; exact hmv)
        · refine List.nodup_cons.mpr ⟨?_, e6⟩
          intro hmem1
          exact absurd (List.mem_append_right q (List.mem_singleton.mpr rfl))
            (e3 n hmem1).2.2.1
        · exact e7.trans hsh1
        · intro c
          rw [e8 c, hwp c]
        · rw [e9]
          exact countUnvisited_modifyNode_pres (f := fun nd =>
            { nd with distance := (D : ℕ∞) + 1, previousNode := some current })
            (fun nd => rfl) g n
      · rw [if_neg hupd]
        have hnq : n ∈ q := by
          by_contra hnq
          refine hupd ?_
          rw [hT n (List.mem_cons_self n ns) hcond.2 hnq]
          refine Ne.lt_top ?_
          have hco : ((D : ℕ∞) + 1) = ((D + 1 : Nat) : ℕ∞) := by push_cast; rfl
          rw [hco]
          exact WithTop.coe_ne_top
        obtain ⟨new1, e1, e2, e3, e4, e5, e6, e7, e8, e9⟩ := ih g q hrect
          (fun m hm => hbd m (List.mem_cons_of_mem n hm)) hcv hcd
          (fun m hm => hQX m (List.mem_cons_of_mem n hm))
          (fun m hm => hT m (List.mem_cons_of_mem n hm))
        refine ⟨new1, e1, e2, ?_, e4, ?_, e6, e7, e8, e9⟩
        · intro c hcm
          obtain ⟨m1, m2, m3, m4, m5⟩ := e3 c hcm
          exact ⟨List.mem_cons_of_mem n m1, m2, m3, m4, m5⟩
        · intro m hm hmw hmv
          rcases List.mem_cons.mp hm with rfl | hmem
          · rw [e1]
            exact List.mem_append_left _ hnq
          · exact e5 m hmem hmw hmv
    · rw [if_neg hcond]
      obtain ⟨new1, e1, e2, e3, e4, e5, e6, e7, e8, e9⟩ := ih g q hrect
        (fun m hm => hbd m (List.mem_cons_of_mem n hm)) hcv hcd
        (fun m hm => hQX m (List.mem_cons_of_mem n hm))
        (fun m hm => hT m (List.mem_cons_of_mem n hm))
      refine ⟨new1, e1, e2, ?_, e4, ?_, e6, e7, e8, e9⟩
      · intro c hcm
        obtain ⟨m1, m2, m3, m4, m5⟩ := e3 c hcm
        exact ⟨List.mem_cons_of_mem n m1, m2, m3, m4, m5⟩
      · intro m hm hmw hmv
        rcases List.mem_cons.mp hm with rfl | hmem
        · exact absurd ⟨hmw, hmv⟩ hcond
        · exact e5 m hmem hmw hmv

theorem ne_of_mem_getNeighbors {g : Grid} {c n : Coord} (h : n ∈ getNeighbors c g) :
    n ≠ c := by
  have hadj := (mem_getNeighbors_iff.mp h).2
  intro he
  subst he
  omega

theorem ucs_downward (grid0 : Grid) (s : Coord) {g : Grid} {F : List Coord} {m : Nat}
    (hsh : gridShape g = gridShape grid0)
    (hs1 : s.1 < grid0.length) (hs2 : s.2 < gridCols grid0)
    (hSV : visitedAt g s = true ∨ s ∈ F)
    (hE : ∀ c, visitedAt g c = true → ∀ n, n ∈ getNeighbors c g →
      visitedAt g n = true ∨ n ∈ F)
    (hFmin : ∀ y ∈ F, m ≤ manhattanDist s y) :
    ∀ (k : Nat) (c : Coord), c.1 < grid0.length → c.2 < gridCols grid0 →
      manhattanDist s c ≤ k → manhattanDist s c < m → visitedAt g c = true := by
  have hlen : g.length = grid0.length := by
    rw [length_eq_shape, hsh, ← length_eq_shape]
  have hcols : gridCols g = gridCols grid0 := by
    rw [gridCols_eq_shape, hsh, ← gridCols_eq_shape]
  have hsvis : manhattanDist s s < m → visitedAt g s = true := by
    intro hm
    rcases hSV with h | h
    · exact h
    · have := hFmin s h
      omega
  intro k
  induction k with
  | zero =>
    intro c hc1 hc2 hk hm
    have h0 : manhattanDist s c = 0 := by omega
    obtain rfl := manhattanDist_eq_zero h0
    exact hsvis (by omega)
  | succ k ih =>
    intro c hc1 hc2 hk hm
    by_cases hcs : c = s
    · subst hcs
      exact hsvis hm
    · have hmc : manhattanDist s c ≠ 0 := fun h => hcs (manhattanDist_eq_zero h).symm
      obtain ⟨p, hp, hpd⟩ := exists_step_toward (g := g)
        (by omega : c.1 < g.length) (by omega : c.2 < gridCols g)
        (by omega : s.1 < g.length) (by omega : s.2 < gridCols g)
        (by rw [manhattanDist_comm]; exact hmc)
      have hpsd : manhattanDist s p + 1 = manhattanDist s c := by
        rw [manhattanDist_comm s p, manhattanDist_comm s c]
        exact hpd
      have hpb := mem_getNeighbors_lt hp
      have hpv := ih p (by omega) (by omega) (by omega) (by omega)
      rcases hE p hpv c (getNeighbors_symm hp (by omega) (by omega)) with h | h
      · exact h
      · have := hFmin c h
        omega

theorem enat_add_one_cast (D : Nat) : ((D : ℕ∞) + 1) = ((D + 1 : Nat) : ℕ∞) := by
  push_cast
  rfl

theorem ucsLoop_optimal (grid0 : Grid) (hrect0 : rectangular grid0) (s e : Coord)
    (hs1 : s.1 < grid0.length) (hs2 : s.2 < gridCols grid0)
    (he1 : e.1 < grid0.length) (he2 : e.2 < gridCols grid0) (hnes : e ≠ s) :
    ∀ (fuel : Nat) (g : Grid) (F visitedOrder : List Coord),
      gridShape g = gridShape grid0 →
      (∀ c, wallAt g c = false) →
      visitedAt g e = false →
      (visitedAt g s = true ∨ s ∈ F) →
      distAt g s = 0 →
      prevAt g s = none →
      (∀ c, visitedAt g c = true → (c.1 < grid0.length ∧ c.2 < gridCols grid0) ∧
        distAt g c = (manhattanDist s c : ℕ∞)) →
      (∀ c ∈ F, visitedAt g c = false ∧ (c.1 < grid0.length ∧ c.2 < gridCols grid0) ∧
        distAt g c = (manhattanDist s c : ℕ∞)) →
      (∀ c, c ≠ s → (visitedAt g c = true ∨ c ∈ F) → ∃ p, prevAt g c = some p ∧
        visitedAt g p = true ∧ manhattanDist s p + 1 = manhattanDist s c) →
      (∀ c, visitedAt g c = true → ∀ n, n ∈ getNeighbors c g →
        visitedAt g n = true ∨ n ∈ F) →
      (∀ c, visitedAt g c = false → c ∉ F → distAt g c = ⊤) →
      F.Nodup →
      countUnvisited g + 1 ≤ fuel →
      (ucsLoop e fuel g F visitedOrder).path.length = manhattanDist s e + 1 := by
  intro fuel
  induction fuel with
  | zero =>
    intro g F vo _ _ _ _ _ _ _ _ _ _ _ _ hcnt
    omega
  | succ fu ih =>
    intro g F vo hsh hw hNE hSV hS0d hS0p hVX hFX hPC hE hT hND hcnt
    have hlen : g.length = grid0.length := by
      rw [length_eq_shape, hsh, ← length_eq_shape]
    have hcols : gridCols g = gridCols grid0 := by
      rw [gridCols_eq_shape, hsh, ← gridCols_eq_shape]
    have hrect : rectangular g := rectangular_congr_shape hsh hrect0
    simp only [ucsLoop]
    cases hs : stableSortBy (fun a b => decide (distAt g a ≤ distAt g b)) F with
    | nil =>
      exfalso
      have hF : F = [] := by
        have hp := stableSortBy_perm (fun a b => decide (distAt g a ≤ distAt g b)) F
        rw [hs] at hp
        exact hp.nil_eq.symm
      subst hF
      have hsv : visitedAt g s = true := by
        rcases hSV with h | h
        · exact h
        · simp at h
      have hvis : visitedAt g e = true := by
        refine reach_closed g (fun c => visitedAt g c) ?_ hsv ?_
        · intro c hcv n hsn
          rcases hE c hcv n hsn.1 with h | h
          · exact h
          · simp at h
        · exact reachable_of_inBounds hw (by omega) (by omega) (manhattanDist s e) e
            (by omega) (by omega) rfl
      rw [hvis] at hNE
      cases hNE
    | cons current rest =>
      have hperm : (current :: rest).Perm F := by
        have hp := stableSortBy_perm (fun a b => decide (distAt g a ≤ distAt g b)) F
        rw [hs] at hp
        exact hp
      have hcurF : current ∈ F := hperm.mem_iff.mp (List.mem_cons_self current rest)
      have hcur := hFX current hcurF
      have hnds : (current :: rest).Nodup := hperm.nodup_iff.mpr hND
      dsimp only
      rw [if_neg (by rw [hw current]; simp)]
      by_cases hc : current = e
      · rw [if_pos hc]
        subst hc
        show (reconstructPath g (totalCells g + 1) current).length =
          manhattanDist s current + 1
        refine reconstructPath_len (M := fun c => visitedAt g c = true ∨ c = current)
          hS0p ?_ (totalCells g) current (Or.inr rfl) ?_
        · intro c hm hcs
          rcases hm with hv | rfl
          · obtain ⟨p, h1, h2, h3⟩ := hPC c hcs (Or.inl hv)
            exact ⟨p, h1, Or.inl h2, h3⟩
          · obtain ⟨p, h1, h2, h3⟩ := hPC c hcs (Or.inr hcurF)
            exact ⟨p, h1, Or.inl h2, h3⟩
        · have h2 := totalCells_congr_shape hsh
          have h4 := manhattanDist_lt_totalCells hs1 hs2 hcur.2.1.1 hcur.2.1.2
          omega
      · rw [if_neg hc]
        have htot : ∀ a b, (decide (distAt g a ≤ distAt g b)) = true ∨
            (decide (distAt g b ≤ distAt g a)) = true := by
          intro a b
          rcases le_total (distAt g a) (distAt g b) with h | h
          · left
            simpa using h
          · right
            simpa using h
        have htrans : ∀ a b c, (decide (distAt g a ≤ distAt g b)) = true →
            (decide (distAt g b ≤ distAt g c)) = true →
            (decide (distAt g a ≤ distAt g c)) = true := by
          intro a b c h1 h2
          simp only [decide_eq_true_eq] at h1 h2 ⊢
          exact le_trans h1 h2
        have hmin : ∀ y ∈ F, manhattanDist s current ≤ manhattanDist s y := by
          intro y hy
          have h1 := stableSortBy_head_le htot htrans hs y hy
          simp only [decide_eq_true_eq] at h1
          rw [hcur.2.2, (hFX y hy).2.2] at h1
          exact_mod_cast h1
        have hK : ∀ c, c.1 < grid0.length → c.2 < gridCols grid0 →
            manhattanDist s c < manhattanDist s current → visitedAt g c = true :=
          fun c h1 h2 h3 => ucs_downward grid0 s hsh hs1 hs2 hSV hE hmin
            (manhattanDist s c) c h1 h2 le_rfl h3
        have hfm : ∀ nd : NodeType,
            ({ nd with isVisited := true } : NodeType).isVisited = true := fun nd => rfl
        have hsh1 : gridShape (modifyNode g current fun nd => { nd with isVisited := true })
            = gridShape g := gridShape_modifyNode g current _
        have hlen1 : (modifyNode g current fun nd =>
            { nd with isVisited := true }).length = grid0.length := by
          rw [length_eq_shape, hsh1, ← length_eq_shape, hlen]
        have hcols1 : gridCols (modifyNode g current fun nd =>
            { nd with isVisited := true }) = gridCols grid0 := by
          rw [gridCols_eq_shape, hsh1, ← gridCols_eq_shape, hcols]
        have hvism : visitedAt (modifyNode g current fun nd =>
            { nd with isVisited := true }) current = true :=
          visitedAt_mark_self g current
            (inBoundsAt_of_lt hrect (by omega) (by omega)) _ hfm
        have hvpres : ∀ c, c ≠ current → visitedAt (modifyNode g current fun nd =>
            { nd with isVisited := true }) c = visitedAt g c :=
          fun c hcc => visitedAt_modifyNode_ne g current c _ hcc
        have hdpres : ∀ c, distAt (modifyNode g current fun nd =>
            { nd with isVisited := true }) c = distAt g c :=
          fun c => distAt_modifyNode_preserve g current c _ (fun nd => rfl)
        have hppres : ∀ c, prevAt (modifyNode g current fun nd =>
            { nd with isVisited := true }) c = prevAt g c :=
          fun c => prevAt_modifyNode_preserve g current c _ (fun nd => rfl)
        have hwpres : ∀ c, wallAt (modifyNode g current fun nd =>
            { nd with isVisited := true }) c = wallAt g c :=
          fun c => wallAt_modifyNode_preserve g current c _ (fun nd => rfl)
        have hcnt1 : countUnvisited (modifyNode g current fun nd =>
            { nd with isVisited := true }) + 1 = countUnvisited g :=
          countUnvisited_modifyNode hfm hrect (by omega) (by omega) hcur.1
        have hvgrid1 : ∀ c, visitedAt (modifyNode g current fun nd =>
            { nd with isVisited := true }) c = true →
            c = current ∨ visitedAt g c = true := by
          intro c hcv
          by_cases hcc : c = current
          · exact Or.inl hcc
          · right
            rw [← hvpres c hcc]
            exact hcv
        have hQXf : ∀ n ∈ getNeighbors current (modifyNode g current fun nd =>
            { nd with isVisited := true }),
            visitedAt (modifyNode g current fun nd =>
              { nd with isVisited := true }) n = false → n ∈ rest →
            ¬((manhattanDist s current : ℕ∞) + 1 <
              distAt (modifyNode g current fun nd => { nd with isVisited := true }) n) := by
          intro n hn hnv hnr
          have hnF : n ∈ F := hperm.mem_iff.mp (List.mem_cons_of_mem current hnr)
          rw [hdpres n, (hFX n hnF).2.2]
          refine not_lt.mpr ?_
          rw [enat_add_one_cast]
          have hadj : manhattanDist s n ≤ manhattanDist s current + 1 := by
            rcases manhattanDist_adj s hn with h | h <;> omega
          exact_mod_cast hadj
        have hTf : ∀ n ∈ getNeighbors current (modifyNode g current fun nd =>
            { nd with isVisited := true }),
            visitedAt (modifyNode g current fun nd =>
              { nd with isVisited := true }) n = false → n ∉ rest →
            distAt (modifyNode g current fun nd => { nd with isVisited := true }) n = ⊤ := by
          intro n hn hnv hnr
          have hcne := ne_of_mem_getNeighbors hn
          have hnF : n ∉ F := by
            intro h2
            rcases List.mem_cons.mp (hperm.mem_iff.mpr h2) with h3 | h3
            · exact hcne h3
            · exact hnr h3
          rw [hdpres n]
          refine hT n ?_ hnF
          rw [← hvpres n hcne]
          exact hnv
        obtain ⟨new, u1, u2, u3, u4, u5, u6, u7, u8, u9⟩ :=
          ucsRelax_fold_opt current (manhattanDist s current)
            (getNeighbors current (modifyNode g current fun nd =>
              { nd with isVisited := true }))
            (modifyNode g current fun nd => { nd with isVisited := true }) rest
            (rectangular_congr_shape hsh1 hrect)
            (fun n hn => mem_getNeighbors_lt hn)
            hvism
            (by rw [hdpres current]; exact hcur.2.2)
            hQXf hTf
        have hnewmd : ∀ c ∈ new, manhattanDist s c = manhattanDist s current + 1 := by
          intro c hcm
          obtain ⟨m1, m2, m3, m4, m5⟩ := u3 c hcm
          have hbn := mem_getNeighbors_lt m1
          have hcne := ne_of_mem_getNeighbors m1
          rcases manhattanDist_adj s m1 with h | h
          · exact h
          · exfalso
            have hv := hK c (by omega) (by omega) (by omega)
            rw [← hvpres c hcne, m2] at hv
            cases hv
        have hnotnew : ∀ c, visitedAt (modifyNode g current fun nd =>
            { nd with isVisited := true }) c = true → c ∉ new := by
          intro c hcv hmem
          rw [(u3 c hmem).2.1] at hcv
          cases hcv
        have hsnew : s ∉ new := by
          intro hmem
          obtain ⟨m1, m2, m3, m4, m5⟩ := u3 s hmem
          by_cases hscur : s = current
          · rw [hscur] at m2
            rw [hvism] at m2
            cases m2
          · rcases hSV with h | h
            · rw [hvpres s hscur, h] at m2
              cases m2
            · rcases List.mem_cons.mp (hperm.mem_iff.mpr h) with h2 | h2
              · exact hscur h2
              · exact m3 h2
        refine ih _ _ _ (u7.trans (hsh1.trans hsh))
          (fun c => (u8 c).trans ((hwpres c).trans (hw c))) ?_ ?_ ?_ ?_ ?_ ?_ ?_ ?_ ?_ ?_ ?_
        · rw [u2 e, hvpres e (fun h => hc h.symm)]
          exact hNE
        · rcases hSV with h | h
          · left
            rw [u2 s]
            by_cases hscur : s = current
            · rw [hscur]
              exact hvism
            · rw [hvpres s hscur]
              exact h
          · rcases List.mem_cons.mp (hperm.mem_iff.mpr h) with h2 | h2
            · left
              rw [u2 s, h2]
              exact hvism
            · right
              rw [u1]
              exact List.mem_append_left _ h2
        · rw [(u4 s hsnew).1, hdpres s]
          exact hS0d
        · rw [(u4 s hsnew).2, hppres s]
          exact hS0p
        · intro c hcv
          rw [u2 c] at hcv
          have hcnew := hnotnew c hcv
          rcases hvgrid1 c hcv with rfl | hvg
          · refine ⟨⟨by omega, by omega⟩, ?_⟩
            rw [(u4 c hcnew).1, hdpres c]
            exact hcur.2.2
          · refine ⟨(hVX c hvg).1, ?_⟩
            rw [(u4 c hcnew).1, hdpres c]
            exact (hVX c hvg).2
        · intro c hcm
          rw [u1] at hcm
          rcases List.mem_append.mp hcm with hrm | hnm
          · have hcF : c ∈ F := hperm.mem_iff.mp (List.mem_cons_of_mem current hrm)
            have hcc : c ≠ current := by
              intro h2
              subst h2
              exact (List.nodup_cons.mp hnds).1 hrm
            have hcnew : c ∉ new := fun h2 => (u3 c h2).2.2.1 hrm
            refine ⟨?_, (hFX c hcF).2.1, ?_⟩
            · rw [u2 c, hvpres c hcc]
              exact (hFX c hcF).1
            · rw [(u4 c hcnew).1, hdpres c]
              exact (hFX c hcF).2.2
          · obtain ⟨m1, m2, m3, m4, m5⟩ := u3 c hnm
            have hbn := mem_getNeighbors_lt m1
            refine ⟨?_, ⟨by omega, by omega⟩, ?_⟩
            · rw [u2 c]
              exact m2
            · rw [m4, hnewmd c hnm, enat_add_one_cast]
        · intro c hcs hmem
          rcases hmem with hcv | hcm
          · rw [u2 c] at hcv
            have hcnew := hnotnew c hcv
            rcases hvgrid1 c hcv with rfl | hvg
            · obtain ⟨p, h1, h2, h3⟩ := hPC c hcs (Or.inr hcurF)
              have hpcc : p ≠ c := by
                intro h4
                subst h4
                rw [h2] at hcur
                exact absurd hcur.1 (by simp)
              refine ⟨p, ?_, ?_, h3⟩
              · rw [(u4 c hcnew).2, hppres c]
                exact h1
              · rw [u2 p, hvpres p hpcc]
                exact h2
            · obtain ⟨p, h1, h2, h3⟩ := hPC c hcs (Or.inl hvg)
              have hpcur : p ≠ current := by
                intro h4
                subst h4
                rw [h2] at hcur
                exact absurd hcur.1 (by simp)
              refine ⟨p, ?_, ?_, h3⟩
              · rw [(u4 c hcnew).2, hppres c]
                exact h1
              · rw [u2 p, hvpres p hpcur]
                exact h2
          · rw [u1] at hcm
            rcases List.mem_append.mp hcm with hrm | hnm
            · have hcF : c ∈ F := hperm.mem_iff.mp (List.mem_cons_of_mem current hrm)
              have hcnew : c ∉ new := fun h2 => (u3 c h2).2.2.1 hrm
              obtain ⟨p, h1, h2, h3⟩ := hPC c hcs (Or.inr hcF)
              have hpcur : p ≠ current := by
                intro h4
                subst h4
                rw [h2] at hcur
                exact absurd hcur.1 (by simp)
              refine ⟨p, ?_, ?_, h3⟩
              · rw [(u4 c hcnew).2, hppres c]
                exact h1
              · rw [u2 p, hvpres p hpcur]
                exact h2
            · obtain ⟨m1, m2, m3, m4, m5⟩ := u3 c hnm
              refine ⟨current, m5, ?_, ?_⟩
              · rw [u2 current]
                exact hvism
              · rw [hnewmd c hnm]
        · intro c hcv n hn
          rw [u2 c] at hcv
          rw [getNeighbors_congr_shape _ _ (modifyNode g current fun nd =>
            { nd with isVisited := true }) u7] at hn
          rcases hvgrid1 c hcv with rfl | hvg
          · by_cases hnv : visitedAt (modifyNode g c fun nd =>
                { nd with isVisited := true }) n = true
            · left
              rw [u2 n]
              exact hnv
            · right
              refine u5 n hn ?_ ?_
              · rw [hwpres n]
                exact hw n
              · rcases Bool.eq_false_or_eq_true (visitedAt (modifyNode g c
                  fun nd => { nd with isVisited := true }) n) with h2 | h2
                · exact absurd h2 hnv
                · exact h2
          · have hng : n ∈ getNeighbors c g := by
              rw [← getNeighbors_congr_shape _ (modifyNode g current fun nd =>
                { nd with isVisited := true }) g hsh1]
              exact hn
            rcases hE c hvg n hng with h2 | h2
            · left
              rw [u2 n]
              by_cases hncur : n = current
              · rw [hncur]
                exact hvism
              · rw [hvpres n hncur]
                exact h2
            · rcases List.mem_cons.mp (hperm.mem_iff.mpr h2) with h3 | h3
              · left
                rw [u2 n, h3]
                exact hvism
              · right
                rw [u1]
                exact List.mem_append_left _ h3
        · intro c hcv hcm
          rw [u2 c] at hcv
          have hccur : c ≠ current := by
            intro h2
            rw [h2, hvism] at hcv
            cases hcv
          have hcnew : c ∉ new := fun h2 => hcm (u1 ▸ List.mem_append_right _ h2)
          have hcrest : c ∉ rest := fun h2 => hcm (u1 ▸ List.mem_append_left _ h2)
          have hcF : c ∉ F := by
            intro h2
            rcases List.mem_cons.mp (hperm.mem_iff.mpr h2) with h3 | h3
            · exact hccur h3
            · exact hcrest h3
          rw [(u4 c hcnew).1, hdpres c]
          refine hT c ?_ hcF
          rw [← hvpres c hccur]
          exact hcv
        · rw [u1]
          rw [List.nodup_append]
          refine ⟨(List.nodup_cons.mp hnds).2, u6, ?_⟩
          intro a ha hb
          exact (u3 a hb).2.2.1 ha
        · rw [u9]
          omega

theorem prevAt_gridMap (g : Grid) (f : NodeType → NodeType)
    (hp : ∀ nd, (f nd).previousNode = nd.previousNode) (c : Coord) :
    prevAt (g.map fun row => row.map f) c = prevAt g c := by
  unfold prevAt
  rw [nodeAt?_gridMap]
  cases nodeAt? g c with
  | none => rfl
  | some nd => simp [hp]

theorem distAt_gridMap_top (g : Grid) (f : NodeType → NodeType)
    (hp : ∀ nd, (f nd).distance = ⊤) (c : Coord) :
    distAt (g.map fun row => row.map f) c = ⊤ := by
  unfold distAt
  rw [nodeAt?_gridMap]
  cases nodeAt? g c with
  | none => rfl
  | some nd => simp [hp]

theorem ucs_optimal (g : Grid) (hrect : rectangular g) (s e : Coord)
    (hs1 : s.1 < g.length) (hs2 : s.2 < gridCols g)
    (he1 : e.1 < g.length) (he2 : e.2 < gridCols g)
    (hw : ∀ c, wallAt g c = false)
    (hvall : ∀ c, visitedAt g c = false)
    (hprev : ∀ c, prevAt g c = none)
    (hne : e ≠ s) :
    (ucs g s e).path.length = manhattanDist s e + 1 := by
  unfold ucs
  have hsh0 : gridShape (g.map fun row => row.map fun nd =>
      { nd with distance := (⊤ : ℕ∞) }) = gridShape g := gridShape_map_map g _
  have hrect0 : rectangular (g.map fun row => row.map fun nd =>
      { nd with distance := (⊤ : ℕ∞) }) := rectangular_congr_shape hsh0 hrect
  have hlen0 : (g.map fun row => row.map fun nd =>
      { nd with distance := (⊤ : ℕ∞) }).length = g.length := by
    rw [length_eq_shape, hsh0, ← length_eq_shape]
  have hcols0 : gridCols (g.map fun row => row.map fun nd =>
      { nd with distance := (⊤ : ℕ∞) }) = gridCols g := by
    rw [gridCols_eq_shape, hsh0, ← gridCols_eq_shape]
  have hin0 : inBoundsAt (g.map fun row => row.map fun nd =>
      { nd with distance := (⊤ : ℕ∞) }) s :=
    inBoundsAt_of_lt hrect0 (by omega) (by omega)
  have hsh1 : gridShape (modifyNode (g.map fun row => row.map fun nd =>
      { nd with distance := (⊤ : ℕ∞) }) s fun nd => { nd with distance := 0 })
      = gridShape g := by
    rw [gridShape_modifyNode, hsh0]
  have hvis1 : ∀ c, visitedAt (modifyNode (g.map fun row => row.map fun nd =>
      { nd with distance := (⊤ : ℕ∞) }) s fun nd => { nd with distance := 0 }) c
      = false := by
    intro c
    rw [visitedAt_modifyNode_preserve _ s c (fun nd => { nd with distance := 0 })
        (fun nd => rfl),
      visitedAt_gridMap g (fun nd => { nd with distance := (⊤ : ℕ∞) }) (fun nd => rfl) c]
    exact hvall c
  have hwall1 : ∀ c, wallAt (modifyNode (g.map fun row => row.map fun nd =>
      { nd with distance := (⊤ : ℕ∞) }) s fun nd => { nd with distance := 0 }) c
      = false := by
    intro c
    rw [wallAt_modifyNode_preserve _ s c (fun nd => { nd with distance := 0 })
        (fun nd => rfl),
      wallAt_gridMap g (fun nd => { nd with distance := (⊤ : ℕ∞) }) (fun nd => rfl) c]
    exact hw c
  have hprev1 : ∀ c, prevAt (modifyNode (g.map fun row => row.map fun nd =>
      { nd with distance := (⊤ : ℕ∞) }) s fun nd => { nd with distance := 0 }) c
      = none := by
    intro c
    rw [prevAt_modifyNode_preserve _ s c (fun nd => { nd with distance := 0 })
        (fun nd => rfl),
      prevAt_gridMap g (fun nd => { nd with distance := (⊤ : ℕ∞) }) (fun nd => rfl) c]
    exact hprev c
  have hdist1s : distAt (modifyNode (g.map fun row => row.map fun nd =>
      { nd with distance := (⊤ : ℕ∞) }) s fun nd => { nd with distance := 0 }) s
      = 0 :=
    distAt_set_self _ s hin0 _ 0 (fun nd => rfl)
  have hdist1ne : ∀ c, c ≠ s → distAt (modifyNode (g.map fun row => row.map fun nd =>
      { nd with distance := (⊤ : ℕ∞) }) s fun nd => { nd with distance := 0 }) c
      = ⊤ := by
    intro c hcs
    rw [distAt_modifyNode_ne _ s c (fun nd => { nd with distance := 0 }) hcs,
      distAt_gridMap_top g (fun nd => { nd with distance := (⊤ : ℕ∞) }) (fun nd => rfl) c]
  have hcnt1 : countUnvisited (modifyNode (g.map fun row => row.map fun nd =>
      { nd with distance := (⊤ : ℕ∞) }) s fun nd => { nd with distance := 0 })
      ≤ totalCells g := by
    rw [countUnvisited_modifyNode_pres (f := fun nd => { nd with distance := (0 : ℕ∞) })
      (fun nd => rfl)]
    have h1 := countUnvisited_le_totalCells _ hrect0
    have h2 := totalCells_congr_shape hsh0
    omega
  refine ucsLoop_optimal g hrect s e hs1 hs2 he1 he2 hne _ _ _ _ hsh1 hwall1
    (hvis1 e) (Or.inr (List.mem_singleton.mpr rfl)) hdist1s (hprev1 s) ?_ ?_ ?_ ?_ ?_
    (List.nodup_singleton s) (by omega)
  · intro c hcv
    rw [hvis1 c] at hcv
    cases hcv
  · intro c hcm
    rcases List.mem_singleton.mp hcm with rfl
    refine ⟨hvis1 c, ⟨hs1, hs2⟩, ?_⟩
    rw [hdist1s, manhattanDist_self]
    simp
  · intro c hcs hmem
    rcases hmem with hcv | hcm
    · rw [hvis1 c] at hcv
      cases hcv
    · exact absurd (List.mem_singleton.mp hcm) hcs
  · intro c hcv
    rw [hvis1 c] at hcv
    cases hcv
  · intro c hcv hcm
    exact hdist1ne c (fun h => hcm (h ▸ List.mem_singleton.mpr rfl))

theorem gScoreAt_modifyNode_preserve (g : Grid) (c c' : Coord) (f : NodeType → NodeType)
    (hp : ∀ nd, (f nd).gScore = nd.gScore) :
    gScoreAt (modifyNode g c f) c' = gScoreAt g c' := by
  unfold gScoreAt
  rw [map_nodeAt?_modifyNode NodeType.gScore g c c' f hp]

theorem gScoreAt_modifyNode_ne (g : Grid) (c c' : Coord) (f : NodeType → NodeType)
    (h : c' ≠ c) : gScoreAt (modifyNode g c f) c' = gScoreAt g c' := by
  unfold gScoreAt
  rw [nodeAt?_modifyNode_ne g c c' f h]

theorem gScoreAt_set_self (g : Grid) (c : Coord) (hin : inBoundsAt g c)
    (f : NodeType → NodeType) (v : ℕ∞) (hf : ∀ nd, (f nd).gScore = v) :
    gScoreAt (modifyNode g c f) c = v := by
  unfold gScoreAt
  rw [nodeAt?_modifyNode_self g c f]
  unfold inBoundsAt at hin
  cases hnd : nodeAt? g c with
  | none => rw [hnd] at hin; simp at hin
  | some nd => simp [hf]

theorem fScoreAt_modifyNode_preserve (g : Grid) (c c' : Coord) (f : NodeType → NodeType)
    (hp : ∀ nd, (f nd).fScore = nd.fScore) :
    fScoreAt (modifyNode g c f) c' = fScoreAt g c' := by
  unfold fScoreAt
  rw [map_nodeAt?_modifyNode NodeType.fScore g c c' f hp]

theorem fScoreAt_modifyNode_ne (g : Grid) (c c' : Coord) (f : NodeType → NodeType)
    (h : c' ≠ c) : fScoreAt (modifyNode g c f) c' = fScoreAt g c' := by
  unfold fScoreAt
  rw [nodeAt?_modifyNode_ne g c c' f h]

theorem fScoreAt_set_self (g : Grid) (c : Coord) (hin : inBoundsAt g c)
    (f : NodeType → NodeType) (v : ℕ∞) (hf : ∀ nd, (f nd).fScore = v) :
    fScoreAt (modifyNode g c f) c = v := by
  unfold fScoreAt
  rw [nodeAt?_modifyNode_self g c f]
  unfold inBoundsAt at hin
  cases hnd : nodeAt? g c with
  | none => rw [hnd] at hin; simp at hin
  | some nd => simp [hf]

theorem gScoreAt_gridMap_top (g : Grid) (f : NodeType → NodeType)
    (hp : ∀ nd, (f nd).gScore = ⊤) (c : Coord) :
    gScoreAt (g.map fun row => row.map f) c = ⊤ := by
  unfold gScoreAt
  rw [nodeAt?_gridMap]
  cases nodeAt? g c with
  | none => rfl
  | some nd => simp [hp]

theorem fScoreAt_gridMap_top (g : Grid) (f : NodeType → NodeType)
    (hp : ∀ nd, (f nd).fScore = ⊤) (c : Coord) :
    fScoreAt (g.map fun row => row.map f) c = ⊤ := by
  unfold fScoreAt
  rw [nodeAt?_gridMap]
  cases nodeAt? g c with
  | none => rfl
  | some nd => simp [hp]

theorem enat_add_cancel {a b : ℕ∞} (x : Nat) (h : a + (x : ℕ∞) ≤ b + (x : ℕ∞)) :
    a ≤ b :=
  WithTop.le_of_add_le_add_right (ENat.coe_ne_top x) h

theorem astarRelax_eq (hfun : Coord → Coord → Nat) (e current : Coord)
    (st : Grid × List Coord) (n : Coord) :
    astarRelax hfun e current st n =
      if wallAt st.1 n = true ∨ visitedAt st.1 n = true then st
      else
        if gScoreAt st.1 current + 1 < gScoreAt st.1 n then
          if n ∈ st.2 then
            (modifyNode st.1 n fun nd =>
              { nd with
                previousNode := some current
                gScore := gScoreAt st.1 current + 1
                fScore := gScoreAt st.1 current + 1 + (hfun n e : ℕ∞) }, st.2)
          else
            (modifyNode st.1 n fun nd =>
              { nd with
                previousNode := some current
                gScore := gScoreAt st.1 current + 1
                fScore := gScoreAt st.1 current + 1 + (hfun n e : ℕ∞) }, st.2 ++ [n])
        else st
      := rfl

theorem enat_coe_add_one_ne_top (G : Nat) : ((G : ℕ∞) + 1) ≠ ⊤ := by
  rw [enat_add_one_cast]
  exact ENat.coe_ne_top (G + 1)

theorem astarRelax_fold_opt (hfun : Coord → Coord → Nat) (e current : Coord) (G : Nat) :
    ∀ (ns : List Coord) (g : Grid) (q : List Coord),
      rectangular g →
      (∀ n ∈ ns, n.1 < g.length ∧ n.2 < gridCols g) →
      visitedAt g current = true →
      gScoreAt g current = (G : ℕ∞) →
      (∀ n ∈ ns, visitedAt g n = false → gScoreAt g n ≠ ⊤ → n ∈ q) →
      ∃ new : List Coord,
        (ns.foldl (astarRelax hfun e current) (g, q)).2 = q ++ new ∧
        (∀ c, visitedAt (ns.foldl (astarRelax hfun e current) (g, q)).1 c
          = visitedAt g c) ∧
        (∀ c ∈ new, c ∈ ns ∧ visitedAt g c = false ∧ c ∉ q) ∧
        (∀ c, (gScoreAt (ns.foldl (astarRelax hfun e current) (g, q)).1 c = gScoreAt g c ∧
            prevAt (ns.foldl (astarRelax hfun e current) (g, q)).1 c = prevAt g c ∧
            fScoreAt (ns.foldl (astarRelax hfun e current) (g, q)).1 c = fScoreAt g c) ∨
          (c ∈ ns ∧ visitedAt g c = false ∧
            c ∈ (ns.foldl (astarRelax hfun e current) (g, q)).2 ∧
            gScoreAt (ns.foldl (astarRelax hfun e current) (g, q)).1 c = (G : ℕ∞) + 1 ∧
            prevAt (ns.foldl (astarRelax hfun e current) (g, q)).1 c = some current ∧
            fScoreAt (ns.foldl (astarRelax hfun e current) (g, q)).1 c
              = ((G : ℕ∞) + 1) + (hfun c e : ℕ∞) ∧
            (G : ℕ∞) + 1 < gScoreAt g c)) ∧
        (∀ n ∈ ns, wallAt g n = false → visitedAt g n = false →
          n ∈ (ns.foldl (astarRelax hfun e current) (g, q)).2 ∧
          gScoreAt (ns.foldl (astarRelax hfun e current) (g, q)).1 n ≤ (G : ℕ∞) + 1) ∧
        new.Nodup ∧
        gridShape (ns.foldl (astarRelax hfun e current) (g, q)).1 = gridShape g ∧
        (∀ c, wallAt (ns.foldl (astarRelax hfun e current) (g, q)).1 c = wallAt g c) ∧
        countUnvisited (ns.foldl (astarRelax hfun e current) (g, q)).1
          = countUnvisited g := by
  intro ns
  induction ns with
  | nil =>
    intro g q _ _ _ _ _
    exact ⟨[], by simp, fun c => rfl, by simp, fun c => Or.inl ⟨rfl, rfl, rfl⟩,
      fun n hn => absurd hn (by simp), List.nodup_nil, rfl, fun c => rfl, rfl⟩
  | cons n ns ih =>
    intro g q hrect hbd hcv hcd hL6
    simp only [List.foldl_cons]
    rw [astarRelax_eq]
    dsimp only
    by_cases hcond : wallAt g n = true ∨ visitedAt g n = true
    · rw [if_pos hcond]
      obtain ⟨new1, e1, e2, e3, e4, e5, e6, e7, e8, e9⟩ := ih g q hrect
        (fun m hm => hbd m (List.mem_cons_of_mem n hm)) hcv hcd
        (fun m hm => hL6 m (List.mem_cons_of_mem n hm))
      refine ⟨new1, e1, e2, ?_, ?_, ?_, e6, e7, e8, e9⟩
      · intro c hcm
        obtain ⟨m1, m2, m3⟩ := e3 c hcm
        exact ⟨List.mem_cons_of_mem n m1, m2, m3⟩
      · intro c
        rcases e4 c with h | ⟨m1, m2, m3, m4, m5, m6, m7⟩
        · exact Or.inl h
        · exact Or.inr ⟨List.mem_cons_of_mem n m1, m2, m3, m4, m5, m6, m7⟩
      · intro m hm hmw hmv
        rcases List.mem_cons.mp hm with rfl | hmem
        · exfalso
          rcases hcond with h | h
          · rw [hmw] at h
            cases h
          · rw [hmv] at h
            cases h
        · exact e5 m hmem hmw hmv
    · rw [if_neg hcond]
      rw [hcd]
      by_cases hupd : (G : ℕ∞) + 1 < gScoreAt g n
      · rw [if_pos hupd]
        have hnv : visitedAt g n = false := by
          rcases Bool.eq_false_or_eq_true (visitedAt g n) with h | h
          · exact absurd (Or.inr h) hcond
          · exact h
        have hncur : n ≠ current := by
          intro h2
          rw [h2, hcv] at hnv
          cases hnv
        have hbn := hbd n (List.mem_cons_self n ns)
        have hin := inBoundsAt_of_lt hrect hbn.1 hbn.2
        have hsh1 : gridShape (modifyNode g n fun nd =>
            { nd with
              previousNode := some current
              gScore := (G : ℕ∞) + 1
              fScore := (G : ℕ∞) + 1 + (hfun n e : ℕ∞) }) = gridShape g :=
          gridShape_modifyNode g n _
        have hvp : ∀ c, visitedAt (modifyNode g n fun nd =>
            { nd with
              previousNode := some current
              gScore := (G : ℕ∞) + 1
              fScore := (G : ℕ∞) + 1 + (hfun n e : ℕ∞) }) c = visitedAt g c :=
          fun c => visitedAt_modifyNode_preserve g n c _ (fun nd => rfl)
        have hwp : ∀ c, wallAt (modifyNode g n fun nd =>
            { nd with
              previousNode := some current
              gScore := (G : ℕ∞) + 1
              fScore := (G : ℕ∞) + 1 + (hfun n e : ℕ∞) }) c = wallAt g c :=
          fun c => wallAt_modifyNode_preserve g n c _ (fun nd => rfl)
        have hgn : gScoreAt (modifyNode g n fun nd =>
            { nd with
              previousNode := some current
              gScore := (G : ℕ∞) + 1
              fScore := (G : ℕ∞) + 1 + (hfun n e : ℕ∞) }) n = (G : ℕ∞) + 1 :=
          gScoreAt_set_self g n hin _ _ (fun nd => rfl)
        have hpn : prevAt (modifyNode g n fun nd =>
            { nd with
              previousNode := some current
              gScore := (G : ℕ∞) + 1
              fScore := (G : ℕ∞) + 1 + (hfun n e : ℕ∞) }) n = some current :=
          prevAt_set_self g n hin _ _ (fun nd => rfl)
        have hfn : fScoreAt (modifyNode g n fun nd =>
            { nd with
              previousNode := some current
              gScore := (G : ℕ∞) + 1
              fScore := (G : ℕ∞) + 1 + (hfun n e : ℕ∞) }) n
            = (G : ℕ∞) + 1 + (hfun n e : ℕ∞) :=
          fScoreAt_set_self g n hin _ _ (fun nd => rfl)
        have hgne : ∀ c, c ≠ n → gScoreAt (modifyNode g n fun nd =>
            { nd with
              previousNode := some current
              gScore := (G : ℕ∞) + 1
              fScore := (G : ℕ∞) + 1 + (hfun n e : ℕ∞) }) c = gScoreAt g c :=
          fun c hcn => gScoreAt_modifyNode_ne g n c _ hcn
        have hpne : ∀ c, c ≠ n → prevAt (modifyNode g n fun nd =>
            { nd with
              previousNode := some current
              gScore := (G : ℕ∞) + 1
              fScore := (G : ℕ∞) + 1 + (hfun n e : ℕ∞) }) c = prevAt g c :=
          fun c hcn => prevAt_modifyNode_ne g n c _ hcn
        have hfne : ∀ c, c ≠ n → fScoreAt (modifyNode g n fun nd =>
            { nd with
              previousNode := some current
              gScore := (G : ℕ∞) + 1
              fScore := (G : ℕ∞) + 1 + (hfun n e : ℕ∞) }) c = fScoreAt g c :=
          fun c hcn => fScoreAt_modifyNode_ne g n c _ hcn
        have hcur1 : gScoreAt (modifyNode g n fun nd =>
            { nd with
              previousNode := some current
              gScore := (G : ℕ∞) + 1
              fScore := (G : ℕ∞) + 1 + (hfun n e : ℕ∞) }) current = (G : ℕ∞) :=
          (hgne current (fun h => hncur h.symm)).trans hcd
        by_cases hnq : n ∈ q
        · rw [if_pos hnq]
          have hL6a : ∀ m ∈ ns, visitedAt (modifyNode g n fun nd =>
              { nd with
                previousNode := some current
                gScore := (G : ℕ∞) + 1
                fScore := (G : ℕ∞) + 1 + (hfun n e : ℕ∞) }) m = false →
              gScoreAt (modifyNode g n fun nd =>
                { nd with
                  previousNode := some current
                  gScore := (G : ℕ∞) + 1
                  fScore := (G : ℕ∞) + 1 + (hfun n e : ℕ∞) }) m ≠ ⊤ → m ∈ q := by
            intro m hm hmv hmn
            by_cases hcn : m = n
            · subst hcn
              exact hnq
            · refine hL6 m (List.mem_cons_of_mem n hm) ?_ ?_
              · rw [← hvp m]
                exact hmv
              · rw [← hgne m hcn]
                exact hmn
          obtain ⟨new1, e1, e2, e3, e4, e5, e6, e7, e8, e9⟩ := ih _ q
            (rectangular_congr_shape hsh1 hrect)
            (bounds_transfer hsh1 (fun m hm => hbd m (List.mem_cons_of_mem n hm)))
            (by rw [hvp]; exact hcv) hcur1 hL6a
          refine ⟨new1, e1, ?_, ?_, ?_, ?_, e6, e7.trans hsh1, ?_, ?_⟩
          · intro c
            rw [e2 c, hvp c]
          · intro c hcm
            obtain ⟨m1, m2, m3⟩ := e3 c hcm
            refine ⟨List.mem_cons_of_mem n m1, ?_, m3⟩
            rw [← hvp c]
            exact m2
          · intro c
            by_cases hcn : c = n
            · subst hcn
              right
              rcases e4 c with ⟨k1, k2, k3⟩ | ⟨m1, m2, m3, m4, m5, m6, m7⟩
              · refine ⟨List.mem_cons_self c ns, hnv, ?_, k1.trans hgn,
                  k2.trans hpn, k3.trans hfn, hupd⟩
                rw [e1]
                exact List.mem_append_left _ hnq
              · rw [hgn] at m7
                exact absurd m7 (lt_irrefl _)
            · rcases e4 c with ⟨k1, k2, k3⟩ | ⟨m1, m2, m3, m4, m5, m6, m7⟩
              · exact Or.inl ⟨k1.trans (hgne c hcn), k2.trans (hpne c hcn),
                  k3.trans (hfne c hcn)⟩
              · refine Or.inr ⟨List.mem_cons_of_mem n m1, ?_, m3, m4, m5, m6, ?_⟩
                · rw [← hvp c]
                  exact m2
                · rw [← hgne c hcn]
                  exact m7
          · intro m hm hmw hmv
            rcases List.mem_cons.mp hm with rfl | hmem
            · constructor
              · rw [e1]
                exact List.mem_append_left _ hnq
              · rcases e4 m with ⟨k1, _, _⟩ | ⟨_, _, _, m4, _, _, _⟩
                · rw [k1, hgn]
                · rw [m4]
            · exact e5 m hmem (by rw [hwp m]; exact hmw) (by rw [hvp m]; exact hmv)
          · intro c
            rw [e8 c, hwp c]
          · rw [e9]
            exact countUnvisited_modifyNode_pres (f := fun nd =>
              { nd with
                previousNode := some current
                gScore := (G : ℕ∞) + 1
                fScore := (G : ℕ∞) + 1 + (hfun n e : ℕ∞) }) (fun nd => rfl) g n
        · rw [if_neg hnq]
          have hL6b : ∀ m ∈ ns, visitedAt (modifyNode g n fun nd =>
              { nd with
                previousNode := some current
                gScore := (G : ℕ∞) + 1
                fScore := (G : ℕ∞) + 1 + (hfun n e : ℕ∞) }) m = false →
              gScoreAt (modifyNode g n fun nd =>
                { nd with
                  previousNode := some current
                  gScore := (G : ℕ∞) + 1
                  fScore := (G : ℕ∞) + 1 + (hfun n e : ℕ∞) }) m ≠ ⊤ →
              m ∈ q ++ [n] := by
            intro m hm hmv hmn
            by_cases hcn : m = n
            · subst hcn
              exact List.mem_append_right _ (List.mem_singleton.mpr rfl)
            · refine List.mem_append_left _ (hL6 m (List.mem_cons_of_mem n hm) ?_ ?_)
              · rw [← hvp m]
                exact hmv
              · rw [← hgne m hcn]
                exact hmn
          obtain ⟨new1, e1, e2, e3, e4, e5, e6, e7, e8, e9⟩ := ih _ (q ++ [n])
            (rectangular_congr_shape hsh1 hrect)
            (bounds_transfer hsh1 (fun m hm => hbd m (List.mem_cons_of_mem n hm)))
            (by rw [hvp]; exact hcv) hcur1 hL6b
          refine ⟨n :: new1, ?_, ?_, ?_, ?_, ?_, ?_, e7.trans hsh1, ?_, ?_⟩
          · rw [e1, List.append_assoc]
            rfl
          · intro c
            rw [e2 c, hvp c]
          · intro c hcm
            rcases List.mem_cons.mp hcm with rfl | hmem
            · exact ⟨List.mem_cons_self c ns, hnv, hnq⟩
            · obtain ⟨m1, m2, m3⟩ := e3 c hmem
              refine ⟨List.mem_cons_of_mem n m1, ?_, fun h2 =>
                m3 (List.mem_append_left _ h2)⟩
              rw [← hvp c]
              exact m2
          · intro c
            by_cases hcn : c = n
            · subst hcn
              right
              rcases e4 c with ⟨k1, k2, k3⟩ | ⟨m1, m2, m3, m4, m5, m6, m7⟩
              · refine ⟨List.mem_cons_self c ns, hnv, ?_, k1.trans hgn,
                  k2.trans hpn, k3.trans hfn, hupd⟩
                rw [e1]
                exact List.mem_append_left _ (List.mem_append_right _
                  (List.mem_singleton.mpr rfl))
              · rw [hgn] at m7
                exact absurd m7 (lt_irrefl _)
            · rcases e4 c with ⟨k1, k2, k3⟩ | ⟨m1, m2, m3, m4, m5, m6, m7⟩
              · exact Or.inl ⟨k1.trans (hgne c hcn), k2.trans (hpne c hcn),
                  k3.trans (hfne c hcn)⟩
              · refine Or.inr ⟨List.mem_cons_of_mem n m1, ?_, m3, m4, m5, m6, ?_⟩
                · rw [← hvp c]
                  exact m2
                · rw [← hgne c hcn]
                  exact m7
          · intro m hm hmw hmv
            rcases List.mem_cons.mp hm with rfl | hmem
            · constructor
              · rw [e1]
                exact List.mem_append_left _ (List.mem_append_right _
                  (List.mem_singleton.mpr rfl))
              · rcases e4 m with ⟨k1, _, _⟩ | ⟨_, _, _, m4, _, _, _⟩
                · rw [k1, hgn]
                · rw [m4]
            · exact e5 m hmem (by rw [hwp m]; exact hmw) (by rw [hvp m]; exact hmv)
          · refine List.nodup_cons.mpr ⟨?_, e6⟩
            intro hmem1
            exact (e3 n hmem1).2.2 (List.mem_append_right _ (List.mem_singleton.mpr rfl))
          · intro c
            rw [e8 c, hwp c]
          · rw [e9]
            exact countUnvisited_modifyNode_pres (f := fun nd =>
              { nd with
                previousNode := some current
                gScore := (G : ℕ∞) + 1
                fScore := (G : ℕ∞) + 1 + (hfun n e : ℕ∞) }) (fun nd => rfl) g n
      · rw [if_neg hupd]
        have hle : gScoreAt g n ≤ (G : ℕ∞) + 1 := not_lt.mp hupd
        obtain ⟨new1, e1, e2, e3, e4, e5, e6, e7, e8, e9⟩ := ih g q hrect
          (fun m hm => hbd m (List.mem_cons_of_mem n hm)) hcv hcd
          (fun m hm => hL6 m (List.mem_cons_of_mem n hm))
        refine ⟨new1, e1, e2, ?_, ?_, ?_, e6, e7, e8, e9⟩
        · intro c hcm
          obtain ⟨m1, m2, m3⟩ := e3 c hcm
          exact ⟨List.mem_cons_of_mem n m1, m2, m3⟩
        · intro c
          rcases e4 c with h | ⟨m1, m2, m3, m4, m5, m6, m7⟩
          · exact Or.inl h
          · exact Or.inr ⟨List.mem_cons_of_mem n m1, m2, m3, m4, m5, m6, m7⟩
        · intro m hm hmw hmv
          rcases List.mem_cons.mp hm with rfl | hmem
          · have hmq : m ∈ q := by
              refine hL6 m (List.mem_cons_self m ns) hmv ?_
              intro h2
              rw [h2] at hle
              exact absurd (top_le_iff.mp hle) (enat_coe_add_one_ne_top G)
            constructor
            · rw [e1]
              exact List.mem_append_left _ hmq
            · rcases e4 m with ⟨k1, _, _⟩ | ⟨_, _, _, m4, _, _, _⟩
              · rw [k1]
                exact hle
              · rw [m4]
          · exact e5 m hmem hmw hmv

theorem astar_open_path (grid0 : Grid) (s : Coord) {g : Grid} {O : List Coord}
    (hsh : gridShape g = gridShape grid0)
    (hs1 : s.1 < grid0.length) (hs2 : s.2 < gridCols grid0)
    (hSV : visitedAt g s = true ∨ s ∈ O)
    (hAS0 : gScoreAt g s = 0)
    (hGLB : ∀ c, (manhattanDist s c : ℕ∞) ≤ gScoreAt g c)
    (hAVE : ∀ c, visitedAt g c = true →
      (c.1 < grid0.length ∧ c.2 < gridCols grid0) ∧
      gScoreAt g c = (manhattanDist s c : ℕ∞))
    (hAE : ∀ c, visitedAt g c = true → ∀ n, n ∈ getNeighbors c g →
      visitedAt g n = true ∨ (n ∈ O ∧ gScoreAt g n ≤ gScoreAt g c + 1)) :
    ∀ (z : Coord), z.1 < grid0.length → z.2 < gridCols grid0 → visitedAt g z = false →
      ∃ y, y ∈ O ∧ gScoreAt g y = (manhattanDist s y : ℕ∞) ∧
        manhattanDist s y + manhattanDist y z = manhattanDist s z := by
  have hlen : g.length = grid0.length := by
    rw [length_eq_shape, hsh, ← length_eq_shape]
  have hcols : gridCols g = gridCols grid0 := by
    rw [gridCols_eq_shape, hsh, ← gridCols_eq_shape]
  intro z hz1 hz2 hz
  rcases hSV with hsv | hso
  · have aux : ∀ (k : Nat) (v : Coord), visitedAt g v = true →
        gScoreAt g v = (manhattanDist s v : ℕ∞) →
        manhattanDist s v + manhattanDist v z = manhattanDist s z →
        manhattanDist v z ≤ k →
        ∃ y, y ∈ O ∧ gScoreAt g y = (manhattanDist s y : ℕ∞) ∧
          manhattanDist s y + manhattanDist y z = manhattanDist s z := by
      intro k
      induction k with
      | zero =>
        intro v hvv hvg hvp hvk
        exfalso
        have h0 : manhattanDist v z = 0 := by omega
        obtain rfl := manhattanDist_eq_zero h0
        rw [hvv] at hz
        cases hz
      | succ k ih =>
        intro v hvv hvg hvp hvk
        have hvb := (hAVE v hvv).1
        have hvz : manhattanDist v z ≠ 0 := by
          intro h0
          obtain rfl := manhattanDist_eq_zero h0
          rw [hvv] at hz
          cases hz
        obtain ⟨w, hw, hwd⟩ := exists_step_toward (g := g)
          (by omega : v.1 < g.length) (by omega : v.2 < gridCols g)
          (by omega : z.1 < g.length) (by omega : z.2 < gridCols g) hvz
        have hadj : manhattanDist s w ≤ manhattanDist s v + 1 := by
          rcases manhattanDist_adj s hw with h | h <;> omega
        have htri : manhattanDist s z ≤ manhattanDist s w + manhattanDist w z :=
          manhattanDist_triangle s w z
        have hwsd : manhattanDist s w = manhattanDist s v + 1 := by omega
        have hwp : manhattanDist s w + manhattanDist w z = manhattanDist s z := by omega
        rcases hAE v hvv w hw with hwv | ⟨hwO, hwg⟩
        · exact ih w hwv ((hAVE w hwv).2) hwp (by omega)
        · refine ⟨w, hwO, ?_, hwp⟩
          refine le_antisymm ?_ (hGLB w)
          rw [hvg, enat_add_one_cast, ← hwsd] at hwg
          exact hwg
    refine aux (manhattanDist s z) s hsv ?_ ?_ le_rfl
    · rw [hAS0, manhattanDist_self]
      simp
    · rw [manhattanDist_self]
      omega
  · refine ⟨s, hso, ?_, ?_⟩
    · rw [hAS0, manhattanDist_self]
      simp
    · rw [manhattanDist_self]
      omega

theorem enat_exists_coe {x : ℕ∞} (h : x ≠ ⊤) : ∃ k : Nat, x = (k : ℕ∞) := by
  induction x using WithTop.recTopCoe with
  | top => exact absurd rfl h
  | coe a => exact ⟨a, rfl⟩

theorem astarLoop_optimal (grid0 : Grid) (hrect0 : rectangular grid0) (s e : Coord)
    (hs1 : s.1 < grid0.length) (hs2 : s.2 < gridCols grid0)
    (he1 : e.1 < grid0.length) (he2 : e.2 < gridCols grid0) (hnes : e ≠ s) :
    ∀ (fuel : Nat) (g : Grid) (O visitedOrder : List Coord),
      gridShape g = gridShape grid0 →
      (∀ c, wallAt g c = false) →
      visitedAt g e = false →
      (visitedAt g s = true ∨ s ∈ O) →
      gScoreAt g s = 0 →
      prevAt g s = none →
      (∀ c, (manhattanDist s c : ℕ∞) ≤ gScoreAt g c) →
      (∀ c, fScoreAt g c = gScoreAt g c + (manhattanDist c e : ℕ∞)) →
      (∀ c, visitedAt g c = true →
        (c.1 < grid0.length ∧ c.2 < gridCols grid0) ∧
        gScoreAt g c = (manhattanDist s c : ℕ∞)) →
      (∀ c ∈ O, (c.1 < grid0.length ∧ c.2 < gridCols grid0) ∧
        visitedAt g c = false) →
      (∀ c, c ≠ s → gScoreAt g c ≠ ⊤ → ∃ p, prevAt g c = some p ∧
        gScoreAt g p + 1 ≤ gScoreAt g c ∧
        manhattanDist s c ≤ manhattanDist s p + 1) →
      (∀ c, visitedAt g c = true → ∀ n, n ∈ getNeighbors c g →
        visitedAt g n = true ∨ (n ∈ O ∧ gScoreAt g n ≤ gScoreAt g c + 1)) →
      (∀ c, gScoreAt g c ≠ ⊤ → visitedAt g c = true ∨ c ∈ O) →
      O.Nodup →
      countUnvisited g + 1 ≤ fuel →
      (astarLoop manhattanDist e fuel g O visitedOrder).path.length
        = manhattanDist s e + 1 := by
  intro fuel
  induction fuel with
  | zero =>
    intro g O vo _ _ _ _ _ _ _ _ _ _ _ _ _ _ hcnt
    omega
  | succ fu ih =>
    intro g O vo hsh hw hNE hSV hAS0 hP0 hGLB hAF hAVE hAB hAPC hAE hAL6 hND hcnt
    have hlen : g.length = grid0.length := by
      rw [length_eq_shape, hsh, ← length_eq_shape]
    have hcols : gridCols g = gridCols grid0 := by
      rw [gridCols_eq_shape, hsh, ← gridCols_eq_shape]
    have hrect : rectangular g := rectangular_congr_shape hsh hrect0
    simp only [astarLoop]
    cases hs : stableSortBy (fun a b => decide (fScoreAt g a ≤ fScoreAt g b)) O with
    | nil =>
      exfalso
      have hF : O = [] := by
        have hp := stableSortBy_perm (fun a b => decide (fScoreAt g a ≤ fScoreAt g b)) O
        rw [hs] at hp
        exact hp.nil_eq.symm
      subst hF
      have hsv : visitedAt g s = true := by
        rcases hSV with h | h
        · exact h
        · simp at h
      have hvis : visitedAt g e = true := by
        refine reach_closed g (fun c => visitedAt g c) ?_ hsv ?_
        · intro c hcv n hsn
          rcases hAE c hcv n hsn.1 with h | h
          · exact h
          · simp at h
        · exact reachable_of_inBounds hw (by omega) (by omega) (manhattanDist s e) e
            (by omega) (by omega) rfl
      rw [hvis] at hNE
      cases hNE
    | cons current rest =>
      have hperm : (current :: rest).Perm O := by
        have hp := stableSortBy_perm (fun a b => decide (fScoreAt g a ≤ fScoreAt g b)) O
        rw [hs] at hp
        exact hp
      have hcurO : current ∈ O := hperm.mem_iff.mp (List.mem_cons_self current rest)
      have hcur := hAB current hcurO
      have hnds : (current :: rest).Nodup := hperm.nodup_iff.mpr hND
      have htot : ∀ a b, (decide (fScoreAt g a ≤ fScoreAt g b)) = true ∨
          (decide (fScoreAt g b ≤ fScoreAt g a)) = true := by
        intro a b
        rcases le_total (fScoreAt g a) (fScoreAt g b) with h | h
        · left
          simpa using h
        · right
          simpa using h
      have htrans : ∀ a b c, (decide (fScoreAt g a ≤ fScoreAt g b)) = true →
          (decide (fScoreAt g b ≤ fScoreAt g c)) = true →
          (decide (fScoreAt g a ≤ fScoreAt g c)) = true := by
        intro a b c h1 h2
        simp only [decide_eq_true_eq] at h1 h2 ⊢
        exact le_trans h1 h2
      have hfmin : ∀ y ∈ O, fScoreAt g current ≤ fScoreAt g y := by
        intro y hy
        have h1 := stableSortBy_head_le htot htrans hs y hy
        simpa using h1
      obtain ⟨y, hyO, hyg, hyp⟩ := astar_open_path grid0 s hsh hs1 hs2 hSV hAS0
        hGLB hAVE hAE current hcur.1.1 hcur.1.2 hcur.2
      have hexact : gScoreAt g current = (manhattanDist s current : ℕ∞) := by
        refine le_antisymm ?_ (hGLB current)
        have h1 : fScoreAt g y ≤ ((manhattanDist s current : Nat) : ℕ∞) +
            ((manhattanDist current e : Nat) : ℕ∞) := by
          rw [hAF y, hyg]
          have htri := manhattanDist_triangle y current e
          have h2 : manhattanDist s y + manhattanDist y e ≤
              manhattanDist s current + manhattanDist current e := by omega
          calc (manhattanDist s y : ℕ∞) + (manhattanDist y e : ℕ∞)
              = ((manhattanDist s y + manhattanDist y e : Nat) : ℕ∞) := by push_cast; rfl
            _ ≤ ((manhattanDist s current + manhattanDist current e : Nat) : ℕ∞) := by
                exact_mod_cast h2
            _ = ((manhattanDist s current : Nat) : ℕ∞) +
                ((manhattanDist current e : Nat) : ℕ∞) := by push_cast; rfl
        have h3 : gScoreAt g current + (manhattanDist current e : ℕ∞) ≤
            ((manhattanDist s current : Nat) : ℕ∞) +
            ((manhattanDist current e : Nat) : ℕ∞) := by
          rw [← hAF current]
          exact le_trans (hfmin y hyO) h1
        exact enat_add_cancel (manhattanDist current e) h3
      dsimp only
      rw [if_neg (by rw [hw current]; simp)]
      have hfm : ∀ nd : NodeType,
          ({ nd with isVisited := true } : NodeType).isVisited = true := fun nd => rfl
      have hsh1 : gridShape (modifyNode g current fun nd => { nd with isVisited := true })
          = gridShape g := gridShape_modifyNode g current _
      have hlen1 : (modifyNode g current fun nd =>
          { nd with isVisited := true }).length = grid0.length := by
        rw [length_eq_shape, hsh1, ← length_eq_shape, hlen]
      have hcols1 : gridCols (modifyNode g current fun nd =>
          { nd with isVisited := true }) = gridCols grid0 := by
        rw [gridCols_eq_shape, hsh1, ← gridCols_eq_shape, hcols]
      have hvism : visitedAt (modifyNode g current fun nd =>
          { nd with isVisited := true }) current = true :=
        visitedAt_mark_self g current
          (inBoundsAt_of_lt hrect (by omega) (by omega)) _ hfm
      have hvpres : ∀ c, c ≠ current → visitedAt (modifyNode g current fun nd =>
          { nd with isVisited := true }) c = visitedAt g c :=
        fun c hcc => visitedAt_modifyNode_ne g current c _ hcc
      have hgpres : ∀ c, gScoreAt (modifyNode g current fun nd =>
          { nd with isVisited := true }) c = gScoreAt g c :=
        fun c => gScoreAt_modifyNode_preserve g current c _ (fun nd => rfl)
      have hfpres : ∀ c, fScoreAt (modifyNode g current fun nd =>
          { nd with isVisited := true }) c = fScoreAt g c :=
        fun c => fScoreAt_modifyNode_preserve g current c _ (fun nd => rfl)
      have hppres : ∀ c, prevAt (modifyNode g current fun nd =>
          { nd with isVisited := true }) c = prevAt g c :=
        fun c => prevAt_modifyNode_preserve g current c _ (fun nd => rfl)
      have hwpres : ∀ c, wallAt (modifyNode g current fun nd =>
          { nd with isVisited := true }) c = wallAt g c :=
        fun c => wallAt_modifyNode_preserve g current c _ (fun nd => rfl)
      have hcnt1 : countUnvisited (modifyNode g current fun nd =>
          { nd with isVisited := true }) + 1 = countUnvisited g :=
        countUnvisited_modifyNode hfm hrect (by omega) (by omega) hcur.2
      have hvgrid1 : ∀ c, visitedAt (modifyNode g current fun nd =>
          { nd with isVisited := true }) c = true →
          c = current ∨ visitedAt g c = true := by
        intro c hcv
        by_cases hcc : c = current
        · exact Or.inl hcc
        · right
          rw [← hvpres c hcc]
          exact hcv
      by_cases hc : current = e
      · rw [if_pos hc]
        show (reconstructPath (modifyNode g current fun nd => { nd with isVisited := true })
          (totalCells (modifyNode g current fun nd => { nd with isVisited := true }) + 1)
          e).length = manhattanDist s e + 1
        have hMstep : ∀ c, gScoreAt g c = (manhattanDist s c : ℕ∞) → c ≠ s →
            ∃ p, prevAt g c = some p ∧ gScoreAt g p = (manhattanDist s p : ℕ∞) ∧
              manhattanDist s p + 1 = manhattanDist s c := by
          intro c hcg hcs
          have hne : gScoreAt g c ≠ ⊤ := by
            rw [hcg]
            exact ENat.coe_ne_top _
          obtain ⟨p, h1, h2, h3⟩ := hAPC c hcs hne
          have hptop : gScoreAt g p ≠ ⊤ := by
            intro h4
            rw [h4, top_add, hcg, top_le_iff] at h2
            exact ENat.coe_ne_top _ h2
          obtain ⟨k, hk⟩ := enat_exists_coe hptop
          have hglbp := hGLB p
          rw [hk] at h2 hglbp
          rw [hcg, enat_add_one_cast] at h2
          have h5 : k + 1 ≤ manhattanDist s c := by exact_mod_cast h2
          have h6 : manhattanDist s p ≤ k := by exact_mod_cast hglbp
          have h7 : k = manhattanDist s p := by omega
          refine ⟨p, h1, ?_, by omega⟩
          rw [hk]
          exact_mod_cast h7
        refine reconstructPath_len
          (M := fun c => gScoreAt (modifyNode g current fun nd =>
            { nd with isVisited := true }) c = (manhattanDist s c : ℕ∞)) ?_ ?_ _ e ?_ ?_
        · rw [hppres s]
          exact hP0
        · intro c hm hcs
          dsimp only at hm ⊢
          rw [hgpres c] at hm
          obtain ⟨p, h1, h2, h3⟩ := hMstep c hm hcs
          refine ⟨p, ?_, ?_, h3⟩
          · rw [hppres c]
            exact h1
          · rw [hgpres p]
            exact h2
        · dsimp only
          rw [hgpres e, ← hc]
          exact hexact
        · have h2 := totalCells_congr_shape (hsh1.trans hsh)
          have h4 := manhattanDist_lt_totalCells hs1 hs2 he1 he2
          omega
      · rw [if_neg hc]
        have hcd1 : gScoreAt (modifyNode g current fun nd =>
            { nd with isVisited := true }) current
            = ((manhattanDist s current : Nat) : ℕ∞) := by
          rw [hgpres current]
          exact hexact
        have hL6f : ∀ n ∈ getNeighbors current (modifyNode g current fun nd =>
            { nd with isVisited := true }),
            visitedAt (modifyNode g current fun nd =>
              { nd with isVisited := true }) n = false →
            gScoreAt (modifyNode g current fun nd =>
              { nd with isVisited := true }) n ≠ ⊤ → n ∈ rest := by
          intro n hn hnv hnt
          have hncur : n ≠ current := by
            intro h2
            rw [h2, hvism] at hnv
            cases hnv
          rw [hgpres n] at hnt
          rcases hAL6 n hnt with h2 | h2
          · rw [hvpres n hncur, h2] at hnv
            cases hnv
          · rcases List.mem_cons.mp (hperm.mem_iff.mpr h2) with h3 | h3
            · exact absurd h3 hncur
            · exact h3
        obtain ⟨new, u1, u2, u3, u4, u5, u6, u7, u8, u9⟩ :=
          astarRelax_fold_opt manhattanDist e current (manhattanDist s current)
            (getNeighbors current (modifyNode g current fun nd =>
              { nd with isVisited := true }))
            (modifyNode g current fun nd => { nd with isVisited := true }) rest
            (rectangular_congr_shape hsh1 hrect)
            (fun n hn => mem_getNeighbors_lt hn)
            hvism hcd1 hL6f
        have hnotnew : ∀ c, visitedAt (modifyNode g current fun nd =>
            { nd with isVisited := true }) c = true → c ∉ new := by
          intro c hcv hmem
          rw [(u3 c hmem).2.1] at hcv
          cases hcv
        have hadjns : ∀ c, c ∈ getNeighbors current (modifyNode g current fun nd =>
            { nd with isVisited := true }) →
            manhattanDist s c ≤ manhattanDist s current + 1 := by
          intro c hcm
          rcases manhattanDist_adj s hcm with h | h <;> omega
        have hupd_or : ∀ c, (gScoreAt ((getNeighbors current (modifyNode g current fun nd =>
            { nd with isVisited := true })).foldl
              (astarRelax manhattanDist e current)
              (modifyNode g current fun nd => { nd with isVisited := true }, rest)).1 c
            ≤ gScoreAt g c) := by
          intro c
          rcases u4 c with ⟨k1, _, _⟩ | ⟨_, _, _, m4, _, _, m7⟩
          · rw [k1, hgpres c]
          · rw [m4]
            rw [hgpres c] at m7
            exact le_of_lt m7
        refine ih _ _ _ (u7.trans (hsh1.trans hsh))
          (fun c => (u8 c).trans ((hwpres c).trans (hw c)))
          ?_ ?_ ?_ ?_ ?_ ?_ ?_ ?_ ?_ ?_ ?_ ?_ ?_
        · rw [u2 e, hvpres e (fun h => hc h.symm)]
          exact hNE
        · rcases hSV with h | h
          · left
            rw [u2 s]
            by_cases hscur : s = current
            · rw [hscur]
              exact hvism
            · rw [hvpres s hscur]
              exact h
          · rcases List.mem_cons.mp (hperm.mem_iff.mpr h) with h2 | h2
            · left
              rw [u2 s, h2]
              exact hvism
            · right
              rw [u1]
              exact List.mem_append_left _ h2
        · rcases u4 s with ⟨k1, _, _⟩ | ⟨_, _, _, _, _, _, m7⟩
          · rw [k1, hgpres s]
            exact hAS0
          · exfalso
            rw [hgpres s, hAS0] at m7
            exact absurd m7 (not_lt.mpr (zero_le _))
        · rcases u4 s with ⟨_, k2, _⟩ | ⟨_, _, _, _, _, _, m7⟩
          · rw [k2, hppres s]
            exact hP0
          · exfalso
            rw [hgpres s, hAS0] at m7
            exact absurd m7 (not_lt.mpr (zero_le _))
        · intro c
          rcases u4 c with ⟨k1, _, _⟩ | ⟨m1, _, _, m4, _, _, _⟩
          · rw [k1, hgpres c]
            exact hGLB c
          · rw [m4, enat_add_one_cast]
            exact_mod_cast hadjns c m1
        · intro c
          rcases u4 c with ⟨k1, k2, k3⟩ | ⟨_, _, _, m4, _, m6, _⟩
          · rw [k3, k1, hfpres c, hgpres c]
            exact hAF c
          · rw [m6, m4]
        · intro c hcv
          rw [u2 c] at hcv
          have hcnew := hnotnew c hcv
          rcases u4 c with ⟨k1, _, _⟩ | ⟨_, m2, _, _, _, _, _⟩
          · rw [k1, hgpres c]
            rcases hvgrid1 c hcv with rfl | hvg
            · exact ⟨⟨by omega, by omega⟩, hexact⟩
            · exact hAVE c hvg
          · rw [m2] at hcv
            cases hcv
        · intro c hcm
          rw [u1] at hcm
          rcases List.mem_append.mp hcm with hrm | hnm
          · have hcO : c ∈ O := hperm.mem_iff.mp (List.mem_cons_of_mem current hrm)
            have hcc : c ≠ current := by
              intro h2
              subst h2
              exact (List.nodup_cons.mp hnds).1 hrm
            refine ⟨(hAB c hcO).1, ?_⟩
            rw [u2 c, hvpres c hcc]
            exact (hAB c hcO).2
          · obtain ⟨m1, m2, m3⟩ := u3 c hnm
            have hbn := mem_getNeighbors_lt m1
            refine ⟨⟨by omega, by omega⟩, ?_⟩
            rw [u2 c]
            exact m2
        · intro c hcs hct
          rcases u4 c with ⟨k1, k2, _⟩ | ⟨m1, _, m3, m4, m5, _, m7⟩
          · rw [k1, hgpres c] at hct ⊢
            rw [k2, hppres c]
            obtain ⟨p, h1, h2, h3⟩ := hAPC c hcs hct
            refine ⟨p, h1, ?_, h3⟩
            calc gScoreAt ((getNeighbors current (modifyNode g current fun nd =>
                  { nd with isVisited := true })).foldl
                  (astarRelax manhattanDist e current)
                  (modifyNode g current fun nd => { nd with isVisited := true },
                    rest)).1 p + 1
                ≤ gScoreAt g p + 1 := add_le_add_right (hupd_or p) 1
              _ ≤ gScoreAt g c := h2
          · refine ⟨current, m5, ?_, hadjns c m1⟩
            rcases u4 current with ⟨k1, _, _⟩ | ⟨_, m2c, _, _, _, _, _⟩
            · rw [k1, hgpres current, hexact, m4]
            · rw [m2c] at hvism
              cases hvism
        · intro c hcv n hn
          rw [u2 c] at hcv
          rw [getNeighbors_congr_shape _ _ (modifyNode g current fun nd =>
            { nd with isVisited := true }) u7] at hn
          rcases hvgrid1 c hcv with rfl | hvg
          · by_cases hnv : visitedAt (modifyNode g c fun nd =>
                { nd with isVisited := true }) n = true
            · left
              rw [u2 n]
              exact hnv
            · have hnv2 : visitedAt (modifyNode g c fun nd =>
                  { nd with isVisited := true }) n = false := by
                rcases Bool.eq_false_or_eq_true (visitedAt (modifyNode g c
                    fun nd => { nd with isVisited := true }) n) with h2 | h2
                · exact absurd h2 hnv
                · exact h2
              obtain ⟨hc1, hc2⟩ := u5 n hn (by rw [hwpres n]; exact hw n) hnv2
              right
              refine ⟨hc1, ?_⟩
              have hcur2 : gScoreAt ((getNeighbors c (modifyNode g c fun nd =>
                  { nd with isVisited := true })).foldl
                  (astarRelax manhattanDist e c)
                  (modifyNode g c fun nd => { nd with isVisited := true }, rest)).1 c
                  = ((manhattanDist s c : Nat) : ℕ∞) := by
                rcases u4 c with ⟨k1, _, _⟩ | ⟨_, m2c, _, _, _, _, _⟩
                · rw [k1, hgpres c]
                  exact hexact
                · rw [m2c] at hvism
                  cases hvism
              rw [hcur2]
              exact hc2
          · have hng : n ∈ getNeighbors c g := by
              rw [← getNeighbors_congr_shape _ (modifyNode g current fun nd =>
                { nd with isVisited := true }) g hsh1]
              exact hn
            rcases hAE c hvg n hng with h2 | ⟨h2, h3⟩
            · left
              rw [u2 n]
              by_cases hncur : n = current
              · rw [hncur]
                exact hvism
              · rw [hvpres n hncur]
                exact h2
            · rcases List.mem_cons.mp (hperm.mem_iff.mpr h2) with h4 | h4
              · left
                rw [u2 n, h4]
                exact hvism
              · right
                refine ⟨u1 ▸ List.mem_append_left _ h4, ?_⟩
                have hcpres : gScoreAt ((getNeighbors current (modifyNode g current
                    fun nd => { nd with isVisited := true })).foldl
                    (astarRelax manhattanDist e current)
                    (modifyNode g current fun nd => { nd with isVisited := true },
                      rest)).1 c = gScoreAt g c := by
                  rcases u4 c with ⟨k1, _, _⟩ | ⟨_, m2c, _, _, _, _, _⟩
                  · rw [k1, hgpres c]
                  · exfalso
                    have : c ≠ current := by
                      intro h5
                      rw [h5, hcur.2] at hvg
                      cases hvg
                    rw [hvpres c this, hvg] at m2c
                    cases m2c
                rw [hcpres]
                exact le_trans (hupd_or n) h3
        · intro c hct
          rcases u4 c with ⟨k1, _, _⟩ | ⟨_, _, m3, _, _, _, _⟩
          · rw [k1, hgpres c] at hct
            rcases hAL6 c hct with h2 | h2
            · left
              rw [u2 c]
              by_cases hccur : c = current
              · rw [hccur]
                exact hvism
              · rw [hvpres c hccur]
                exact h2
            · rcases List.mem_cons.mp (hperm.mem_iff.mpr h2) with h3 | h3
              · left
                rw [u2 c, h3]
                exact hvism
              · right
                rw [u1]
                exact List.mem_append_left _ h3
          · exact Or.inr m3
        · rw [u1, List.nodup_append]
          refine ⟨(List.nodup_cons.mp hnds).2, u6, ?_⟩
          intro a ha hb
          exact (u3 a hb).2.2 ha
        · rw [u9]
          omega

theorem astar_optimal (g : Grid) (hrect : rectangular g) (s e : Coord)
    (hs1 : s.1 < g.length) (hs2 : s.2 < gridCols g)
    (he1 : e.1 < g.length) (he2 : e.2 < gridCols g)
    (hw : ∀ c, wallAt g c = false)
    (hvall : ∀ c, visitedAt g c = false)
    (hprev : ∀ c, prevAt g c = none)
    (hne : e ≠ s) :
    (astar g s e).path.length = manhattanDist s e + 1 := by
  unfold astar
  have hsh0 : gridShape (g.map fun row => row.map fun nd =>
      { nd with gScore := (⊤ : ℕ∞), fScore := (⊤ : ℕ∞) }) = gridShape g :=
    gridShape_map_map g _
  have hrect0 : rectangular (g.map fun row => row.map fun nd =>
      { nd with gScore := (⊤ : ℕ∞), fScore := (⊤ : ℕ∞) }) :=
    rectangular_congr_shape hsh0 hrect
  have hlen0 : (g.map fun row => row.map fun nd =>
      { nd with gScore := (⊤ : ℕ∞), fScore := (⊤ : ℕ∞) }).length = g.length := by
    rw [length_eq_shape, hsh0, ← length_eq_shape]
  have hcols0 : gridCols (g.map fun row => row.map fun nd =>
      { nd with gScore := (⊤ : ℕ∞), fScore := (⊤ : ℕ∞) }) = gridCols g := by
    rw [gridCols_eq_shape, hsh0, ← gridCols_eq_shape]
  have hin0 : inBoundsAt (g.map fun row => row.map fun nd =>
      { nd with gScore := (⊤ : ℕ∞), fScore := (⊤ : ℕ∞) }) s :=
    inBoundsAt_of_lt hrect0 (by omega) (by omega)
  have hsh1 : gridShape (modifyNode (g.map fun row => row.map fun nd =>
      { nd with gScore := (⊤ : ℕ∞), fScore := (⊤ : ℕ∞) }) s fun nd =>
      { nd with gScore := 0, fScore := (manhattanDist s e : ℕ∞) }) = gridShape g := by
    rw [gridShape_modifyNode, hsh0]
  have hvis1 : ∀ c, visitedAt (modifyNode (g.map fun row => row.map fun nd =>
      { nd with gScore := (⊤ : ℕ∞), fScore := (⊤ : ℕ∞) }) s fun nd =>
      { nd with gScore := 0, fScore := (manhattanDist s e : ℕ∞) }) c = false := by
    intro c
    rw [visitedAt_modifyNode_preserve _ s c (fun nd =>
        { nd with gScore := 0, fScore := (manhattanDist s e : ℕ∞) }) (fun nd => rfl),
      visitedAt_gridMap g (fun nd => { nd with gScore := (⊤ : ℕ∞), fScore := (⊤ : ℕ∞) })
        (fun nd => rfl) c]
    exact hvall c
  have hwall1 : ∀ c, wallAt (modifyNode (g.map fun row => row.map fun nd =>
      { nd with gScore := (⊤ : ℕ∞), fScore := (⊤ : ℕ∞) }) s fun nd =>
      { nd with gScore := 0, fScore := (manhattanDist s e : ℕ∞) }) c = false := by
    intro c
    rw [wallAt_modifyNode_preserve _ s c (fun nd =>
        { nd with gScore := 0, fScore := (manhattanDist s e : ℕ∞) }) (fun nd => rfl),
      wallAt_gridMap g (fun nd => { nd with gScore := (⊤ : ℕ∞), fScore := (⊤ : ℕ∞) })
        (fun nd => rfl) c]
    exact hw c
  have hprev1 : ∀ c, prevAt (modifyNode (g.map fun row => row.map fun nd =>
      { nd with gScore := (⊤ : ℕ∞), fScore := (⊤ : ℕ∞) }) s fun nd =>
      { nd with gScore := 0, fScore := (manhattanDist s e : ℕ∞) }) c = none := by
    intro c
    rw [prevAt_modifyNode_preserve _ s c (fun nd =>
        { nd with gScore := 0, fScore := (manhattanDist s e : ℕ∞) }) (fun nd => rfl),
      prevAt_gridMap g (fun nd => { nd with gScore := (⊤ : ℕ∞), fScore := (⊤ : ℕ∞) })
        (fun nd => rfl) c]
    exact hprev c
  have hg1s : gScoreAt (modifyNode (g.map fun row => row.map fun nd =>
      { nd with gScore := (⊤ : ℕ∞), fScore := (⊤ : ℕ∞) }) s fun nd =>
      { nd with gScore := 0, fScore := (manhattanDist s e : ℕ∞) }) s = 0 :=
    gScoreAt_set_self _ s hin0 _ 0 (fun nd => rfl)
  have hf1s : fScoreAt (modifyNode (g.map fun row => row.map fun nd =>
      { nd with gScore := (⊤ : ℕ∞), fScore := (⊤ : ℕ∞) }) s fun nd =>
      { nd with gScore := 0, fScore := (manhattanDist s e : ℕ∞) }) s
      = (manhattanDist s e : ℕ∞) :=
    fScoreAt_set_self _ s hin0 _ _ (fun nd => rfl)
  have hg1ne : ∀ c, c ≠ s → gScoreAt (modifyNode (g.map fun row => row.map fun nd =>
      { nd with gScore := (⊤ : ℕ∞), fScore := (⊤ : ℕ∞) }) s fun nd =>
      { nd with gScore := 0, fScore := (manhattanDist s e : ℕ∞) }) c = ⊤ := by
    intro c hcs
    rw [gScoreAt_modifyNode_ne _ s c (fun nd =>
        { nd with gScore := 0, fScore := (manhattanDist s e : ℕ∞) }) hcs,
      gScoreAt_gridMap_top g (fun nd => { nd with gScore := (⊤ : ℕ∞), fScore := (⊤ : ℕ∞) })
        (fun nd => rfl) c]
  have hf1ne : ∀ c, c ≠ s → fScoreAt (modifyNode (g.map fun row => row.map fun nd =>
      { nd with gScore := (⊤ : ℕ∞), fScore := (⊤ : ℕ∞) }) s fun nd =>
      { nd with gScore := 0, fScore := (manhattanDist s e : ℕ∞) }) c = ⊤ := by
    intro c hcs
    rw [fScoreAt_modifyNode_ne _ s c (fun nd =>
        { nd with gScore := 0, fScore := (manhattanDist s e : ℕ∞) }) hcs,
      fScoreAt_gridMap_top g (fun nd => { nd with gScore := (⊤ : ℕ∞), fScore := (⊤ : ℕ∞) })
        (fun nd => rfl) c]
  have hcnt1 : countUnvisited (modifyNode (g.map fun row => row.map fun nd =>
      { nd with gScore := (⊤ : ℕ∞), fScore := (⊤ : ℕ∞) }) s fun nd =>
      { nd with gScore := 0, fScore := (manhattanDist s e : ℕ∞) }) ≤ totalCells g := by
    rw [countUnvisited_modifyNode_pres (f := fun nd =>
        { nd with gScore := (0 : ℕ∞), fScore := (manhattanDist s e : ℕ∞) })
      (fun nd => rfl)]
    have h1 := countUnvisited_le_totalCells _ hrect0
    have h2 := totalCells_congr_shape hsh0
    omega
  refine astarLoop_optimal g hrect s e hs1 hs2 he1 he2 hne _ _ _ _ hsh1 hwall1
    (hvis1 e) (Or.inr (List.mem_singleton.mpr rfl)) hg1s (hprev1 s) ?_ ?_ ?_ ?_ ?_ ?_ ?_
    (List.nodup_singleton s) (by omega)
  · intro c
    by_cases hcs : c = s
    · subst hcs
      rw [hg1s, manhattanDist_self]
      simp
    · rw [hg1ne c hcs]
      exact le_top
  · intro c
    by_cases hcs : c = s
    · subst hcs
      rw [hf1s, hg1s, zero_add]
    · rw [hf1ne c hcs, hg1ne c hcs, top_add]
  · intro c hcv
    rw [hvis1 c] at hcv
    cases hcv
  · intro c hcm
    rcases List.mem_singleton.mp hcm with rfl
    exact ⟨⟨hs1, hs2⟩, hvis1 c⟩
  · intro c hcs hct
    exact absurd (hg1ne c hcs) hct
  · intro c hcv
    rw [hvis1 c] at hcv
    cases hcv
  · intro c hct
    right
    by_cases hcs : c = s
    · exact hcs ▸ List.mem_singleton.mpr rfl
    · exact absurd (hg1ne c hcs) hct

/-- C5: on every obstacle-free (no-wall) grid, after a `resetGrid` clear,
`bfs`, `ucs` and `astar` (with its default Manhattan heuristic) between
distinct in-bounds start and goal cells each return a path whose length is
the Manhattan distance between the endpoints plus one (both endpoints
included); in particular on a 5×5 empty grid from (0,0) to (4,4) the path
has length 9. -/
theorem empty_grid_shortest_paths (grid : Grid) (hrect : rectangular grid)
    (hnw : ∀ row ∈ grid, ∀ nd ∈ row, nd.isWall = false)
    (s e : Coord)
    (hs1 : s.1 < grid.length) (hs2 : s.2 < gridCols grid)
    (he1 : e.1 < grid.length) (he2 : e.2 < gridCols grid)
    (hne : s ≠ e) :
    (bfs (resetGrid grid) s e).path.length = manhattanDist s e + 1 ∧
    (ucs (resetGrid grid) s e).path.length = manhattanDist s e + 1 ∧
    (astar (resetGrid grid) s e).path.length = manhattanDist s e + 1 := by
  have hshr := gridShape_resetGrid grid
  have hlenr : (resetGrid grid).length = grid.length := by
    rw [length_eq_shape, hshr, ← length_eq_shape]
  have hcolsr : gridCols (resetGrid grid) = gridCols grid := by
    rw [gridCols_eq_shape, hshr, ← gridCols_eq_shape]
  have hrectr : rectangular (resetGrid grid) := rectangular_congr_shape hshr hrect
  have hwr : ∀ c, wallAt (resetGrid grid) c = false := by
    intro c
    rw [wallAt_resetGrid]
    exact wallAt_false_of_structural hnw c
  exact ⟨bfs_optimal (resetGrid grid) hrectr s e (by omega) (by omega) (by omega)
      (by omega) hwr (visitedAt_resetGrid grid) (prevAt_resetGrid grid) (Ne.symm hne),
    ucs_optimal (resetGrid grid) hrectr s e (by omega) (by omega) (by omega)
      (by omega) hwr (visitedAt_resetGrid grid) (prevAt_resetGrid grid) (Ne.symm hne),
    astar_optimal (resetGrid grid) hrectr s e (by omega) (by omega) (by omega)
      (by omega) hwr (visitedAt_resetGrid grid) (prevAt_resetGrid grid) (Ne.symm hne)⟩

theorem empty_grid_shortest_paths_witness :
    rectangular (createGrid 5 5) ∧ ((0, 0) : Coord) ≠ (4, 4) ∧
      (bfs (resetGrid (createGrid 5 5)) (0, 0) (4, 4)).path.length = 9 ∧
      (ucs (resetGrid (createGrid 5 5)) (0, 0) (4, 4)).path.length = 9 ∧
      (astar (resetGrid (createGrid 5 5)) (0, 0) (4, 4)).path.length = 9 := by
  have h := empty_grid_shortest_paths (createGrid 5 5) (by unfold rectangular; decide)
    (by decide) (0, 0) (4, 4) (by decide) (by decide) (by decide) (by decide) (by decide)
  refine ⟨by unfold rectangular; decide, by decide, ?_, ?_, ?_⟩
  · rw [h.1]
    decide
  · rw [h.2.1]
    decide
  · rw [h.2.2]
    decide
